import Mathlib

/-!
Verification development for the display-backend reconciliation engine.

The Domain Service (src/src/services/DisplayService.js) is embedded shallowly:
each repository-backed operation becomes a function in a state-and-exception
monad `M` over a storage model.  The four repositories (Display, View,
ContentSlot, ContentSlotOption) are not part of the analysed sources; they are
modelled from the specification of the persistence layer (spec section 6:
create(fields) to id, get-by-id to record or not-found, get-by-parent-id to
sequence, update in place, delete; option rows keyed by (slotId, key)).
Repository calls are logged in a trace so that ordering properties can be
stated, and a fault set allows a storage operation to be made to fail
(spec section 7 names StorageFailure as a possible outcome of any persistence
operation).

Asynchronous JavaScript is flattened to sequential execution.  The two places
where DisplayService starts a promise chain without awaiting it are marked:
the option reconciliation launched on lines 211 and 218 (wrapped in
`unawaited`, which runs the task in place and discards its outcome, including
a rejection) and the views-changed notification chains (wrapped in
`ignoreFailure`, mirroring the explicit catch-and-log in the source).
-/


structure Display where
  id : Nat
  name : String
  active : Bool
  clientId : String
  description : String
  location : String
deriving Repr, DecidableEq

structure View where
  id : Nat
  name : String
  columns : Nat
  rows : Nat
  displayId : Nat
  order : Nat
  screenType : String
deriving Repr, DecidableEq

structure ContentSlot where
  id : Nat
  componentType : String
  viewId : Nat
  columnStart : Nat
  rowStart : Nat
  columnEnd : Nat
  rowEnd : Nat
deriving Repr, DecidableEq

/-- ContentSlotOption: a key/value attribute owned by one content slot.
Values are opaque scalars to the engine; they are modelled as strings. -/
structure SlotOption where
  slotId : Nat
  key : String
  value : String
deriving Repr, DecidableEq

/-- Storage: the persisted state behind the four repositories, with fresh-id
counters for the three entity tables that allocate identities. -/
structure Storage where
  displays : List Display
  views : List View
  slots : List ContentSlot
  options : List SlotOption
  nextDisplayId : Nat
  nextViewId : Nat
  nextSlotId : Nat
deriving Repr, DecidableEq

/-- SlotDescriptor: one element of the desired slot list submitted to
updateContentSlotsForView.  A descriptor without an id denotes a new slot.
The source never reads a viewId from the submitted object (line 217 resupplies
the reconciler's own view argument), so the field is carried but unused. -/
structure SlotDescriptor where
  id? : Option Nat
  componentType : String
  viewId? : Option Nat
  columnStart : Nat
  rowStart : Nat
  columnEnd : Nat
  rowEnd : Nat
  options : Option (List (String × String))
deriving Repr, DecidableEq

/-- RepoCall: one invocation of a repository operation, with its arguments,
as logged in the order the service issues them. -/
inductive RepoCall where
  | getContentSlotsByViewId (viewId : Nat)
  | deleteOptionsForContentSlot (slotId : Nat)
  | deleteContentSlot (slotId : Nat)
  | createContentSlot (componentType : String) (viewId : Nat) (cs rs ce re : Nat)
  | getContentSlot (slotId : Nat)
  | updateContentSlot (slotId : Nat) (componentType : String) (viewId : Nat) (cs rs ce re : Nat)
  | getOptionsForContentSlot (slotId : Nat)
  | deleteOption (slotId : Nat) (key : String)
  | updateOption (slotId : Nat) (key : String) (value : String)
  | createOption (slotId : Nat) (key : String) (value : String)
  | getViewById (viewId : Nat)
  | getViewsByDisplayIdAndScreenType (displayId : Nat) (screenType : String)
  | createView (name : String) (columns rows : Nat) (displayId : Nat) (order : Nat) (screenType : String)
  | updateView (viewId : Nat) (name : String) (columns rows : Nat) (displayId : Nat) (order : Nat) (screenType : String)
  | deleteView (viewId : Nat)
  | getDisplayById (displayId : Nat)
  | createDisplay (name : String) (active : Bool) (clientId : String) (description location : String)
  | updateDisplay (displayId : Nat) (name : String) (active : Bool) (clientId : String) (description location : String)
  | deleteDisplay (displayId : Nat)
deriving Repr, DecidableEq

/-- Event: a notification emitted on the service's change-notification
channel, with its payload. -/
inductive Event where
  | display_created (d : Display)
  | display_updated (d : Display)
  | display_deleted (d : Display)
  | views_updated (d : Display)
deriving Repr, DecidableEq

/-- Err: the failure kinds of the persistence layer (spec section 7). -/
inductive Err where
  | notFound
  | storageFailure
deriving Repr, DecidableEq

/-- St: storage plus the observation apparatus: the ordered log of repository
calls, the emitted events, and the set of repository calls configured to fail
with a storage failure (empty for a run against non-failing storage). -/
structure St where
  store : Storage
  calls : List RepoCall
  events : List Event
  faultOn : List RepoCall
deriving Repr, DecidableEq

/-- M: the embedding monad.  A failure carries the state reached so far, since
the persistence layer has no transactions and applied effects stay persisted. -/
def M (α : Type) : Type := St → Except Err α × St

def M.run (m : M α) (s : St) : Except Err α × St := m s

instance : Monad M where
  pure a := fun s => (Except.ok a, s)
  bind m f := fun s =>
    match m s with
    | (Except.ok a, s1) => f a s1
    | (Except.error e, s1) => (Except.error e, s1)

def M.throw (e : Err) : M α := fun s => (Except.error e, s)

/-- ignoreFailure: run a task and discard its outcome.  This models the
catch-and-log blocks of the source (the caller's operation is unaffected). -/
def ignoreFailure (m : M α) : M Unit := fun s =>
  match m s with
  | (Except.ok _, s1) => (Except.ok (), s1)
  | (Except.error _, s1) => (Except.ok (), s1)

/-- unawaited: a promise chain started without await (DisplayService lines 211
and 218).  The launched task touches only its own slot's option rows, so no
later step of the launching call interferes with it; the embedding runs it in
place.  Neither its value nor its rejection reaches the launching function. -/
def unawaited (m : M α) : M Unit := fun s =>
  match m s with
  | (Except.ok _, s1) => (Except.ok (), s1)
  | (Except.error _, s1) => (Except.ok (), s1)

def addCall (s : St) (c : RepoCall) : St := { s with calls := s.calls ++ [c] }

/-- withCall: log a repository call, then either fail (if the call is in the
configured fault set) or perform it. -/
def withCall (c : RepoCall) (k : M α) : M α := fun s =>
  if (addCall s c).faultOn.contains c then (Except.error Err.storageFailure, addCall s c)
  else k (addCall s c)

def onStore (f : Storage → Storage) : M Unit := fun s =>
  (Except.ok (), { s with store := f s.store })

def readStore (f : Storage → α) : M α := fun s => (Except.ok (f s.store), s)

/-! Pure views of storage used throughout. -/

def slotsForView (st : Storage) (viewId : Nat) : List ContentSlot :=
  st.slots.filter (fun c => c.viewId = viewId)

def findSlot (st : Storage) (slotId : Nat) : Option ContentSlot :=
  st.slots.find? (fun c => c.id = slotId)

def findView (st : Storage) (viewId : Nat) : Option View :=
  st.views.find? (fun v => v.id = viewId)

def findDisplay (st : Storage) (displayId : Nat) : Option Display :=
  st.displays.find? (fun d => d.id = displayId)

/-- optionMap: the persisted option map of one slot, as the key/value list in
storage order. -/
def optionMap (st : Storage) (slotId : Nat) : List (String × String) :=
  (st.options.filter (fun o => o.slotId = slotId)).map (fun o => (o.key, o.value))

/-! Repositories, modelled from the spec (section 6).  Each operation logs
itself and acts on storage; get-by-id rejects with NotFound when the record is
absent (spec section 7 propagation policy). -/

/-- Modelled from the spec: ContentSlotRepository.getContentSlotsByViewId. -/
def ContentSlotRepository.getContentSlotsByViewId (viewId : Nat) : M (List ContentSlot) :=
  withCall (RepoCall.getContentSlotsByViewId viewId)
    (readStore (fun st => slotsForView st viewId))

/-- Modelled from the spec: ContentSlotRepository.getContentSlot; not-found is
a hard error. -/
def ContentSlotRepository.getContentSlot (slotId : Nat) : M ContentSlot :=
  withCall (RepoCall.getContentSlot slotId) (fun s =>
    match findSlot s.store slotId with
    | some c => (Except.ok c, s)
    | none => (Except.error Err.notFound, s))

/-- Modelled from the spec: ContentSlotRepository.createContentSlot assigns
the next fresh identity and appends the row. -/
def ContentSlotRepository.createContentSlot (componentType : String) (viewId : Nat)
    (cs rs ce re : Nat) : M ContentSlot :=
  withCall (RepoCall.createContentSlot componentType viewId cs rs ce re) (fun s =>
    let c : ContentSlot := ⟨s.store.nextSlotId, componentType, viewId, cs, rs, ce, re⟩
    (Except.ok c, { s with store := { s.store with
      slots := s.store.slots ++ [c], nextSlotId := s.store.nextSlotId + 1 } }))

/-- Modelled from the spec: ContentSlotRepository.updateContentSlot rewrites
the row in place; the service only calls it for a row it has just fetched. -/
def ContentSlotRepository.updateContentSlot (slotId : Nat) (componentType : String)
    (viewId : Nat) (cs rs ce re : Nat) : M Unit :=
  withCall (RepoCall.updateContentSlot slotId componentType viewId cs rs ce re)
    (onStore (fun st => { st with slots := st.slots.map (fun c =>
      if c.id = slotId then ⟨slotId, componentType, viewId, cs, rs, ce, re⟩ else c) }))

/-- Modelled from the spec: ContentSlotRepository.deleteContentSlot. -/
def ContentSlotRepository.deleteContentSlot (slotId : Nat) : M Bool :=
  withCall (RepoCall.deleteContentSlot slotId) (fun s =>
    (Except.ok (s.store.slots.any (fun c => c.id = slotId)),
     { s with store := { s.store with
        slots := s.store.slots.filter (fun c => ¬ c.id = slotId) } }))

/-- Modelled from the spec: ContentSlotOptionRepository.getOptionsForContentSlot
returns the slot's persisted key/value mapping. -/
def ContentSlotOptionRepository.getOptionsForContentSlot (slotId : Nat) : M (List (String × String)) :=
  withCall (RepoCall.getOptionsForContentSlot slotId)
    (readStore (fun st => optionMap st slotId))

/-- Modelled from the spec: ContentSlotOptionRepository.deleteOptionsForContentSlot
removes every option row owned by the slot. -/
def ContentSlotOptionRepository.deleteOptionsForContentSlot (slotId : Nat) : M Unit :=
  withCall (RepoCall.deleteOptionsForContentSlot slotId)
    (onStore (fun st => { st with
      options := st.options.filter (fun o => ¬ o.slotId = slotId) }))

/-- Modelled from the spec: ContentSlotOptionRepository.deleteOption removes
one (slotId, key) row. -/
def ContentSlotOptionRepository.deleteOption (slotId : Nat) (key : String) : M Unit :=
  withCall (RepoCall.deleteOption slotId key)
    (onStore (fun st => { st with
      options := st.options.filter (fun o => ¬ (o.slotId = slotId ∧ o.key = key)) }))

/-- Modelled from the spec: ContentSlotOptionRepository.updateOption rewrites
the value of one (slotId, key) row in place; the service only calls it for a
key it has just observed on the slot. -/
def ContentSlotOptionRepository.updateOption (slotId : Nat) (key value : String) : M Unit :=
  withCall (RepoCall.updateOption slotId key value)
    (onStore (fun st => { st with options := st.options.map (fun o =>
      if o.slotId = slotId ∧ o.key = key then ⟨slotId, key, value⟩ else o) }))

/-- Modelled from the spec: ContentSlotOptionRepository.createOption appends a
new (slotId, key) row. -/
def ContentSlotOptionRepository.createOption (slotId : Nat) (key value : String) : M Unit :=
  withCall (RepoCall.createOption slotId key value)
    (onStore (fun st => { st with options := st.options ++ [⟨slotId, key, value⟩] }))

/-- Modelled from the spec: ViewRepository.getViewById; not-found rejects. -/
def ViewRepository.getViewById (viewId : Nat) : M View :=
  withCall (RepoCall.getViewById viewId) (fun s =>
    match findView s.store viewId with
    | some v => (Except.ok v, s)
    | none => (Except.error Err.notFound, s))

/-- Modelled from the spec: ViewRepository.getViewsByDisplayIdAndScreenType. -/
def ViewRepository.getViewsByDisplayIdAndScreenType (displayId : Nat) (screenType : String) : M (List View) :=
  withCall (RepoCall.getViewsByDisplayIdAndScreenType displayId screenType)
    (readStore (fun st => st.views.filter (fun v => v.displayId = displayId ∧ v.screenType = screenType)))

/-- Modelled from the spec: ViewRepository.createView assigns the next fresh
view identity and appends the row. -/
def ViewRepository.createView (name : String) (columns rows : Nat) (displayId : Nat)
    (order : Nat) (screenType : String) : M View :=
  withCall (RepoCall.createView name columns rows displayId order screenType) (fun s =>
    let v : View := ⟨s.store.nextViewId, name, columns, rows, displayId, order, screenType⟩
    (Except.ok v, { s with store := { s.store with
      views := s.store.views ++ [v], nextViewId := s.store.nextViewId + 1 } }))

/-- Modelled from the spec: ViewRepository.updateView rewrites the row and
resolves the updated record; not-found rejects. -/
def ViewRepository.updateView (viewId : Nat) (name : String) (columns rows : Nat)
    (displayId : Nat) (order : Nat) (screenType : String) : M View :=
  withCall (RepoCall.updateView viewId name columns rows displayId order screenType) (fun s =>
    match findView s.store viewId with
    | some _ =>
        let v : View := ⟨viewId, name, columns, rows, displayId, order, screenType⟩
        (Except.ok v, { s with store := { s.store with
          views := s.store.views.map (fun w => if w.id = viewId then v else w) } })
    | none => (Except.error Err.notFound, s))

/-- Modelled from the spec: ViewRepository.deleteView resolves whether a row
was removed. -/
def ViewRepository.deleteView (viewId : Nat) : M Bool :=
  withCall (RepoCall.deleteView viewId) (fun s =>
    (Except.ok (s.store.views.any (fun v => v.id = viewId)),
     { s with store := { s.store with
        views := s.store.views.filter (fun v => ¬ v.id = viewId) } }))

/-- Modelled from the spec: DisplayRepository.getDisplayById; not-found
rejects (spec sections 6 and 7: commands reject with a typed failure). -/
def DisplayRepository.getDisplayById (displayId : Nat) : M Display :=
  withCall (RepoCall.getDisplayById displayId) (fun s =>
    match findDisplay s.store displayId with
    | some d => (Except.ok d, s)
    | none => (Except.error Err.notFound, s))

/-- Modelled from the spec: DisplayRepository.createDisplay resolves the fresh
identity of the created row. -/
def DisplayRepository.createDisplay (name : String) (active : Bool) (clientId : String)
    (description location : String) : M Nat :=
  withCall (RepoCall.createDisplay name active clientId description location) (fun s =>
    let d : Display := ⟨s.store.nextDisplayId, name, active, clientId, description, location⟩
    (Except.ok d.id, { s with store := { s.store with
      displays := s.store.displays ++ [d], nextDisplayId := s.store.nextDisplayId + 1 } }))

/-- Modelled from the spec: DisplayRepository.updateDisplay resolves the
updated identity, or a falsy result (none) when the row does not exist; the
falsy branch on line 56 of the service is only reachable this way. -/
def DisplayRepository.updateDisplay (displayId : Nat) (name : String) (active : Bool)
    (clientId : String) (description location : String) : M (Option Nat) :=
  withCall (RepoCall.updateDisplay displayId name active clientId description location) (fun s =>
    if s.store.displays.any (fun d => d.id = displayId) then
      (Except.ok (some displayId), { s with store := { s.store with
        displays := s.store.displays.map (fun d =>
          if d.id = displayId then ⟨displayId, name, active, clientId, description, location⟩ else d) } })
    else (Except.ok none, s))

/-- Modelled from the spec: DisplayRepository.deleteDisplay resolves the
deleted record, or null when the row does not exist (spec section 6: deletes
return the deleted record or null). -/
def DisplayRepository.deleteDisplay (displayId : Nat) : M (Option Display) :=
  withCall (RepoCall.deleteDisplay displayId) (fun s =>
    match findDisplay s.store displayId with
    | some d =>
        (Except.ok (some d), { s with store := { s.store with
          displays := s.store.displays.filter (fun x => ¬ x.id = displayId) } })
    | none => (Except.ok none, s))

/-! The Domain Service, translated from src/src/services/DisplayService.js. -/

/-- DisplayService.emit: publish an event on the notification channel
(EventEmitter.emit in the source). -/
def DisplayService.emit (e : Event) : M Unit := fun s =>
  (Except.ok (), { s with events := s.events ++ [e] })

/-- DisplayService.getDisplayById (source lines 31-33). -/
def DisplayService.getDisplayById (displayId : Nat) : M Display :=
  DisplayRepository.getDisplayById displayId

/-- DisplayService.createDisplay (source lines 20-25). -/
def DisplayService.createDisplay (name : String) (active : Bool) (clientId : String)
    (description location : String) : M Display := do
  let id ← DisplayRepository.createDisplay name active clientId description location
  let newDisplay ← DisplayService.getDisplayById id
  DisplayService.emit (Event.display_created newDisplay)
  pure newDisplay

/-- DisplayService.deleteDisplay (source lines 45-52). -/
def DisplayService.deleteDisplay (displayId : Nat) : M (Option Display) := do
  let result ← DisplayRepository.deleteDisplay displayId
  match result with
  | some d => do
      DisplayService.emit (Event.display_deleted d)
      pure result
  | none => pure result

/-- DisplayService.updateDisplay (source lines 54-63): a falsy identity from
the repository update short-circuits to a plain read of the untouched id. -/
def DisplayService.updateDisplay (displayId : Nat) (name : String) (active : Bool)
    (clientId : String) (description location : String) : M Display := do
  let id? ← DisplayRepository.updateDisplay displayId name active clientId description location
  match id? with
  | none => DisplayService.getDisplayById displayId
  | some i => do
      let updatedDisplay ← DisplayService.getDisplayById i
      DisplayService.emit (Event.display_updated updatedDisplay)
      pure updatedDisplay

/-- DisplayService.createView (source lines 76-81): count the views of the
(displayId, screenType) group, then append at position count + 1. -/
def DisplayService.createView (name : String) (columns rows : Nat) (displayId : Nat)
    (screenType : String) : M View := do
  let views ← ViewRepository.getViewsByDisplayIdAndScreenType displayId screenType
  ViewRepository.createView name columns rows displayId (views.length + 1) screenType

/-- EnrichedSlot: a content slot with its option map attached, as produced by
getContentSlotsForView. -/
structure EnrichedSlot where
  slot : ContentSlot
  options : List (String × String)
deriving Repr, DecidableEq

/-- EnrichedView: a view with its enriched content slots attached, as produced
by getView. -/
structure EnrichedView where
  view : View
  contentSlots : List EnrichedSlot
deriving Repr, DecidableEq

/-- DisplayService.getContentSlotsForView, inner loop (source lines 105-121):
fetch each slot's options in storage order. -/
def DisplayService.enrichSlots : List ContentSlot → M (List EnrichedSlot)
  | [] => pure []
  | c :: rest => do
      let allOptions ← ContentSlotOptionRepository.getOptionsForContentSlot c.id
      let tail ← DisplayService.enrichSlots rest
      pure (⟨c, allOptions⟩ :: tail)

/-- DisplayService.getContentSlotsForView (source lines 103-122). -/
def DisplayService.getContentSlotsForView (viewId : Nat) : M (List EnrichedSlot) := do
  let contentSlots ← ContentSlotRepository.getContentSlotsByViewId viewId
  DisplayService.enrichSlots contentSlots

/-- DisplayService.getView (source lines 128-137); the Promise.all pair of
reads is flattened to sequential reads. -/
def DisplayService.getView (viewId : Nat) : M EnrichedView := do
  let view ← ViewRepository.getViewById viewId
  let contentSlots ← DisplayService.getContentSlotsForView viewId
  pure ⟨view, contentSlots⟩

/-- DisplayService.setOptionsForContentSlot, first loop (source lines
232-236): delete every persisted key absent from the desired map.  The loop
iterates over the snapshot of keys fetched before any write. -/
def DisplayService.deleteAbsentLoop (contentSlotId : Nat) (options : List (String × String)) :
    List String → M Unit
  | [] => pure ()
  | key :: rest => do
      if (options.lookup key).isSome then pure ()
      else ContentSlotOptionRepository.deleteOption contentSlotId key
      DisplayService.deleteAbsentLoop contentSlotId options rest

/-- DisplayService.setOptionsForContentSlot, second loop (source lines
238-245): update keys present in the snapshot, create the others, in the
desired map's own iteration order. -/
def DisplayService.upsertLoop (contentSlotId : Nat) (existingKeys : List String) :
    List (String × String) → M Unit
  | [] => pure ()
  | (key, value) :: rest => do
      if existingKeys.contains key then ContentSlotOptionRepository.updateOption contentSlotId key value
      else ContentSlotOptionRepository.createOption contentSlotId key value
      DisplayService.upsertLoop contentSlotId existingKeys rest

/-- DisplayService.setOptionsForContentSlot (source lines 228-248): diff the
persisted option map against the desired one, then re-fetch and return the
persisted map. -/
def DisplayService.setOptionsForContentSlot (contentSlotId : Nat)
    (options : List (String × String)) : M (List (String × String)) := do
  let existingOptions ← ContentSlotOptionRepository.getOptionsForContentSlot contentSlotId
  DisplayService.deleteAbsentLoop contentSlotId options (existingOptions.map (fun kv => kv.1))
  DisplayService.upsertLoop contentSlotId (existingOptions.map (fun kv => kv.1)) options
  ContentSlotOptionRepository.getOptionsForContentSlot contentSlotId

/-- DisplayService.updateContentSlotsForView, removal loop (source lines
202-205): for each removed slot, first delete all of its options, then the
slot itself. -/
def DisplayService.removeLoop : List Nat → M Unit
  | [] => pure ()
  | contentSlotId :: rest => do
      ContentSlotOptionRepository.deleteOptionsForContentSlot contentSlotId
      let _ ← ContentSlotRepository.deleteContentSlot contentSlotId
      DisplayService.removeLoop rest

/-- DisplayService.updateContentSlotsForView, descriptor loop (source lines
207-219).  A descriptor without an id creates a slot; one with an id fetches
the persisted slot (not-found is a hard error) and updates it in place,
resupplying the reconciler's own viewId.  The option reconciliation on lines
211 and 218 is started without await. -/
def DisplayService.slotLoop (viewId : Nat) : List SlotDescriptor → M Unit
  | [] => pure ()
  | contentSlot :: rest =>
      match contentSlot.id? with
      | none => do
          let newContentSlot ← ContentSlotRepository.createContentSlot
            contentSlot.componentType viewId contentSlot.columnStart contentSlot.rowStart
            contentSlot.columnEnd contentSlot.rowEnd
          unawaited (DisplayService.setOptionsForContentSlot newContentSlot.id
            (contentSlot.options.getD []))
          DisplayService.slotLoop viewId rest
      | some cid => do
          let existingContentSlot ← ContentSlotRepository.getContentSlot cid
          ContentSlotRepository.updateContentSlot existingContentSlot.id
            contentSlot.componentType viewId contentSlot.columnStart contentSlot.rowStart
            contentSlot.columnEnd contentSlot.rowEnd
          unawaited (DisplayService.setOptionsForContentSlot existingContentSlot.id
            (contentSlot.options.getD []))
          DisplayService.slotLoop viewId rest

/-- submittedIds: the identities present in a desired list (source line 198). -/
def submittedIds (newContentSlots : List SlotDescriptor) : List Nat :=
  (newContentSlots.filter (fun c => c.id?.isSome)).filterMap (fun c => c.id?)

/-- DisplayService.updateContentSlotsForView (source lines 194-226).  The
try/catch of the source re-raises the caught error unchanged and is therefore
not reflected as a separate construct. -/
def DisplayService.updateContentSlotsForView (viewId : Nat)
    (newContentSlots : List SlotDescriptor) : M Unit := do
  let existingContentSlots ← ContentSlotRepository.getContentSlotsByViewId viewId
  let existingContentSlotIds := existingContentSlots.map (fun c => c.id)
  let submittedContentSlotIds := submittedIds newContentSlots
  let removedComponents := existingContentSlotIds.filter
    (fun i => ¬ submittedContentSlotIds.contains i)
  DisplayService.removeLoop removedComponents
  DisplayService.slotLoop viewId newContentSlots

/-- DisplayService.deleteView (source lines 153-164): the owning Display is
resolved before the repository delete; the catch wraps the delete and the
emit, not the Display resolution. -/
def DisplayService.deleteView (viewId : Nat) : M Unit := do
  let view ← DisplayService.getView viewId
  let display ← DisplayService.getDisplayById view.view.displayId
  ignoreFailure (do
    let _ ← ViewRepository.deleteView viewId
    DisplayService.emit (Event.views_updated display))

/-- DisplayService.updateView (source lines 175-192): re-read the view,
rewrite name/columns/rows keeping the persisted displayId/order/screenType,
reconcile the slots, re-fetch the enriched view, then notify best-effort (the
notification chain is started without being awaited and carries its own
catch; it cannot affect the returned record). -/
def DisplayService.updateView (id : Nat) (name : String) (columns rows : Nat)
    (contentSlots : List SlotDescriptor) : M EnrichedView := do
  let view ← ViewRepository.getViewById id
  let updatedView ← ViewRepository.updateView view.id name columns rows
    view.displayId view.order view.screenType
  DisplayService.updateContentSlotsForView updatedView.id contentSlots
  let uv ← DisplayService.getView id
  ignoreFailure (do
    let display ← DisplayService.getDisplayById uv.view.displayId
    DisplayService.emit (Event.views_updated display))
  pure uv

/-! Well-formedness of storage and validity of submitted descriptor lists. -/

/-- Storage.WF: identities are unique and below their allocator watermark;
option rows are keyed uniquely by (slotId, key) and owned by allocated slot
identities. -/
def Storage.WF (st : Storage) : Prop :=
  (st.slots.map (fun c => c.id)).Nodup ∧
  (∀ c ∈ st.slots, c.id < st.nextSlotId) ∧
  (st.options.map (fun o => (o.slotId, o.key))).Nodup ∧
  (∀ o ∈ st.options, o.slotId < st.nextSlotId) ∧
  (st.views.map (fun v => v.id)).Nodup ∧
  (∀ v ∈ st.views, v.id < st.nextViewId) ∧
  (st.displays.map (fun d => d.id)).Nodup ∧
  (∀ d ∈ st.displays, d.id < st.nextDisplayId)

/-- ValidDesired: a well-formed submission: the identities carried by
descriptors are pairwise distinct and reference slots persisted at call time,
and each descriptor's option keys are distinct (a JavaScript object cannot
carry a duplicate key). -/
def ValidDesired (st : Storage) (ds : List SlotDescriptor) : Prop :=
  (ds.filterMap (fun d => d.id?)).Nodup ∧
  (∀ i ∈ ds.filterMap (fun d => d.id?), i ∈ st.slots.map (fun c => c.id)) ∧
  (∀ d ∈ ds, ((d.options.getD []).map (fun kv => kv.1)).Nodup)

/-! Pure counterparts of the storage effects.  Each mirrors one repository
write exactly; the run lemmas below prove the monadic code equal to them. -/

def deleteOptionsPure (slotId : Nat) (st : Storage) : Storage :=
  { st with options := st.options.filter (fun o => ¬ o.slotId = slotId) }

def deleteSlotPure (slotId : Nat) (st : Storage) : Storage :=
  { st with slots := st.slots.filter (fun c => ¬ c.id = slotId) }

def removeStep (st : Storage) (slotId : Nat) : Storage :=
  deleteSlotPure slotId (deleteOptionsPure slotId st)

def removePure : List Nat → Storage → Storage
  | [], st => st
  | i :: rest, st => removePure rest (removeStep st i)

def deleteOptionPure (slotId : Nat) (key : String) (st : Storage) : Storage :=
  { st with options := st.options.filter (fun o => ¬ (o.slotId = slotId ∧ o.key = key)) }

def updateOptionPure (slotId : Nat) (key value : String) (st : Storage) : Storage :=
  { st with options := st.options.map (fun o =>
      if o.slotId = slotId ∧ o.key = key then ⟨slotId, key, value⟩ else o) }

def createOptionPure (slotId : Nat) (key value : String) (st : Storage) : Storage :=
  { st with options := st.options ++ [⟨slotId, key, value⟩] }

def createSlotPure (componentType : String) (viewId : Nat) (cs rs ce re : Nat)
    (st : Storage) : Storage :=
  { st with slots := st.slots ++ [⟨st.nextSlotId, componentType, viewId, cs, rs, ce, re⟩],
            nextSlotId := st.nextSlotId + 1 }

def updateSlotPure (slotId : Nat) (componentType : String) (viewId : Nat)
    (cs rs ce re : Nat) (st : Storage) : Storage :=
  { st with slots := st.slots.map (fun c =>
      if c.id = slotId then ⟨slotId, componentType, viewId, cs, rs, ce, re⟩ else c) }

def delAbsentPure (slotId : Nat) (desired : List (String × String)) :
    List String → Storage → Storage
  | [], st => st
  | key :: rest, st =>
      delAbsentPure slotId desired rest
        (if (desired.lookup key).isSome then st else deleteOptionPure slotId key st)

def upsertPure (slotId : Nat) (existingKeys : List String) :
    List (String × String) → Storage → Storage
  | [], st => st
  | kv :: rest, st =>
      upsertPure slotId existingKeys rest
        (if existingKeys.contains kv.1 then updateOptionPure slotId kv.1 kv.2 st
         else createOptionPure slotId kv.1 kv.2 st)

def setOptionsPure (slotId : Nat) (desired : List (String × String))
    (st : Storage) : Storage :=
  let exKeys := (optionMap st slotId).map (fun kv => kv.1)
  upsertPure slotId exKeys desired (delAbsentPure slotId desired exKeys st)

def applyDescriptorPure (viewId : Nat) (st : Storage) (d : SlotDescriptor) : Storage :=
  match d.id? with
  | none =>
      setOptionsPure st.nextSlotId (d.options.getD [])
        (createSlotPure d.componentType viewId d.columnStart d.rowStart d.columnEnd d.rowEnd st)
  | some cid =>
      setOptionsPure cid (d.options.getD [])
        (updateSlotPure cid d.componentType viewId d.columnStart d.rowStart d.columnEnd d.rowEnd st)

def slotLoopPure (viewId : Nat) : List SlotDescriptor → Storage → Storage
  | [], st => st
  | d :: rest, st => slotLoopPure viewId rest (applyDescriptorPure viewId st d)

/-- removedIds: the identities the reconciler removes (source lines 197-199). -/
def removedIds (st : Storage) (viewId : Nat) (ds : List SlotDescriptor) : List Nat :=
  ((slotsForView st viewId).map (fun c => c.id)).filter
    (fun i => ¬ (submittedIds ds).contains i)

/-- reconcilePure: the storage effect of a successful updateContentSlotsForView. -/
def reconcilePure (viewId : Nat) (ds : List SlotDescriptor) (st : Storage) : Storage :=
  slotLoopPure viewId ds (removePure (removedIds st viewId ds) st)

/-! Traces of the loops, as pure functions. -/

def delAbsentTrace (slotId : Nat) (desired : List (String × String))
    (keys : List String) : List RepoCall :=
  (keys.filter (fun key => ¬ (desired.lookup key).isSome)).map
    (fun key => RepoCall.deleteOption slotId key)

def upsertTrace (slotId : Nat) (existingKeys : List String)
    (desired : List (String × String)) : List RepoCall :=
  desired.map (fun kv =>
    if existingKeys.contains kv.1 then RepoCall.updateOption slotId kv.1 kv.2
    else RepoCall.createOption slotId kv.1 kv.2)

def setOptionsTrace (slotId : Nat) (desired : List (String × String))
    (st : Storage) : List RepoCall :=
  let exKeys := (optionMap st slotId).map (fun kv => kv.1)
  RepoCall.getOptionsForContentSlot slotId ::
    (delAbsentTrace slotId desired exKeys ++ upsertTrace slotId exKeys desired ++
      [RepoCall.getOptionsForContentSlot slotId])

def removeTrace (ids : List Nat) : List RepoCall :=
  ids.flatMap (fun i => [RepoCall.deleteOptionsForContentSlot i, RepoCall.deleteContentSlot i])

def slotLoopTrace (viewId : Nat) : List SlotDescriptor → Storage → List RepoCall
  | [], _ => []
  | d :: rest, st =>
      match d.id? with
      | none =>
          let st1 := createSlotPure d.componentType viewId d.columnStart d.rowStart
            d.columnEnd d.rowEnd st
          RepoCall.createContentSlot d.componentType viewId d.columnStart d.rowStart
              d.columnEnd d.rowEnd ::
            (setOptionsTrace st.nextSlotId (d.options.getD []) st1 ++
              slotLoopTrace viewId rest (applyDescriptorPure viewId st d))
      | some cid =>
          let st1 := updateSlotPure cid d.componentType viewId d.columnStart d.rowStart
            d.columnEnd d.rowEnd st
          RepoCall.getContentSlot cid ::
            RepoCall.updateContentSlot cid d.componentType viewId d.columnStart d.rowStart
              d.columnEnd d.rowEnd ::
            (setOptionsTrace cid (d.options.getD []) st1 ++
              slotLoopTrace viewId rest (applyDescriptorPure viewId st d))

def reconcileTrace (viewId : Nat) (ds : List SlotDescriptor) (st : Storage) : List RepoCall :=
  RepoCall.getContentSlotsByViewId viewId ::
    (removeTrace (removedIds st viewId ds) ++
      slotLoopTrace viewId ds (removePure (removedIds st viewId ds) st))

/-! Run lemmas: the monadic service code reduced to the pure functions. -/

theorem M.run_bind (m : M α) (f : α → M β) (s : St) :
    (m >>= f).run s = match m.run s with
      | (Except.ok a, s1) => (f a).run s1
      | (Except.error e, s1) => (Except.error e, s1) := rfl

theorem M.run_pure (a : α) (s : St) : (pure a : M α).run s = (Except.ok a, s) := rfl

theorem addCall_faultOn (s : St) (c : RepoCall) : (addCall s c).faultOn = s.faultOn := rfl

theorem run_withCall (c : RepoCall) (k : M α) (s : St) (h : s.faultOn = []) :
    (withCall c k).run s = k.run (addCall s c) := by
  show (if (addCall s c).faultOn.contains c then _ else _) = _
  rw [addCall_faultOn, h]
  rfl

theorem run_deleteOptionsForContentSlot (i : Nat) (s : St) (h : s.faultOn = []) :
    (ContentSlotOptionRepository.deleteOptionsForContentSlot i).run s =
      (Except.ok (), ⟨deleteOptionsPure i s.store,
        s.calls ++ [RepoCall.deleteOptionsForContentSlot i], s.events, s.faultOn⟩) := by
  rcases s with ⟨store, calls, events, fa⟩
  subst h
  rfl

theorem run_deleteContentSlot (i : Nat) (s : St) (h : s.faultOn = []) :
    (ContentSlotRepository.deleteContentSlot i).run s =
      (Except.ok (s.store.slots.any (fun c => c.id = i)), ⟨deleteSlotPure i s.store,
        s.calls ++ [RepoCall.deleteContentSlot i], s.events, s.faultOn⟩) := by
  rcases s with ⟨store, calls, events, fa⟩
  subst h
  rfl

theorem run_deleteOption (i : Nat) (k : String) (s : St) (h : s.faultOn = []) :
    (ContentSlotOptionRepository.deleteOption i k).run s =
      (Except.ok (), ⟨deleteOptionPure i k s.store,
        s.calls ++ [RepoCall.deleteOption i k], s.events, s.faultOn⟩) := by
  rcases s with ⟨store, calls, events, fa⟩
  subst h
  rfl

theorem run_updateOption (i : Nat) (k v : String) (s : St) (h : s.faultOn = []) :
    (ContentSlotOptionRepository.updateOption i k v).run s =
      (Except.ok (), ⟨updateOptionPure i k v s.store,
        s.calls ++ [RepoCall.updateOption i k v], s.events, s.faultOn⟩) := by
  rcases s with ⟨store, calls, events, fa⟩
  subst h
  rfl

theorem run_createOption (i : Nat) (k v : String) (s : St) (h : s.faultOn = []) :
    (ContentSlotOptionRepository.createOption i k v).run s =
      (Except.ok (), ⟨createOptionPure i k v s.store,
        s.calls ++ [RepoCall.createOption i k v], s.events, s.faultOn⟩) := by
  rcases s with ⟨store, calls, events, fa⟩
  subst h
  rfl

theorem run_getOptionsForContentSlot (i : Nat) (s : St) (h : s.faultOn = []) :
    (ContentSlotOptionRepository.getOptionsForContentSlot i).run s =
      (Except.ok (optionMap s.store i), ⟨s.store,
        s.calls ++ [RepoCall.getOptionsForContentSlot i], s.events, s.faultOn⟩) := by
  rcases s with ⟨store, calls, events, fa⟩
  subst h
  rfl

theorem run_getContentSlotsByViewId (viewId : Nat) (s : St) (h : s.faultOn = []) :
    (ContentSlotRepository.getContentSlotsByViewId viewId).run s =
      (Except.ok (slotsForView s.store viewId), ⟨s.store,
        s.calls ++ [RepoCall.getContentSlotsByViewId viewId], s.events, s.faultOn⟩) := by
  rcases s with ⟨store, calls, events, fa⟩
  subst h
  rfl

theorem run_getContentSlot (i : Nat) (s : St) (h : s.faultOn = []) :
    (ContentSlotRepository.getContentSlot i).run s =
      (match findSlot s.store i with
        | some c => (Except.ok c, ⟨s.store, s.calls ++ [RepoCall.getContentSlot i], s.events, s.faultOn⟩)
        | none => (Except.error Err.notFound,
            ⟨s.store, s.calls ++ [RepoCall.getContentSlot i], s.events, s.faultOn⟩)) := by
  rcases s with ⟨store, calls, events, fa⟩
  subst h
  show (match findSlot store i with
    | some c => (Except.ok c, _)
    | none => (Except.error Err.notFound, _)) = _
  cases findSlot store i <;> rfl

theorem run_createContentSlot (ct : String) (viewId : Nat) (cs rs ce re : Nat)
    (s : St) (h : s.faultOn = []) :
    (ContentSlotRepository.createContentSlot ct viewId cs rs ce re).run s =
      (Except.ok ⟨s.store.nextSlotId, ct, viewId, cs, rs, ce, re⟩,
        ⟨createSlotPure ct viewId cs rs ce re s.store,
          s.calls ++ [RepoCall.createContentSlot ct viewId cs rs ce re], s.events, s.faultOn⟩) := by
  rcases s with ⟨store, calls, events, fa⟩
  subst h
  rfl

theorem run_updateContentSlot (i : Nat) (ct : String) (viewId : Nat)
    (cs rs ce re : Nat) (s : St) (h : s.faultOn = []) :
    (ContentSlotRepository.updateContentSlot i ct viewId cs rs ce re).run s =
      (Except.ok (), ⟨updateSlotPure i ct viewId cs rs ce re s.store,
        s.calls ++ [RepoCall.updateContentSlot i ct viewId cs rs ce re], s.events, s.faultOn⟩) := by
  rcases s with ⟨store, calls, events, fa⟩
  subst h
  rfl

theorem run_deleteAbsentLoop (cid : Nat) (desired : List (String × String))
    (keys : List String) : ∀ (s : St), s.faultOn = [] →
    (DisplayService.deleteAbsentLoop cid desired keys).run s =
      (Except.ok (), ⟨delAbsentPure cid desired keys s.store,
        s.calls ++ delAbsentTrace cid desired keys, s.events, s.faultOn⟩) := by
  induction keys with
  | nil =>
      intro s h
      rcases s with ⟨st, cs, ev, fa⟩
      simp [DisplayService.deleteAbsentLoop, delAbsentPure, delAbsentTrace, M.run_pure]
  | cons key rest ih =>
      intro s h
      by_cases hk : (desired.lookup key).isSome
      · obtain ⟨v, hv⟩ := Option.isSome_iff_exists.mp hk
        simp only [DisplayService.deleteAbsentLoop, M.run_bind, if_pos hk, M.run_pure]
        rw [ih s h]
        simp [delAbsentPure, delAbsentTrace, List.filter_cons, hv]
      · have hv := Option.not_isSome_iff_eq_none.mp hk
        simp only [DisplayService.deleteAbsentLoop, M.run_bind, if_neg hk,
          run_deleteOption cid key s h]
        rw [ih _ (by simpa using h)]
        simp [delAbsentPure, delAbsentTrace, List.filter_cons, hv]

theorem run_upsertLoop (cid : Nat) (exKeys : List String)
    (desired : List (String × String)) : ∀ (s : St), s.faultOn = [] →
    (DisplayService.upsertLoop cid exKeys desired).run s =
      (Except.ok (), ⟨upsertPure cid exKeys desired s.store,
        s.calls ++ upsertTrace cid exKeys desired, s.events, s.faultOn⟩) := by
  induction desired with
  | nil =>
      intro s h
      rcases s with ⟨st, cs, ev, fa⟩
      simp [DisplayService.upsertLoop, upsertPure, upsertTrace, M.run_pure]
  | cons kv rest ih =>
      intro s h
      obtain ⟨key, value⟩ := kv
      by_cases hk : exKeys.contains key
      · have hk2 : key ∈ exKeys := by simpa using hk
        simp only [DisplayService.upsertLoop, M.run_bind, if_pos hk,
          run_updateOption cid key value s h]
        rw [ih _ (by simpa using h)]
        simp [upsertPure, upsertTrace, hk2]
      · have hk2 : ¬ key ∈ exKeys := by simpa using hk
        simp only [DisplayService.upsertLoop, M.run_bind, if_neg hk,
          run_createOption cid key value s h]
        rw [ih _ (by simpa using h)]
        simp [upsertPure, upsertTrace, hk2]

theorem M.run_bind_ok (m : M α) (f : α → M β) (s s1 : St) (a : α)
    (hm : m.run s = (Except.ok a, s1)) : (m >>= f).run s = (f a).run s1 := by
  rw [M.run_bind, hm]

theorem run_setOptionsForContentSlot (cid : Nat) (desired : List (String × String))
    (s : St) (h : s.faultOn = []) :
    (DisplayService.setOptionsForContentSlot cid desired).run s =
      (Except.ok (optionMap (setOptionsPure cid desired s.store) cid),
        ⟨setOptionsPure cid desired s.store,
          s.calls ++ setOptionsTrace cid desired s.store, s.events, s.faultOn⟩) := by
  simp only [DisplayService.setOptionsForContentSlot]
  rw [M.run_bind_ok _ _ _ _ _ (run_getOptionsForContentSlot cid s h)]
  rw [M.run_bind_ok _ _ _ _ _ (run_deleteAbsentLoop cid desired _ _ (by simpa using h))]
  rw [M.run_bind_ok _ _ _ _ _ (run_upsertLoop cid _ desired _ (by simpa using h))]
  rw [run_getOptionsForContentSlot cid _ (by simpa using h)]
  simp [setOptionsPure, setOptionsTrace]

theorem run_removeLoop (ids : List Nat) : ∀ (s : St), s.faultOn = [] →
    (DisplayService.removeLoop ids).run s =
      (Except.ok (), ⟨removePure ids s.store,
        s.calls ++ removeTrace ids, s.events, s.faultOn⟩) := by
  induction ids with
  | nil =>
      intro s h
      rcases s with ⟨st, cs, ev, fa⟩
      simp [DisplayService.removeLoop, removePure, removeTrace, M.run_pure]
  | cons i rest ih =>
      intro s h
      simp only [DisplayService.removeLoop]
      rw [M.run_bind_ok _ _ _ _ _ (run_deleteOptionsForContentSlot i s h)]
      rw [M.run_bind_ok _ _ _ _ _ (run_deleteContentSlot i _ (by simpa using h))]
      rw [ih _ (by simpa using h)]
      simp [removePure, removeTrace, removeStep]

/-! Structural facts about the pure storage operations. -/

theorem deleteOptionPure_slots (i : Nat) (k : String) (st : Storage) :
    (deleteOptionPure i k st).slots = st.slots := rfl

theorem updateOptionPure_slots (i : Nat) (k v : String) (st : Storage) :
    (updateOptionPure i k v st).slots = st.slots := rfl

theorem createOptionPure_slots (i : Nat) (k v : String) (st : Storage) :
    (createOptionPure i k v st).slots = st.slots := rfl

theorem delAbsentPure_slots (i : Nat) (de : List (String × String)) :
    ∀ (keys : List String) (st : Storage), (delAbsentPure i de keys st).slots = st.slots := by
  intro keys
  induction keys with
  | nil => intro st; rfl
  | cons k rest ih =>
      intro st
      show (delAbsentPure i de rest _).slots = st.slots
      rw [ih]
      split <;> rfl

theorem upsertPure_slots (i : Nat) (exKeys : List String) :
    ∀ (de : List (String × String)) (st : Storage), (upsertPure i exKeys de st).slots = st.slots := by
  intro de
  induction de with
  | nil => intro st; rfl
  | cons kv rest ih =>
      intro st
      show (upsertPure i exKeys rest _).slots = st.slots
      rw [ih]
      split <;> rfl

theorem setOptionsPure_slots (i : Nat) (de : List (String × String)) (st : Storage) :
    (setOptionsPure i de st).slots = st.slots := by
  simp [setOptionsPure, upsertPure_slots, delAbsentPure_slots]

theorem delAbsentPure_optionsInv (i : Nat) (de : List (String × String))
    (f : Storage → α) (hf : ∀ st opts, f { st with options := opts } = f st) :
    ∀ (keys : List String) (st : Storage), f (delAbsentPure i de keys st) = f st := by
  intro keys
  induction keys with
  | nil => intro st; rfl
  | cons k rest ih =>
      intro st
      show f (delAbsentPure i de rest _) = f st
      rw [ih]
      split
      · rfl
      · exact hf st _

theorem upsertPure_optionsInv (i : Nat) (exKeys : List String)
    (f : Storage → α) (hf : ∀ st opts, f { st with options := opts } = f st) :
    ∀ (de : List (String × String)) (st : Storage), f (upsertPure i exKeys de st) = f st := by
  intro de
  induction de with
  | nil => intro st; rfl
  | cons kv rest ih =>
      intro st
      show f (upsertPure i exKeys rest _) = f st
      rw [ih]
      split
      · exact hf st _
      · exact hf st _

theorem setOptionsPure_optionsInv (i : Nat) (de : List (String × String))
    (f : Storage → α) (hf : ∀ st opts, f { st with options := opts } = f st)
    (st : Storage) : f (setOptionsPure i de st) = f st := by
  show f (upsertPure _ _ _ _) = f st
  rw [upsertPure_optionsInv i _ f hf, delAbsentPure_optionsInv i _ f hf]

theorem setOptionsPure_views (i : Nat) (de : List (String × String)) (st : Storage) :
    (setOptionsPure i de st).views = st.views :=
  setOptionsPure_optionsInv i de (fun st => st.views) (fun _ _ => rfl) st

theorem setOptionsPure_displays (i : Nat) (de : List (String × String)) (st : Storage) :
    (setOptionsPure i de st).displays = st.displays :=
  setOptionsPure_optionsInv i de (fun st => st.displays) (fun _ _ => rfl) st

theorem setOptionsPure_nextSlotId (i : Nat) (de : List (String × String)) (st : Storage) :
    (setOptionsPure i de st).nextSlotId = st.nextSlotId :=
  setOptionsPure_optionsInv i de (fun st => st.nextSlotId) (fun _ _ => rfl) st

theorem setOptionsPure_nextViewId (i : Nat) (de : List (String × String)) (st : Storage) :
    (setOptionsPure i de st).nextViewId = st.nextViewId :=
  setOptionsPure_optionsInv i de (fun st => st.nextViewId) (fun _ _ => rfl) st

theorem setOptionsPure_nextDisplayId (i : Nat) (de : List (String × String)) (st : Storage) :
    (setOptionsPure i de st).nextDisplayId = st.nextDisplayId :=
  setOptionsPure_optionsInv i de (fun st => st.nextDisplayId) (fun _ _ => rfl) st

theorem findSlot_congr {st1 st2 : Storage} (h : st1.slots = st2.slots) (j : Nat) :
    findSlot st1 j = findSlot st2 j := by
  simp [findSlot, h]

theorem findSlot_setOptionsPure (i : Nat) (de : List (String × String))
    (st : Storage) (j : Nat) :
    findSlot (setOptionsPure i de st) j = findSlot st j :=
  findSlot_congr (setOptionsPure_slots i de st) j

theorem slotsForView_congr {st1 st2 : Storage} (h : st1.slots = st2.slots) (v : Nat) :
    slotsForView st1 v = slotsForView st2 v := by
  simp [slotsForView, h]

theorem findSlot_id {st : Storage} {i : Nat} {c : ContentSlot}
    (h : findSlot st i = some c) : c.id = i := by
  have := List.find?_some h
  simpa using this

theorem findSlot_mem {st : Storage} {i : Nat} {c : ContentSlot}
    (h : findSlot st i = some c) : c ∈ st.slots :=
  List.mem_of_find?_eq_some h

theorem run_unawaited_ok (m : M α) (s s1 : St) (a : α)
    (hm : m.run s = (Except.ok a, s1)) : (unawaited m).run s = (Except.ok (), s1) := by
  have hm2 : m s = (Except.ok a, s1) := hm
  show (match m s with
    | (Except.ok _, s1) => (Except.ok (), s1)
    | (Except.error _, s1) => (Except.ok (), s1)) = _
  rw [hm2]

theorem findSlot_createSlotPure_of_isSome (ct : String) (v : Nat) (cs rs ce re : Nat)
    (st : Storage) (j : Nat) (h : (findSlot st j).isSome) :
    findSlot (createSlotPure ct v cs rs ce re st) j = findSlot st j := by
  obtain ⟨c, hc⟩ := Option.isSome_iff_exists.mp h
  show (st.slots ++ [_]).find? _ = _
  rw [List.find?_append]
  show ((findSlot st j).or _) = _
  rw [hc]
  rfl

theorem find?_map_updateRow (l : List ContentSlot) (i j : Nat) (row : ContentSlot)
    (hrow : row.id = i) (hne : ¬ j = i) :
    (l.map (fun c => if c.id = i then row else c)).find? (fun c => c.id = j) =
      l.find? (fun c => c.id = j) := by
  induction l with
  | nil => rfl
  | cons c rest ih =>
      rw [List.map_cons]
      by_cases hci : c.id = i
      · have h1 : ¬ row.id = j := by rw [hrow]; intro hh; exact hne hh.symm
        have h2 : ¬ c.id = j := by rw [hci]; intro hh; exact hne hh.symm
        rw [if_pos hci]
        rw [List.find?_cons_of_neg _ (by simpa using h1)]
        rw [List.find?_cons_of_neg _ (by simpa using h2)]
        exact ih
      · rw [if_neg hci]
        by_cases hcj : c.id = j
        · rw [List.find?_cons_of_pos _ (by simpa using hcj),
            List.find?_cons_of_pos _ (by simpa using hcj)]
        · rw [List.find?_cons_of_neg _ (by simpa using hcj),
            List.find?_cons_of_neg _ (by simpa using hcj)]
          exact ih

theorem find?_map_updateRow_self (l : List ContentSlot) (i : Nat) (row : ContentSlot)
    (hrow : row.id = i) (h : (l.find? (fun c => c.id = i)).isSome) :
    (l.map (fun c => if c.id = i then row else c)).find? (fun c => c.id = i) = some row := by
  induction l with
  | nil => simp at h
  | cons c rest ih =>
      rw [List.map_cons]
      by_cases hci : c.id = i
      · rw [if_pos hci]
        rw [List.find?_cons_of_pos _ (by simpa using hrow)]
      · rw [if_neg hci]
        rw [List.find?_cons_of_neg _ (by simpa using hci)]
        rw [List.find?_cons_of_neg _ (by simpa using hci)] at h
        exact ih h

theorem findSlot_updateSlotPure_other (i : Nat) (ct : String) (v : Nat)
    (cs rs ce re : Nat) (st : Storage) (j : Nat) (hne : ¬ j = i) :
    findSlot (updateSlotPure i ct v cs rs ce re st) j = findSlot st j :=
  find?_map_updateRow st.slots i j _ rfl hne

theorem findSlot_updateSlotPure_self (i : Nat) (ct : String) (v : Nat)
    (cs rs ce re : Nat) (st : Storage) (h : (findSlot st i).isSome) :
    findSlot (updateSlotPure i ct v cs rs ce re st) i = some ⟨i, ct, v, cs, rs, ce, re⟩ :=
  find?_map_updateRow_self st.slots i _ rfl h

theorem findSlot_updateSlotPure_isSome (i : Nat) (ct : String) (v : Nat)
    (cs rs ce re : Nat) (st : Storage) (j : Nat) (h : (findSlot st j).isSome) :
    (findSlot (updateSlotPure i ct v cs rs ce re st) j).isSome := by
  by_cases hji : j = i
  · subst hji
    rw [findSlot_updateSlotPure_self j ct v cs rs ce re st h]
    rfl
  · rw [findSlot_updateSlotPure_other i ct v cs rs ce re st j hji]
    exact h

theorem findSlot_applyDescriptorPure_isSome (viewId : Nat) (st : Storage)
    (d : SlotDescriptor) (j : Nat) (h : (findSlot st j).isSome) :
    (findSlot (applyDescriptorPure viewId st d) j).isSome := by
  unfold applyDescriptorPure
  cases d.id? with
  | none =>
      rw [findSlot_setOptionsPure]
      rw [findSlot_createSlotPure_of_isSome _ _ _ _ _ _ _ _ h]
      exact h
  | some cid =>
      rw [findSlot_setOptionsPure]
      exact findSlot_updateSlotPure_isSome _ _ _ _ _ _ _ _ _ h

theorem run_slotLoop (viewId : Nat) (ds : List SlotDescriptor) :
    ∀ (s : St), s.faultOn = [] →
    (∀ i ∈ ds.filterMap (fun d => d.id?), (findSlot s.store i).isSome) →
    (DisplayService.slotLoop viewId ds).run s =
      (Except.ok (), ⟨slotLoopPure viewId ds s.store,
        s.calls ++ slotLoopTrace viewId ds s.store, s.events, s.faultOn⟩) := by
  induction ds with
  | nil =>
      intro s h _
      rcases s with ⟨st, cs, ev, fa⟩
      simp [DisplayService.slotLoop, slotLoopPure, slotLoopTrace, M.run_pure]
  | cons d rest ih =>
      intro s h hids
      rcases hd : d.id? with _ | cid
      · simp only [DisplayService.slotLoop, hd]
        rw [M.run_bind_ok _ _ _ _ _ (run_createContentSlot d.componentType viewId
          d.columnStart d.rowStart d.columnEnd d.rowEnd s h)]
        rw [M.run_bind_ok _ _ _ _ _ (run_unawaited_ok _ _ _ _
          (run_setOptionsForContentSlot s.store.nextSlotId (d.options.getD []) _
            (by simpa using h)))]
        rw [ih _ (by simpa using h) ?hid]
        case hid =>
          intro i hi
          have hmem : i ∈ (d :: rest).filterMap (fun d => d.id?) := by
            simp [List.filterMap_cons, hd, hi]
          have h0 := hids i hmem
          show (findSlot (setOptionsPure _ _ _) i).isSome
          rw [findSlot_setOptionsPure]
          rw [findSlot_createSlotPure_of_isSome _ _ _ _ _ _ _ _ h0]
          exact h0
        have hpure : slotLoopPure viewId (d :: rest) s.store =
            slotLoopPure viewId rest (setOptionsPure s.store.nextSlotId (d.options.getD [])
              (createSlotPure d.componentType viewId d.columnStart d.rowStart
                d.columnEnd d.rowEnd s.store)) := by
          simp [slotLoopPure, applyDescriptorPure, hd]
        have htr : slotLoopTrace viewId (d :: rest) s.store =
            RepoCall.createContentSlot d.componentType viewId d.columnStart d.rowStart
                d.columnEnd d.rowEnd ::
              (setOptionsTrace s.store.nextSlotId (d.options.getD [])
                  (createSlotPure d.componentType viewId d.columnStart d.rowStart
                    d.columnEnd d.rowEnd s.store) ++
                slotLoopTrace viewId rest (setOptionsPure s.store.nextSlotId (d.options.getD [])
                  (createSlotPure d.componentType viewId d.columnStart d.rowStart
                    d.columnEnd d.rowEnd s.store))) := by
          simp [slotLoopTrace, applyDescriptorPure, hd]
        rw [hpure, htr]
        simp
      · have hcid : cid ∈ (d :: rest).filterMap (fun d => d.id?) := by
          simp [List.filterMap_cons, hd]
        obtain ⟨c, hc⟩ := Option.isSome_iff_exists.mp (hids cid hcid)
        have hcidEq : c.id = cid := findSlot_id hc
        simp only [DisplayService.slotLoop, hd]
        rw [M.run_bind_ok _ _ _ _ _ (show (ContentSlotRepository.getContentSlot cid).run s =
          (Except.ok c, ⟨s.store, s.calls ++ [RepoCall.getContentSlot cid], s.events, s.faultOn⟩) by
            rw [run_getContentSlot cid s h, hc])]
        rw [hcidEq]
        rw [M.run_bind_ok _ _ _ _ _ (run_updateContentSlot cid d.componentType viewId
          d.columnStart d.rowStart d.columnEnd d.rowEnd _ (by simpa using h))]
        rw [M.run_bind_ok _ _ _ _ _ (run_unawaited_ok _ _ _ _
          (run_setOptionsForContentSlot cid (d.options.getD []) _ (by simpa using h)))]
        rw [ih _ (by simpa using h) ?hid2]
        case hid2 =>
          intro i hi
          have hmem : i ∈ (d :: rest).filterMap (fun d => d.id?) := by
            simp [List.filterMap_cons, hd, hi]
          have h0 := hids i hmem
          show (findSlot (setOptionsPure _ _ (updateSlotPure _ _ _ _ _ _ _ _)) i).isSome
          rw [findSlot_setOptionsPure]
          exact findSlot_updateSlotPure_isSome _ _ _ _ _ _ _ _ _ h0
        have hpure : slotLoopPure viewId (d :: rest) s.store =
            slotLoopPure viewId rest (setOptionsPure cid (d.options.getD [])
              (updateSlotPure cid d.componentType viewId d.columnStart d.rowStart
                d.columnEnd d.rowEnd s.store)) := by
          simp [slotLoopPure, applyDescriptorPure, hd]
        have htr : slotLoopTrace viewId (d :: rest) s.store =
            RepoCall.getContentSlot cid ::
              RepoCall.updateContentSlot cid d.componentType viewId d.columnStart d.rowStart
                  d.columnEnd d.rowEnd ::
                (setOptionsTrace cid (d.options.getD [])
                    (updateSlotPure cid d.componentType viewId d.columnStart d.rowStart
                      d.columnEnd d.rowEnd s.store) ++
                  slotLoopTrace viewId rest (setOptionsPure cid (d.options.getD [])
                    (updateSlotPure cid d.componentType viewId d.columnStart d.rowStart
                      d.columnEnd d.rowEnd s.store))) := by
          simp [slotLoopTrace, applyDescriptorPure, hd]
        rw [hpure, htr]
        simp

theorem removePure_slots : ∀ (ids : List Nat) (st : Storage),
    (removePure ids st).slots = st.slots.filter (fun c => ¬ ids.contains c.id) := by
  intro ids
  induction ids with
  | nil => intro st; simp [removePure]
  | cons i rest ih =>
      intro st
      show (removePure rest (removeStep st i)).slots = _
      rw [ih]
      show ((st.slots.filter fun c => ¬ c.id = i).filter fun c => ¬ rest.contains c.id) = _
      rw [List.filter_filter]
      apply List.filter_congr
      intro c _
      by_cases h1 : c.id = i <;> by_cases h2 : rest.contains c.id <;>
        simp [h1, h2, List.contains_cons]

theorem removePure_options : ∀ (ids : List Nat) (st : Storage),
    (removePure ids st).options = st.options.filter (fun o => ¬ ids.contains o.slotId) := by
  intro ids
  induction ids with
  | nil => intro st; simp [removePure]
  | cons i rest ih =>
      intro st
      show (removePure rest (removeStep st i)).options = _
      rw [ih]
      show ((st.options.filter fun o => ¬ o.slotId = i).filter fun o => ¬ rest.contains o.slotId) = _
      rw [List.filter_filter]
      apply List.filter_congr
      intro o _
      by_cases h1 : o.slotId = i <;> by_cases h2 : rest.contains o.slotId <;>
        simp [h1, h2, List.contains_cons]

theorem removePure_inv (f : Storage → α)
    (hf : ∀ st slots opts, f { st with slots := slots, options := opts } = f st) :
    ∀ (ids : List Nat) (st : Storage), f (removePure ids st) = f st := by
  intro ids
  induction ids with
  | nil => intro st; rfl
  | cons i rest ih =>
      intro st
      show f (removePure rest (removeStep st i)) = f st
      rw [ih]
      exact hf st _ _

theorem removePure_views (ids : List Nat) (st : Storage) :
    (removePure ids st).views = st.views :=
  removePure_inv (fun st => st.views) (fun _ _ _ => rfl) ids st

theorem removePure_displays (ids : List Nat) (st : Storage) :
    (removePure ids st).displays = st.displays :=
  removePure_inv (fun st => st.displays) (fun _ _ _ => rfl) ids st

theorem removePure_nextSlotId (ids : List Nat) (st : Storage) :
    (removePure ids st).nextSlotId = st.nextSlotId :=
  removePure_inv (fun st => st.nextSlotId) (fun _ _ _ => rfl) ids st

theorem removePure_nextViewId (ids : List Nat) (st : Storage) :
    (removePure ids st).nextViewId = st.nextViewId :=
  removePure_inv (fun st => st.nextViewId) (fun _ _ _ => rfl) ids st

theorem removePure_nextDisplayId (ids : List Nat) (st : Storage) :
    (removePure ids st).nextDisplayId = st.nextDisplayId :=
  removePure_inv (fun st => st.nextDisplayId) (fun _ _ _ => rfl) ids st

theorem findSlot_removePure_isSome (ids : List Nat) (j : Nat) (st : Storage)
    (hj : ids.contains j = false) (h : (findSlot st j).isSome) :
    (findSlot (removePure ids st) j).isSome := by
  show ((removePure ids st).slots.find? fun c => c.id = j).isSome
  rw [removePure_slots]
  rw [show findSlot st j = st.slots.find? (fun c => c.id = j) from rfl] at h
  simp only [List.find?_isSome] at h ⊢
  obtain ⟨x, hx, hpx⟩ := h
  have hxj : x.id = j := by simpa using hpx
  refine ⟨x, List.mem_filter.mpr ⟨hx, ?_⟩, hpx⟩
  have hj2 : j ∉ ids := by simpa using hj
  simp [hxj, hj2]

theorem submittedIds_eq : ∀ (ds : List SlotDescriptor),
    submittedIds ds = ds.filterMap (fun d => d.id?) := by
  intro ds
  induction ds with
  | nil => rfl
  | cons d rest ih =>
      rcases hd : d.id? with _ | i <;>
        simp [submittedIds, List.filter_cons, List.filterMap_cons, hd] <;>
        simpa [submittedIds] using ih

theorem run_updateContentSlotsForView (viewId : Nat) (ds : List SlotDescriptor)
    (s : St) (h : s.faultOn = [])
    (hids : ∀ i ∈ ds.filterMap (fun d => d.id?), (findSlot s.store i).isSome) :
    (DisplayService.updateContentSlotsForView viewId ds).run s =
      (Except.ok (), ⟨reconcilePure viewId ds s.store,
        s.calls ++ reconcileTrace viewId ds s.store, s.events, s.faultOn⟩) := by
  simp only [DisplayService.updateContentSlotsForView]
  rw [M.run_bind_ok _ _ _ _ _ (run_getContentSlotsByViewId viewId s h)]
  rw [M.run_bind_ok _ _ _ _ _ (run_removeLoop _ _ (by simpa using h))]
  rw [run_slotLoop viewId ds _ (by simpa using h) ?hid]
  case hid =>
    intro i hi
    show (findSlot (removePure _ s.store) i).isSome
    apply findSlot_removePure_isSome _ _ _ ?hc (hids i hi)
    case hc =>
      have hsub : i ∈ submittedIds ds := by
        rw [submittedIds_eq]
        exact hi
      by_contra hcon
      rw [Bool.not_eq_false, List.contains_iff_exists_mem_beq] at hcon
      obtain ⟨x, hxmem, hxeq⟩ := hcon
      have hxi : i = x := by simpa using hxeq
      subst hxi
      have hp := List.of_mem_filter hxmem
      simp at hp
      exact hp hsub
  have hrm : ((slotsForView s.store viewId).map (fun c => c.id)).filter
      (fun i => ¬ (submittedIds ds).contains i) = removedIds s.store viewId ds := rfl
  rw [hrm]
  simp [reconcilePure, reconcileTrace]

/-! Association-list lemmas for option maps. -/

theorem lookup_map_overwrite (k : String) (v : String) :
    ∀ (m : List (String × String)),
    (m.map (fun kv => if kv.1 = k then (k, v) else kv)).lookup k =
      if k ∈ m.map Prod.fst then some v else none := by
  intro m
  induction m with
  | nil => simp
  | cons kv rest ih =>
      obtain ⟨k1, v1⟩ := kv
      by_cases hk : k1 = k
      · simp [List.map_cons, hk, List.lookup_cons]
      · have hkne : ¬ k = k1 := fun hh => hk hh.symm
        have hk2 : (k == k1) = false := by simpa using hkne
        have hmc : (k ∈ k1 :: List.map Prod.fst rest) ↔ (k ∈ List.map Prod.fst rest) := by
          simp [List.mem_cons, hkne]
        simp only [List.map_cons, if_neg hk, List.lookup_cons, hk2, ih]
        show (if k ∈ List.map Prod.fst rest then some v else none) = _
        exact (if_congr hmc rfl rfl).symm

theorem lookup_map_overwrite_other (k v : String) (k1 : String) (hne : ¬ k1 = k) :
    ∀ (m : List (String × String)),
    (m.map (fun kv => if kv.1 = k then (k, v) else kv)).lookup k1 = m.lookup k1 := by
  intro m
  induction m with
  | nil => simp
  | cons kv rest ih =>
      obtain ⟨k2, v2⟩ := kv
      by_cases hk : k2 = k
      · have h1 : (k1 == k) = false := by simpa using hne
        have h2 : (k1 == k2) = false := by
          rw [hk]
          simpa using hne
        simp [List.map_cons, hk, List.lookup_cons, h1, h2, ih]
      · by_cases hk1 : (k1 == k2) = true
        · simp [List.map_cons, hk, List.lookup_cons, hk1]
        · have h2 : (k1 == k2) = false := by simpa using hk1
          simp [List.map_cons, hk, List.lookup_cons, h2, ih]

theorem lookup_append_left_none (k : String) (m1 m2 : List (String × String))
    (h : m1.lookup k = none) : (m1 ++ m2).lookup k = m2.lookup k := by
  rw [List.lookup_append, h]
  rfl

theorem lookup_filter_none (k : String) (P : String × String → Bool)
    (hP : ∀ v, P (k, v) = false) :
    ∀ (m : List (String × String)), (m.filter P).lookup k = none := by
  intro m
  induction m with
  | nil => simp
  | cons kv rest ih =>
      obtain ⟨k1, v1⟩ := kv
      by_cases hk : k1 = k
      · have hpv : P (k1, v1) = false := by rw [hk]; exact hP v1
        simp [List.filter_cons, hpv, ih]
      · have h2 : ¬ (k == k1) = true := by simpa using fun hh => hk hh.symm
        by_cases hpkv : P (k1, v1) <;>
          simp [List.filter_cons, hpkv, List.lookup_cons, h2, ih]

/-- omap: the option map of one slot computed from a raw option-row list. -/
def omap (l : List SlotOption) (i : Nat) : List (String × String) :=
  (l.filter (fun o => o.slotId = i)).map (fun o => (o.key, o.value))

theorem optionMap_eq_omap (st : Storage) (i : Nat) : optionMap st i = omap st.options i := rfl

theorem omap_del_self (i : Nat) (k : String) : ∀ (l : List SlotOption),
    omap (l.filter (fun o => ¬ (o.slotId = i ∧ o.key = k))) i =
      (omap l i).filter (fun kv => ¬ kv.1 = k) := by
  intro l
  induction l with
  | nil => rfl
  | cons o rest ih =>
      by_cases h1 : o.slotId = i
      · by_cases h2 : o.key = k
        · simp [omap, List.filter_cons, h1, h2] at ih ⊢
          exact ih
        · simp [omap, List.filter_cons, h1, h2] at ih ⊢
          exact ih
      · simp [omap, List.filter_cons, h1] at ih ⊢
        exact ih

theorem omap_del_other (i : Nat) (k : String) (j : Nat) (hne : ¬ j = i) :
    ∀ (l : List SlotOption),
    omap (l.filter (fun o => ¬ (o.slotId = i ∧ o.key = k))) j = omap l j := by
  have h4 : ¬ (i : Nat) = j := fun hh => hne hh.symm
  intro l
  induction l with
  | nil => rfl
  | cons o rest ih =>
      by_cases h1 : o.slotId = j
      · have h2 : ¬ o.slotId = i := by rw [h1]; exact hne
        simp [omap, List.filter_cons, hne, h4, h1, h2] at ih ⊢
        exact ih
      · by_cases h2 : o.slotId = i
        · by_cases h3 : o.key = k
          · simp [omap, List.filter_cons, hne, h4, h1, h2, h3] at ih ⊢
            exact ih
          · simp [omap, List.filter_cons, hne, h4, h1, h2, h3] at ih ⊢
            exact ih
        · simp [omap, List.filter_cons, hne, h4, h1, h2] at ih ⊢
          exact ih

theorem omap_upd_self (i : Nat) (k v : String) : ∀ (l : List SlotOption),
    omap (l.map (fun o => if o.slotId = i ∧ o.key = k then ⟨i, k, v⟩ else o)) i =
      (omap l i).map (fun kv => if kv.1 = k then (k, v) else kv) := by
  intro l
  induction l with
  | nil => rfl
  | cons o rest ih =>
      by_cases h1 : o.slotId = i
      · by_cases h2 : o.key = k
        · simp [omap, List.filter_cons, h1, h2] at ih ⊢
          exact ih
        · simp [omap, List.filter_cons, h1, h2] at ih ⊢
          exact ih
      · have h3 : ¬ (o.slotId = i ∧ o.key = k) := fun hh => h1 hh.1
        simp [omap, List.filter_cons, h1, h3] at ih ⊢
        exact ih

theorem omap_upd_other (i : Nat) (k v : String) (j : Nat) (hne : ¬ j = i) :
    ∀ (l : List SlotOption),
    omap (l.map (fun o => if o.slotId = i ∧ o.key = k then ⟨i, k, v⟩ else o)) j = omap l j := by
  have h4 : ¬ (i : Nat) = j := fun hh => hne hh.symm
  intro l
  induction l with
  | nil => rfl
  | cons o rest ih =>
      by_cases h1 : o.slotId = j
      · have h2 : ¬ o.slotId = i := by rw [h1]; exact hne
        have h3 : ¬ (o.slotId = i ∧ o.key = k) := fun hh => h2 hh.1
        simp [omap, List.filter_cons, hne, h4, h1, h3] at ih ⊢
        exact ih
      · by_cases h2 : o.slotId = i
        · by_cases h3 : o.key = k
          · simp [omap, List.filter_cons, hne, h4, h1, h2, h3, h4] at ih ⊢
            exact ih
          · have h5 : ¬ (o.slotId = i ∧ o.key = k) := fun hh => h3 hh.2
            simp [omap, List.filter_cons, hne, h4, h1, h5] at ih ⊢
            exact ih
        · have h5 : ¬ (o.slotId = i ∧ o.key = k) := fun hh => h2 hh.1
          simp [omap, List.filter_cons, hne, h4, h1, h5] at ih ⊢
          exact ih

theorem omap_append_self (i : Nat) (k v : String) (l : List SlotOption) :
    omap (l ++ [⟨i, k, v⟩]) i = omap l i ++ [(k, v)] := by
  simp [omap, List.filter_append]

theorem omap_append_other (i : Nat) (k v : String) (j : Nat) (hne : ¬ j = i)
    (l : List SlotOption) : omap (l ++ [⟨i, k, v⟩]) j = omap l j := by
  have h4 : ¬ (i : Nat) = j := fun hh => hne hh.symm
  simp [omap, List.filter_append, h4]

theorem omap_delall_self (i : Nat) : ∀ (l : List SlotOption),
    omap (l.filter (fun o => ¬ o.slotId = i)) i = [] := by
  intro l
  induction l with
  | nil => rfl
  | cons o rest ih =>
      by_cases h1 : o.slotId = i
      · simp [omap, List.filter_cons, h1]
      · simp [omap, List.filter_cons, h1]

theorem omap_delall_other (i : Nat) (j : Nat) (hne : ¬ j = i) :
    ∀ (l : List SlotOption),
    omap (l.filter (fun o => ¬ o.slotId = i)) j = omap l j := by
  have h4 : ¬ (i : Nat) = j := fun hh => hne hh.symm
  intro l
  induction l with
  | nil => rfl
  | cons o rest ih =>
      by_cases h1 : o.slotId = j
      · have h2 : ¬ o.slotId = i := by rw [h1]; exact hne
        simp [omap, List.filter_cons, h1, h2, hne, h4] at ih ⊢
        exact ih
      · by_cases h2 : o.slotId = i <;>
          simp [omap, List.filter_cons, h1, h2, hne, h4] at ih ⊢ <;> exact ih

theorem keys_overwrite (k v : String) : ∀ (m : List (String × String)),
    ((m.map (fun kv => if kv.1 = k then (k, v) else kv)).map Prod.fst) = m.map Prod.fst := by
  intro m
  induction m with
  | nil => rfl
  | cons kv rest ih =>
      by_cases hk : kv.1 = k <;> simp [hk, ih]

theorem lookup_eq_none_of_not_mem_keys (k : String) (m : List (String × String))
    (h : ¬ k ∈ m.map Prod.fst) : m.lookup k = none := by
  rw [List.lookup_eq_none_iff]
  intro p hp
  have : ¬ k = p.1 := fun hh => h (hh ▸ List.mem_map_of_mem Prod.fst hp)
  simpa using this

theorem lookup_append_single_ne (k k1 v : String) (m : List (String × String))
    (h : ¬ k = k1) : (m ++ [(k1, v)]).lookup k = m.lookup k := by
  have hb : (k == k1) = false := by simpa using h
  rw [List.lookup_append]
  cases hm : m.lookup k <;> simp [List.lookup_cons, hb, Option.or]

theorem mem_keys_omap (i : Nat) (k : String) (l : List SlotOption) :
    k ∈ (omap l i).map Prod.fst ↔ (i, k) ∈ l.map (fun o => (o.slotId, o.key)) := by
  constructor
  · intro hk
    obtain ⟨kv, hkv, hfst⟩ := List.mem_map.mp hk
    obtain ⟨o, ho, hoeq⟩ := List.mem_map.mp hkv
    have hof := List.mem_filter.mp ho
    have h1 : o.slotId = i := by simpa using hof.2
    have h2 : o.key = k := by
      rw [← hfst, ← hoeq]
    refine List.mem_map.mpr ⟨o, hof.1, ?_⟩
    rw [h1, h2]
  · intro hk
    obtain ⟨o, ho, hoeq⟩ := List.mem_map.mp hk
    have hp := Prod.ext_iff.mp hoeq
    have h1 : o.slotId = i := hp.1
    have h2 : o.key = k := hp.2
    refine List.mem_map.mpr ⟨(o.key, o.value), ?_, h2⟩
    exact List.mem_map.mpr ⟨o, List.mem_filter.mpr ⟨ho, by simpa using h1⟩, rfl⟩

theorem opairs_upd (i : Nat) (k v : String) : ∀ (l : List SlotOption),
    ((l.map (fun o => if o.slotId = i ∧ o.key = k then ⟨i, k, v⟩ else o)).map
      (fun o => (o.slotId, o.key))) = l.map (fun o => (o.slotId, o.key)) := by
  intro l
  induction l with
  | nil => rfl
  | cons o rest ih =>
      by_cases h1 : o.slotId = i ∧ o.key = k
      · simp [h1, ih, h1.1, h1.2]
      · simp [h1, ih]

theorem optionMap_deleteOptionPure_self (i : Nat) (k : String) (st : Storage) :
    optionMap (deleteOptionPure i k st) i = (optionMap st i).filter (fun kv => ¬ kv.1 = k) :=
  omap_del_self i k st.options

theorem optionMap_deleteOptionPure_other (i : Nat) (k : String) (st : Storage)
    (j : Nat) (hne : ¬ j = i) :
    optionMap (deleteOptionPure i k st) j = optionMap st j :=
  omap_del_other i k j hne st.options

theorem optionMap_updateOptionPure_self (i : Nat) (k v : String) (st : Storage) :
    optionMap (updateOptionPure i k v st) i =
      (optionMap st i).map (fun kv => if kv.1 = k then (k, v) else kv) :=
  omap_upd_self i k v st.options

theorem optionMap_updateOptionPure_other (i : Nat) (k v : String) (st : Storage)
    (j : Nat) (hne : ¬ j = i) :
    optionMap (updateOptionPure i k v st) j = optionMap st j :=
  omap_upd_other i k v j hne st.options

theorem optionMap_createOptionPure_self (i : Nat) (k v : String) (st : Storage) :
    optionMap (createOptionPure i k v st) i = optionMap st i ++ [(k, v)] :=
  omap_append_self i k v st.options

theorem optionMap_createOptionPure_other (i : Nat) (k v : String) (st : Storage)
    (j : Nat) (hne : ¬ j = i) :
    optionMap (createOptionPure i k v st) j = optionMap st j :=
  omap_append_other i k v j hne st.options

theorem optionMap_deleteOptionsPure_self (i : Nat) (st : Storage) :
    optionMap (deleteOptionsPure i st) i = [] :=
  omap_delall_self i st.options

theorem optionMap_deleteOptionsPure_other (i : Nat) (st : Storage)
    (j : Nat) (hne : ¬ j = i) :
    optionMap (deleteOptionsPure i st) j = optionMap st j :=
  omap_delall_other i j hne st.options

theorem delAbsentPure_omap_self (i : Nat) (de : List (String × String)) :
    ∀ (keys : List String) (st : Storage),
    optionMap (delAbsentPure i de keys st) i =
      (optionMap st i).filter (fun kv => (de.lookup kv.1).isSome ∨ ¬ kv.1 ∈ keys) := by
  intro keys
  induction keys with
  | nil =>
      intro st
      show optionMap st i = _
      rw [List.filter_congr (fun kv _ => by simp : ∀ kv ∈ optionMap st i,
        (decide ((de.lookup kv.1).isSome ∨ ¬ kv.1 ∈ ([] : List String))) = true)]
      rw [List.filter_true]
  | cons k rest ih =>
      intro st
      by_cases hk : (de.lookup k).isSome
      · show optionMap (delAbsentPure i de rest _) i = _
        rw [if_pos hk, ih]
        apply List.filter_congr
        intro kv _
        by_cases hkk : kv.1 = k
        · rw [hkk, hk]
          simp
        · simp [hkk]
      · show optionMap (delAbsentPure i de rest _) i = _
        rw [if_neg hk, ih, optionMap_deleteOptionPure_self, List.filter_filter]
        apply List.filter_congr
        intro kv _
        by_cases hkk : kv.1 = k
        · have hnone := Option.not_isSome_iff_eq_none.mp hk
          rw [hkk, hnone]
          simp
        · simp [hkk]

theorem delAbsentPure_omap_other (i : Nat) (de : List (String × String))
    (j : Nat) (hne : ¬ j = i) : ∀ (keys : List String) (st : Storage),
    optionMap (delAbsentPure i de keys st) j = optionMap st j := by
  intro keys
  induction keys with
  | nil => intro st; rfl
  | cons k rest ih =>
      intro st
      show optionMap (delAbsentPure i de rest _) j = _
      rw [ih]
      split
      · rfl
      · exact optionMap_deleteOptionPure_other i k st j hne

theorem upsertPure_omap_other (i : Nat) (exKeys : List String)
    (j : Nat) (hne : ¬ j = i) : ∀ (de : List (String × String)) (st : Storage),
    optionMap (upsertPure i exKeys de st) j = optionMap st j := by
  intro de
  induction de with
  | nil => intro st; rfl
  | cons kv rest ih =>
      intro st
      show optionMap (upsertPure i exKeys rest _) j = _
      rw [ih]
      split
      · exact optionMap_updateOptionPure_other i kv.1 kv.2 st j hne
      · exact optionMap_createOptionPure_other i kv.1 kv.2 st j hne

theorem setOptionsPure_omap_other (i : Nat) (de : List (String × String))
    (st : Storage) (j : Nat) (hne : ¬ j = i) :
    optionMap (setOptionsPure i de st) j = optionMap st j := by
  show optionMap (upsertPure _ _ _ _) j = _
  rw [upsertPure_omap_other i _ j hne, delAbsentPure_omap_other i _ j hne]

theorem nodup_opairs_filter (P : SlotOption → Bool) (l : List SlotOption)
    (h : (l.map (fun o => (o.slotId, o.key))).Nodup) :
    ((l.filter P).map (fun o => (o.slotId, o.key))).Nodup :=
  h.sublist ((l.filter_sublist).map _)

theorem upsertPure_spec (i : Nat) (exKeys : List String) :
    ∀ (de : List (String × String)) (st : Storage),
    (st.options.map (fun o => (o.slotId, o.key))).Nodup →
    (de.map Prod.fst).Nodup →
    (∀ kv ∈ de, kv.1 ∈ exKeys → kv.1 ∈ (optionMap st i).map Prod.fst) →
    (∀ kv ∈ de, ¬ kv.1 ∈ exKeys → ¬ kv.1 ∈ (optionMap st i).map Prod.fst) →
    ((upsertPure i exKeys de st).options.map (fun o => (o.slotId, o.key))).Nodup ∧
    (∀ kv ∈ de, (optionMap (upsertPure i exKeys de st) i).lookup kv.1 = some kv.2) ∧
    (∀ k, ¬ k ∈ de.map Prod.fst →
      (optionMap (upsertPure i exKeys de st) i).lookup k = (optionMap st i).lookup k) := by
  intro de
  induction de with
  | nil =>
      intro st h1 _ _ _
      refine ⟨h1, by simp, fun k _ => rfl⟩
  | cons kv rest ih =>
      intro st hnd hkeys hin hout
      obtain ⟨k, v⟩ := kv
      obtain ⟨hknr, hkr⟩ := List.nodup_cons.mp
        (show (k :: rest.map Prod.fst).Nodup from hkeys)
      by_cases hk : exKeys.contains k
      · have hkmem : k ∈ exKeys := by simpa using hk
        have hkcur : k ∈ (optionMap st i).map Prod.fst :=
          hin (k, v) (List.mem_cons_self _ _) hkmem
        have f1 : (optionMap (updateOptionPure i k v st) i).map Prod.fst =
            (optionMap st i).map Prod.fst := by
          rw [optionMap_updateOptionPure_self]
          exact keys_overwrite k v _
        have f2 : ((updateOptionPure i k v st).options.map (fun o => (o.slotId, o.key))).Nodup := by
          show ((st.options.map _).map _).Nodup
          rw [opairs_upd]
          exact hnd
        have f3 : (optionMap (updateOptionPure i k v st) i).lookup k = some v := by
          rw [optionMap_updateOptionPure_self, lookup_map_overwrite, if_pos hkcur]
        have f4 : ∀ k1, ¬ k1 = k → (optionMap (updateOptionPure i k v st) i).lookup k1 =
            (optionMap st i).lookup k1 := by
          intro k1 hne1
          rw [optionMap_updateOptionPure_self, lookup_map_overwrite_other k v k1 hne1]
        have hstep := ih (updateOptionPure i k v st) f2 hkr
          (fun kv2 h2 hm => by
            rw [f1]
            exact hin kv2 (List.mem_cons_of_mem _ h2) hm)
          (fun kv2 h2 hm => by
            rw [f1]
            exact hout kv2 (List.mem_cons_of_mem _ h2) hm)
        obtain ⟨c1, c2, c3⟩ := hstep
        have hgoal : upsertPure i exKeys ((k, v) :: rest) st =
            upsertPure i exKeys rest (updateOptionPure i k v st) := by
          show upsertPure i exKeys rest _ = _
          rw [if_pos hk]
        rw [hgoal]
        refine ⟨c1, ?_, ?_⟩
        · intro kv2 h2
          rcases List.mem_cons.mp h2 with h2 | h2
          · rw [h2]
            rw [c3 k hknr]
            exact f3
          · exact c2 kv2 h2
        · intro k1 h1
          have h1r : ¬ k1 ∈ rest.map Prod.fst := fun hh => h1 (by simp [hh])
          have h1k : ¬ k1 = k := fun hh => h1 (by simp [hh])
          rw [c3 k1 h1r, f4 k1 h1k]
      · have hkmem : ¬ k ∈ exKeys := by simpa using hk
        have hkcur : ¬ k ∈ (optionMap st i).map Prod.fst :=
          hout (k, v) (List.mem_cons_self _ _) hkmem
        have f1 : (optionMap (createOptionPure i k v st) i).map Prod.fst =
            (optionMap st i).map Prod.fst ++ [k] := by
          rw [optionMap_createOptionPure_self, List.map_append]
          rfl
        have f2 : ((createOptionPure i k v st).options.map (fun o => (o.slotId, o.key))).Nodup := by
          show ((st.options ++ [SlotOption.mk i k v]).map (fun o => (o.slotId, o.key))).Nodup
          rw [List.map_append]
          refine List.Nodup.append hnd (by simp) ?_
          intro p hp hp2
          have hpik : p = (i, k) := by simpa using hp2
          rw [hpik] at hp
          exact hkcur ((mem_keys_omap i k st.options).mpr hp)
        have f3 : (optionMap (createOptionPure i k v st) i).lookup k = some v := by
          rw [optionMap_createOptionPure_self]
          rw [lookup_append_left_none k _ _ (lookup_eq_none_of_not_mem_keys k _ hkcur)]
          simp [List.lookup_cons]
        have f4 : ∀ k1, ¬ k1 = k → (optionMap (createOptionPure i k v st) i).lookup k1 =
            (optionMap st i).lookup k1 := by
          intro k1 hne1
          rw [optionMap_createOptionPure_self, lookup_append_single_ne k1 k v _ hne1]
        have hstep := ih (createOptionPure i k v st) f2 hkr
          (fun kv2 h2 hm => by
            rw [f1]
            exact List.mem_append_left _ (hin kv2 (List.mem_cons_of_mem _ h2) hm))
          (fun kv2 h2 hm => by
            rw [f1]
            intro hcc
            rcases List.mem_append.mp hcc with hcc | hcc
            · exact hout kv2 (List.mem_cons_of_mem _ h2) hm hcc
            · have : kv2.1 = k := by simpa using hcc
              exact hknr (this ▸ List.mem_map_of_mem Prod.fst h2))
        obtain ⟨c1, c2, c3⟩ := hstep
        have hgoal : upsertPure i exKeys ((k, v) :: rest) st =
            upsertPure i exKeys rest (createOptionPure i k v st) := by
          show upsertPure i exKeys rest _ = _
          rw [if_neg hk]
        rw [hgoal]
        refine ⟨c1, ?_, ?_⟩
        · intro kv2 h2
          rcases List.mem_cons.mp h2 with h2 | h2
          · rw [h2]
            rw [c3 k hknr]
            exact f3
          · exact c2 kv2 h2
        · intro k1 h1
          have h1r : ¬ k1 ∈ rest.map Prod.fst := fun hh => h1 (by simp [hh])
          have h1k : ¬ k1 = k := fun hh => h1 (by simp [hh])
          rw [c3 k1 h1r, f4 k1 h1k]

theorem delAbsentPure_nodup (i : Nat) (de : List (String × String)) :
    ∀ (keys : List String) (st : Storage),
    (st.options.map (fun o => (o.slotId, o.key))).Nodup →
    ((delAbsentPure i de keys st).options.map (fun o => (o.slotId, o.key))).Nodup := by
  intro keys
  induction keys with
  | nil => intro st h; exact h
  | cons k rest ih =>
      intro st h
      show ((delAbsentPure i de rest _).options.map _).Nodup
      apply ih
      split
      · exact h
      · exact nodup_opairs_filter _ _ h

theorem delAbsentPure_options_pred (i : Nat) (de : List (String × String))
    (P : SlotOption → Prop) :
    ∀ (keys : List String) (st : Storage),
    (∀ o ∈ st.options, P o) →
    (∀ o ∈ (delAbsentPure i de keys st).options, P o) := by
  intro keys
  induction keys with
  | nil => intro st h; exact h
  | cons k rest ih =>
      intro st h
      show ∀ o ∈ (delAbsentPure i de rest _).options, P o
      apply ih
      split
      · exact h
      · intro o ho
        exact h o (List.mem_of_mem_filter ho)

theorem upsertPure_options_pred (i : Nat) (exKeys : List String)
    (P : SlotOption → Prop) (hP : ∀ k v1, P ⟨i, k, v1⟩) :
    ∀ (de : List (String × String)) (st : Storage),
    (∀ o ∈ st.options, P o) →
    (∀ o ∈ (upsertPure i exKeys de st).options, P o) := by
  intro de
  induction de with
  | nil => intro st h; exact h
  | cons kv rest ih =>
      intro st h
      show ∀ o ∈ (upsertPure i exKeys rest _).options, P o
      apply ih
      split
      · intro o ho
        obtain ⟨o1, ho1, heq⟩ := List.mem_map.mp ho
        by_cases hc : o1.slotId = i ∧ o1.key = kv.1
        · rw [if_pos hc] at heq
          rw [← heq]
          exact hP _ _
        · rw [if_neg hc] at heq
          rw [← heq]
          exact h o1 ho1
      · intro o ho
        rcases List.mem_append.mp ho with ho | ho
        · exact h o ho
        · have : o = ⟨i, kv.1, kv.2⟩ := by simpa using ho
          rw [this]
          exact hP _ _

theorem setOptionsPure_options_pred (i : Nat) (de : List (String × String))
    (st : Storage) (P : SlotOption → Prop) (hP : ∀ k v1, P ⟨i, k, v1⟩)
    (h : ∀ o ∈ st.options, P o) :
    ∀ o ∈ (setOptionsPure i de st).options, P o := by
  show ∀ o ∈ (upsertPure _ _ _ _).options, P o
  exact upsertPure_options_pred i _ P hP de _ (delAbsentPure_options_pred i de P _ _ h)

theorem setOptionsPure_spec (i : Nat) (de : List (String × String)) (st : Storage)
    (hnd : (st.options.map (fun o => (o.slotId, o.key))).Nodup)
    (hkeys : (de.map Prod.fst).Nodup) :
    ((setOptionsPure i de st).options.map (fun o => (o.slotId, o.key))).Nodup ∧
    (∀ k, (optionMap (setOptionsPure i de st) i).lookup k = de.lookup k) := by
  have h_st1 : optionMap (delAbsentPure i de ((optionMap st i).map (fun kv => kv.1)) st) i =
      (optionMap st i).filter (fun kv => (de.lookup kv.1).isSome) := by
    rw [delAbsentPure_omap_self]
    apply List.filter_congr
    intro kv hkv
    have hmem : kv.1 ∈ (optionMap st i).map (fun kv => kv.1) :=
      List.mem_map_of_mem _ hkv
    simp [hmem]
  have hnd1 := delAbsentPure_nodup i de ((optionMap st i).map (fun kv => kv.1)) st hnd
  have hin : ∀ kv ∈ de, kv.1 ∈ (optionMap st i).map (fun kv => kv.1) →
      kv.1 ∈ (optionMap (delAbsentPure i de ((optionMap st i).map (fun kv => kv.1)) st) i).map
        Prod.fst := by
    intro kv hkv hmem
    rw [h_st1]
    obtain ⟨kv0, hkv0, hfst⟩ := List.mem_map.mp hmem
    have hsome : (de.lookup kv0.1).isSome := by
      rw [show kv0.1 = kv.1 from hfst]
      rw [List.lookup_isSome_iff]
      exact ⟨kv, hkv, by simp⟩
    exact List.mem_map.mpr ⟨kv0, List.mem_filter.mpr ⟨hkv0, by simpa using hsome⟩, hfst⟩
  have hout : ∀ kv ∈ de, ¬ kv.1 ∈ (optionMap st i).map (fun kv => kv.1) →
      ¬ kv.1 ∈ (optionMap (delAbsentPure i de ((optionMap st i).map (fun kv => kv.1)) st) i).map
        Prod.fst := by
    intro kv _ hmem hcc
    rw [h_st1] at hcc
    obtain ⟨kv0, hkv0, hfst⟩ := List.mem_map.mp hcc
    exact hmem (List.mem_map.mpr ⟨kv0, List.mem_of_mem_filter hkv0, hfst⟩)
  obtain ⟨c1, c2, c3⟩ := upsertPure_spec i ((optionMap st i).map (fun kv => kv.1)) de _ hnd1 hkeys hin hout
  refine ⟨c1, ?_⟩
  intro k
  cases hlk : de.lookup k with
  | some v =>
      obtain ⟨l1, l2, hde, _⟩ := List.lookup_eq_some_iff.mp hlk
      have hmem : (k, v) ∈ de := by
        rw [hde]
        exact List.mem_append_right _ (List.mem_cons_self _ _)
      exact c2 (k, v) hmem
  | none =>
      have hknotin : ¬ k ∈ de.map Prod.fst := by
        intro hcc
        obtain ⟨p, hp, hfst⟩ := List.mem_map.mp hcc
        have := List.lookup_eq_none_iff.mp hlk p hp
        rw [hfst] at this
        simp at this
      show (optionMap (upsertPure i ((optionMap st i).map (fun kv => kv.1)) de
        (delAbsentPure i de ((optionMap st i).map (fun kv => kv.1)) st)) i).lookup k = none
      rw [c3 k hknotin, h_st1]
      apply lookup_filter_none
      intro v1
      simp [hlk]

/-- Claim C2: for every content-slot identifier and desired key/value mapping
(with the distinct keys a JavaScript object guarantees), when
setOptionsForContentSlot completes successfully against non-failing storage,
the persisted option map for the slot equals the desired map key-for-key and
value-for-value, and the returned value is the re-fetched persisted map read
from storage after the writes. -/
theorem c2_option_map_equality
    (s : St) (slotId : Nat) (desired : List (String × String))
    (res : List (String × String)) (s2 : St)
    (hwf : Storage.WF s.store)
    (hkeys : (desired.map Prod.fst).Nodup)
    (hfault : s.faultOn = [])
    (hrun : (DisplayService.setOptionsForContentSlot slotId desired).run s =
      (Except.ok res, s2)) :
    (∀ k, (optionMap s2.store slotId).lookup k = desired.lookup k) ∧
    res = optionMap s2.store slotId := by
  rw [run_setOptionsForContentSlot slotId desired s hfault] at hrun
  have h1 := congrArg Prod.fst hrun
  have h2 := congrArg Prod.snd hrun
  simp only at h1 h2
  subst h2
  have hres : res = optionMap (setOptionsPure slotId desired s.store) slotId := by
    have := Except.ok.inj h1
    exact this.symm
  obtain ⟨_, _, hnd, _⟩ := hwf
  obtain ⟨_, hlook⟩ := setOptionsPure_spec slotId desired s.store hnd hkeys
  exact ⟨hlook, hres⟩

/-- Witness for C2 at the specification's Scenario B: slot 1 holds options
a=1, b=2; the desired map is b=3, c=4; afterwards the persisted map is
b=3, c=4 and is what the call returns. -/
theorem c2_option_map_equality_witness :
    (∀ k, (optionMap (Storage.mk [] [] [⟨1, "x", 7, 0, 0, 1, 1⟩]
        [⟨1, "b", "3"⟩, ⟨1, "c", "4"⟩] 1 1 2) 1).lookup k =
      ([("b", "3"), ("c", "4")] : List (String × String)).lookup k) ∧
    [("b", "3"), ("c", "4")] = optionMap (Storage.mk [] [] [⟨1, "x", 7, 0, 0, 1, 1⟩]
        [⟨1, "b", "3"⟩, ⟨1, "c", "4"⟩] 1 1 2) 1 :=
  c2_option_map_equality
    ⟨⟨[], [], [⟨1, "x", 7, 0, 0, 1, 1⟩], [⟨1, "a", "1"⟩, ⟨1, "b", "2"⟩], 1, 1, 2⟩, [], [], []⟩
    1 [("b", "3"), ("c", "4")] [("b", "3"), ("c", "4")]
    ⟨⟨[], [], [⟨1, "x", 7, 0, 0, 1, 1⟩], [⟨1, "b", "3"⟩, ⟨1, "c", "4"⟩], 1, 1, 2⟩,
      [RepoCall.getOptionsForContentSlot 1, RepoCall.deleteOption 1 "a",
        RepoCall.updateOption 1 "b" "3", RepoCall.createOption 1 "c" "4",
        RepoCall.getOptionsForContentSlot 1], [], []⟩
    (by unfold Storage.WF; decide) (by decide) rfl rfl

/-! Supporting lemmas for the content-slot reconciliation proof. -/

def idsForView (st : Storage) (viewId : Nat) : List Nat :=
  (slotsForView st viewId).map (fun c => c.id)

def slotOf (viewId : Nat) (i : Nat) (d : SlotDescriptor) : ContentSlot :=
  ⟨i, d.componentType, viewId, d.columnStart, d.rowStart, d.columnEnd, d.rowEnd⟩

/-- MatchesSlot: slot i is persisted with exactly the descriptor's component
type, grid placement and owning view, and its persisted option map agrees with
the descriptor's desired options at every key. -/
def MatchesSlot (st : Storage) (viewId : Nat) (i : Nat) (d : SlotDescriptor) : Prop :=
  findSlot st i = some (slotOf viewId i d) ∧
  ∀ k, (optionMap st i).lookup k = (d.options.getD []).lookup k

theorem findSlot_isSome_of_mem_ids {st : Storage} {i : Nat}
    (h : i ∈ st.slots.map (fun c => c.id)) : (findSlot st i).isSome := by
  obtain ⟨c, hc, hid⟩ := List.mem_map.mp h
  show (st.slots.find? (fun c => c.id = i)).isSome
  rw [List.find?_isSome]
  exact ⟨c, hc, by simpa using hid⟩

theorem lt_of_mem_ids {st : Storage} {i : Nat} (hwf : Storage.WF st)
    (h : i ∈ st.slots.map (fun c => c.id)) : i < st.nextSlotId := by
  obtain ⟨c, hc, hid⟩ := List.mem_map.mp h
  obtain ⟨_, hlt, _⟩ := hwf
  rw [← hid]
  exact hlt c hc

theorem ids_updateSlotPure (i : Nat) (ct : String) (v : Nat) (cs rs ce re : Nat)
    (st : Storage) :
    (updateSlotPure i ct v cs rs ce re st).slots.map (fun c => c.id) =
      st.slots.map (fun c => c.id) := by
  show (st.slots.map _).map _ = _
  rw [List.map_map]
  apply List.map_congr_left
  intro c _
  by_cases hc : c.id = i <;> simp [hc]

theorem WF_updateSlotPure (i : Nat) (ct : String) (v : Nat) (cs rs ce re : Nat)
    (st : Storage) (hwf : Storage.WF st) :
    Storage.WF (updateSlotPure i ct v cs rs ce re st) := by
  obtain ⟨h1, h2, h3, h4, h5, h6, h7, h8⟩ := hwf
  refine ⟨?_, ?_, h3, h4, h5, h6, h7, h8⟩
  · rw [ids_updateSlotPure]
    exact h1
  · intro c hc
    have hmem : c.id ∈ (updateSlotPure i ct v cs rs ce re st).slots.map (fun c => c.id) :=
      List.mem_map_of_mem _ hc
    rw [ids_updateSlotPure] at hmem
    obtain ⟨c0, hc0, hid⟩ := List.mem_map.mp hmem
    show c.id < st.nextSlotId
    rw [← hid]
    exact h2 c0 hc0

theorem findSlot_ge_none {st : Storage} (hwf : Storage.WF st) {j : Nat}
    (hj : st.nextSlotId ≤ j) : findSlot st j = none := by
  obtain ⟨_, h2, _⟩ := hwf
  show st.slots.find? _ = none
  rw [List.find?_eq_none]
  intro c hc hcc
  have hcj : c.id = j := by simpa using hcc
  have := h2 c hc
  omega

theorem findSlot_createSlotPure_self {st : Storage} (hwf : Storage.WF st)
    (ct : String) (v : Nat) (cs rs ce re : Nat) :
    findSlot (createSlotPure ct v cs rs ce re st) st.nextSlotId =
      some ⟨st.nextSlotId, ct, v, cs, rs, ce, re⟩ := by
  show (st.slots ++ [_]).find? _ = _
  rw [List.find?_append]
  rw [show st.slots.find? (fun c => c.id = st.nextSlotId) = none from
    findSlot_ge_none hwf (Nat.le_refl _)]
  simp

theorem findSlot_createSlotPure_ne (ct : String) (v : Nat) (cs rs ce re : Nat)
    (st : Storage) (j : Nat) (hj : ¬ j = st.nextSlotId) :
    findSlot (createSlotPure ct v cs rs ce re st) j = findSlot st j := by
  show (st.slots ++ [_]).find? _ = _
  rw [List.find?_append]
  have hsingle : ([(⟨st.nextSlotId, ct, v, cs, rs, ce, re⟩ : ContentSlot)].find?
      (fun c => c.id = j)) = none := by
    rw [List.find?_eq_none]
    intro c hc hcc
    have hc1 : c = (⟨st.nextSlotId, ct, v, cs, rs, ce, re⟩ : ContentSlot) := by simpa using hc
    have hc2 : c.id = j := by simpa using hcc
    rw [hc1] at hc2
    exact hj hc2.symm
  rw [hsingle, Option.or_none]
  rfl

theorem WF_createSlotPure (ct : String) (v : Nat) (cs rs ce re : Nat)
    (st : Storage) (hwf : Storage.WF st) :
    Storage.WF (createSlotPure ct v cs rs ce re st) := by
  obtain ⟨h1, h2, h3, h4, h5, h6, h7, h8⟩ := hwf
  refine ⟨?_, ?_, h3, ?_, h5, h6, h7, h8⟩
  · show ((st.slots ++ [_]).map _).Nodup
    rw [List.map_append]
    refine List.Nodup.append h1 (by simp) ?_
    intro j hj hj2
    have hlt : j < st.nextSlotId := by
      obtain ⟨c, hc, hid⟩ := List.mem_map.mp hj
      rw [← hid]
      exact h2 c hc
    have hid2 : j = st.nextSlotId := by simpa using hj2
    omega
  · intro c hc
    rcases List.mem_append.mp hc with hc | hc
    · have := h2 c hc
      show c.id < st.nextSlotId + 1
      omega
    · have : c = ⟨st.nextSlotId, ct, v, cs, rs, ce, re⟩ := by simpa using hc
      rw [this]
      show st.nextSlotId < st.nextSlotId + 1
      omega
  · intro o ho
    have := h4 o ho
    show o.slotId < st.nextSlotId + 1
    omega

theorem WF_setOptionsPure (i : Nat) (de : List (String × String)) (st : Storage)
    (hwf : Storage.WF st) (hkeys : (de.map Prod.fst).Nodup) (hi : i < st.nextSlotId) :
    Storage.WF (setOptionsPure i de st) := by
  obtain ⟨h1, h2, h3, h4, h5, h6, h7, h8⟩ := hwf
  obtain ⟨c1, _⟩ := setOptionsPure_spec i de st h3 hkeys
  refine ⟨?_, ?_, c1, ?_, ?_, ?_, ?_, ?_⟩
  · rw [show (setOptionsPure i de st).slots = st.slots from setOptionsPure_slots i de st]
    exact h1
  · intro c hc
    rw [setOptionsPure_slots i de st] at hc
    rw [show (setOptionsPure i de st).nextSlotId = st.nextSlotId from
      setOptionsPure_nextSlotId i de st]
    exact h2 c hc
  · intro o ho
    rw [show (setOptionsPure i de st).nextSlotId = st.nextSlotId from
      setOptionsPure_nextSlotId i de st]
    exact setOptionsPure_options_pred i de st (fun o => o.slotId < st.nextSlotId)
      (fun _ _ => hi) h4 o ho
  · rw [setOptionsPure_views i de st]
    exact h5
  · intro v hv
    rw [setOptionsPure_views i de st] at hv
    rw [show (setOptionsPure i de st).nextViewId = st.nextViewId from
      setOptionsPure_nextViewId i de st]
    exact h6 v hv
  · rw [setOptionsPure_displays i de st]
    exact h7
  · intro d hd
    rw [setOptionsPure_displays i de st] at hd
    rw [show (setOptionsPure i de st).nextDisplayId = st.nextDisplayId from
      setOptionsPure_nextDisplayId i de st]
    exact h8 d hd

theorem ids_view_map_upd_perm (cid viewId : Nat) (row : ContentSlot)
    (hrow : row.id = cid) (hrowv : row.viewId = viewId) :
    ∀ (l : List ContentSlot), (l.map (fun c => c.id)).Nodup → (∃ c ∈ l, c.id = cid) →
    (((l.map (fun c => if c.id = cid then row else c)).filter
        (fun c => c.viewId = viewId)).map (fun c => c.id)).Perm
      ((((l.filter (fun c => c.viewId = viewId)).map (fun c => c.id)).filter
        (fun j => ¬ j = cid)) ++ [cid]) := by
  intro l
  induction l with
  | nil =>
      intro _ hex
      obtain ⟨c, hc, _⟩ := hex
      simp at hc
  | cons c rest ih =>
      intro hnd hex
      obtain ⟨hcid_nr, hnd_r⟩ := List.nodup_cons.mp
        (show (c.id :: rest.map (fun c => c.id)).Nodup from hnd)
      by_cases hc : c.id = cid
      · have hrest_id : rest.map (fun c => if c.id = cid then row else c) = rest := by
          have hpt : ∀ x ∈ rest, (if x.id = cid then row else x) = x := by
            intro x hx
            have hxne : ¬ x.id = cid := by
              intro hxc
              apply hcid_nr
              rw [hc, ← hxc]
              exact List.mem_map_of_mem (fun c => c.id) hx
            rw [if_neg hxne]
          rw [List.map_congr_left hpt]
          exact List.map_id' rest
        have hno_cid : ∀ j ∈ (rest.filter (fun c => c.viewId = viewId)).map
            (fun c => c.id), ¬ j = cid := by
          intro j hj hjc
          apply hcid_nr
          obtain ⟨x, hx, hxid⟩ := List.mem_map.mp hj
          rw [hc, ← hjc, ← hxid]
          exact List.mem_map_of_mem (fun c => c.id) (List.mem_of_mem_filter hx)
        have hl : (((c :: rest).map (fun c => if c.id = cid then row else c)).filter
            (fun c => c.viewId = viewId)).map (fun c => c.id) =
            cid :: (rest.filter (fun c => c.viewId = viewId)).map (fun c => c.id) := by
          rw [List.map_cons, if_pos hc, hrest_id, List.filter_cons]
          simp [hrowv, hrow]
        rw [hl]
        by_cases hcv : c.viewId = viewId
        · have hr : ((c :: rest).filter (fun c => c.viewId = viewId)).map (fun c => c.id) =
              c.id :: (rest.filter (fun c => c.viewId = viewId)).map (fun c => c.id) := by
            rw [List.filter_cons]
            simp [hcv]
          rw [hr, hc, List.filter_cons]
          have hcc : ¬ (cid : Nat) = cid → False := fun hh => hh rfl
          rw [if_neg (by simp)]
          have hfid : List.filter (fun j => ¬ j = cid)
              ((rest.filter (fun c => c.viewId = viewId)).map (fun c => c.id)) =
              (rest.filter (fun c => c.viewId = viewId)).map (fun c => c.id) :=
            List.filter_eq_self.mpr (by
              intro j hj
              simpa using hno_cid j hj)
          rw [hfid]
          exact (List.perm_append_singleton cid _).symm
        · have hr : ((c :: rest).filter (fun c => c.viewId = viewId)).map (fun c => c.id) =
              (rest.filter (fun c => c.viewId = viewId)).map (fun c => c.id) := by
            rw [List.filter_cons]
            simp [hcv]
          rw [hr]
          have hfid : List.filter (fun j => ¬ j = cid)
              ((rest.filter (fun c => c.viewId = viewId)).map (fun c => c.id)) =
              (rest.filter (fun c => c.viewId = viewId)).map (fun c => c.id) :=
            List.filter_eq_self.mpr (by
              intro j hj
              simpa using hno_cid j hj)
          rw [hfid]
          exact (List.perm_append_singleton cid _).symm
      · have hex_r : ∃ x ∈ rest, x.id = cid := by
          obtain ⟨x, hx, hxid⟩ := hex
          rcases List.mem_cons.mp hx with hx | hx
          · rw [hx] at hxid
            exact absurd hxid hc
          · exact ⟨x, hx, hxid⟩
        have ihr := ih hnd_r hex_r
        by_cases hcv : c.viewId = viewId
        · have hl : (((c :: rest).map (fun c => if c.id = cid then row else c)).filter
              (fun c => c.viewId = viewId)).map (fun c => c.id) =
              c.id :: ((rest.map (fun c => if c.id = cid then row else c)).filter
                (fun c => c.viewId = viewId)).map (fun c => c.id) := by
            rw [List.map_cons, if_neg hc, List.filter_cons]
            simp [hcv]
          have hr : (((c :: rest).filter (fun c => c.viewId = viewId)).map
              (fun c => c.id)).filter (fun j => ¬ j = cid) ++ [cid] =
              c.id :: ((((rest.filter (fun c => c.viewId = viewId)).map
                (fun c => c.id)).filter (fun j => ¬ j = cid)) ++ [cid]) := by
            rw [List.filter_cons]
            simp only [hcv, decide_True, if_pos]
            rw [List.map_cons, List.filter_cons]
            rw [if_pos (by simpa using hc)]
            rfl
          rw [hl, hr]
          exact ihr.cons c.id
        · have hl : (((c :: rest).map (fun c => if c.id = cid then row else c)).filter
              (fun c => c.viewId = viewId)).map (fun c => c.id) =
              ((rest.map (fun c => if c.id = cid then row else c)).filter
                (fun c => c.viewId = viewId)).map (fun c => c.id) := by
            rw [List.map_cons, if_neg hc, List.filter_cons]
            simp [hcv]
          have hr : ((c :: rest).filter (fun c => c.viewId = viewId)) =
              rest.filter (fun c => c.viewId = viewId) := by
            rw [List.filter_cons]
            simp [hcv]
          rw [hl, hr]
          exact ihr

theorem idsForView_updateSlotPure_perm (cid viewId : Nat) (ct : String) (cs rs ce re : Nat)
    (st : Storage) (hnd : (st.slots.map (fun c => c.id)).Nodup)
    (hmem : cid ∈ st.slots.map (fun c => c.id)) :
    (idsForView (updateSlotPure cid ct viewId cs rs ce re st) viewId).Perm
      ((idsForView st viewId).filter (fun j => ¬ j = cid) ++ [cid]) := by
  obtain ⟨c, hc, hcid⟩ := List.mem_map.mp hmem
  exact ids_view_map_upd_perm cid viewId _ rfl rfl st.slots hnd ⟨c, hc, hcid⟩

theorem idsForView_createSlotPure (ct : String) (viewId : Nat) (cs rs ce re : Nat)
    (st : Storage) :
    idsForView (createSlotPure ct viewId cs rs ce re st) viewId =
      idsForView st viewId ++ [st.nextSlotId] := by
  show ((st.slots ++ [_]).filter _).map _ = _
  rw [List.filter_append, List.map_append]
  simp [idsForView, slotsForView]

theorem idsForView_setOptionsPure (i : Nat) (de : List (String × String)) (st : Storage)
    (v : Nat) : idsForView (setOptionsPure i de st) v = idsForView st v := by
  unfold idsForView
  rw [slotsForView_congr (setOptionsPure_slots i de st) v]

/-- slotLoopPure_spec: processing a desired descriptor list assigns to each
descriptor one slot (its carried identity, or the freshly allocated one), and
afterwards the slots of the view are exactly the untouched ones plus those
targets; untargeted allocated identities are untouched. -/
theorem filter_merge_cons (cid : Nat) (tR : List Nat) (l : List Nat) :
    (l.filter (fun j => ¬ j = cid)).filter (fun j => ¬ tR.contains j) =
      l.filter (fun j => ¬ (cid :: tR).contains j) := by
  rw [List.filter_filter]
  apply List.filter_congr
  intro j _
  by_cases h1 : j = cid <;> by_cases h2 : tR.contains j <;>
    simp [h1, h2, List.contains_cons]

theorem mem_ids_of_mem_idsForView {st : Storage} {viewId j : Nat}
    (h : j ∈ idsForView st viewId) : j ∈ st.slots.map (fun c => c.id) := by
  obtain ⟨c, hc, hid⟩ := List.mem_map.mp h
  exact List.mem_map.mpr ⟨c, List.mem_of_mem_filter hc, hid⟩

theorem slotLoopPure_spec (viewId : Nat) :
    ∀ (ds : List SlotDescriptor) (st : Storage),
    Storage.WF st →
    (∀ i ∈ ds.filterMap (fun d => d.id?), i ∈ st.slots.map (fun c => c.id)) →
    (ds.filterMap (fun d => d.id?)).Nodup →
    (∀ d ∈ ds, ((d.options.getD []).map Prod.fst).Nodup) →
    ∃ targets : List Nat,
      targets.length = ds.length ∧
      targets.Nodup ∧
      (∀ p ∈ targets.zip ds, MatchesSlot (slotLoopPure viewId ds st) viewId p.1 p.2) ∧
      (idsForView (slotLoopPure viewId ds st) viewId).Perm
        ((idsForView st viewId).filter (fun j => ¬ targets.contains j) ++ targets) ∧
      (∀ j, j < st.nextSlotId → ¬ j ∈ targets →
        findSlot (slotLoopPure viewId ds st) j = findSlot st j ∧
        optionMap (slotLoopPure viewId ds st) j = optionMap st j) ∧
      (∀ x ∈ targets, x ∈ ds.filterMap (fun d => d.id?) ∨ st.nextSlotId ≤ x) ∧
      (∀ i ∈ ds.filterMap (fun d => d.id?), i ∈ targets) ∧
      Storage.WF (slotLoopPure viewId ds st) ∧
      st.nextSlotId ≤ (slotLoopPure viewId ds st).nextSlotId ∧
      (slotLoopPure viewId ds st).views = st.views ∧
      (slotLoopPure viewId ds st).displays = st.displays := by
  intro ds
  induction ds with
  | nil =>
      intro st hwf _ _ _
      refine ⟨[], rfl, List.nodup_nil, by simp, ?_, fun j _ _ => ⟨rfl, rfl⟩,
        by simp, by simp, hwf, Nat.le_refl _, rfl, rfl⟩
      rw [List.append_nil]
      rw [List.filter_eq_self.mpr (by intro j _; simp)]
      exact List.Perm.refl _
  | cons d rest ih =>
      intro st hwf hids hnd hkeys
      have hkeys_head : ((d.options.getD []).map Prod.fst).Nodup :=
        hkeys d (List.mem_cons_self _ _)
      have hkeys_r : ∀ d2 ∈ rest, ((d2.options.getD []).map Prod.fst).Nodup :=
        fun d2 h2 => hkeys d2 (List.mem_cons_of_mem _ h2)
      rcases hd : d.id? with _ | cid
      · -- descriptor without identity: create a fresh slot, then its options
        have hids_eq : (d :: rest).filterMap (fun d => d.id?) =
            rest.filterMap (fun d => d.id?) := by
          simp [List.filterMap_cons, hd]
        rw [hids_eq] at hids hnd
        set de := d.options.getD [] with hde
        set stc := createSlotPure d.componentType viewId d.columnStart d.rowStart
          d.columnEnd d.rowEnd st with hstc
        set st1 := setOptionsPure st.nextSlotId de stc with hst1
        have hwfc : Storage.WF stc := WF_createSlotPure _ _ _ _ _ _ st hwf
        have hstc_next : stc.nextSlotId = st.nextSlotId + 1 := rfl
        have hwf1 : Storage.WF st1 :=
          WF_setOptionsPure _ _ _ hwfc hkeys_head (by omega)
        have hst1_slots : st1.slots = stc.slots := setOptionsPure_slots _ _ _
        have hst1_ids : st1.slots.map (fun c => c.id) =
            st.slots.map (fun c => c.id) ++ [st.nextSlotId] := by
          rw [hst1_slots]
          show ((st.slots ++ [_]).map _) = _
          rw [List.map_append]
          rfl
        have hst1_next : st1.nextSlotId = st.nextSlotId + 1 := by
          rw [show st1.nextSlotId = stc.nextSlotId from setOptionsPure_nextSlotId _ _ _]
          exact hstc_next
        have hpure : slotLoopPure viewId (d :: rest) st = slotLoopPure viewId rest st1 := by
          show slotLoopPure viewId rest (applyDescriptorPure viewId st d) = _
          rw [show applyDescriptorPure viewId st d = st1 by
            unfold applyDescriptorPure
            rw [hd]]
        have hids_r : ∀ i ∈ rest.filterMap (fun d => d.id?),
            i ∈ st1.slots.map (fun c => c.id) := by
          intro i hi
          rw [hst1_ids]
          exact List.mem_append_left _ (hids i hi)
        obtain ⟨tR, hlenR, hndR, hmatchR, hpermR, hframeR, hmemR, hsubR, hwfR, hmonoR,
          hviewsR, hdispR⟩ := ih st1 hwf1 hids_r hnd hkeys_r
        have hnew_notR : ¬ st.nextSlotId ∈ tR := by
          intro hin
          rcases hmemR _ hin with hin | hin
          · have := lt_of_mem_ids hwf (hids _ hin)
            omega
          · rw [hst1_next] at hin
            omega
        have hm1 : MatchesSlot st1 viewId st.nextSlotId d := by
          constructor
          · rw [show findSlot st1 st.nextSlotId = findSlot stc st.nextSlotId from
              findSlot_setOptionsPure _ _ _ _]
            rw [hstc, findSlot_createSlotPure_self hwf]
            rfl
          · obtain ⟨_, _, h3c, _⟩ := hwfc
            exact (setOptionsPure_spec st.nextSlotId de stc h3c hkeys_head).2
        refine ⟨st.nextSlotId :: tR, by simp [hlenR], List.nodup_cons.mpr ⟨hnew_notR, hndR⟩,
          ?_, ?_, ?_, ?_, ?_, ?_, ?_, ?_, ?_⟩
        · intro q hq
          rw [hpure]
          rcases List.mem_cons.mp (by simpa [List.zip_cons_cons] using hq) with hq | hq
          · rw [hq]
            have hfr := hframeR st.nextSlotId (by omega) hnew_notR
            exact ⟨hfr.1.trans hm1.1, fun k => (hfr.2 ▸ hm1.2 k : _)⟩
          · exact hmatchR _ hq
        · rw [hpure]
          have hids1 : idsForView st1 viewId = idsForView st viewId ++ [st.nextSlotId] := by
            rw [show idsForView st1 viewId = idsForView stc viewId from
              idsForView_setOptionsPure _ _ _ _]
            rw [hstc]
            exact idsForView_createSlotPure _ _ _ _ _ _ _
          refine hpermR.trans ?_
          rw [hids1, List.filter_append]
          have hsing : ([st.nextSlotId].filter (fun j => ¬ tR.contains j)) =
              [st.nextSlotId] := by
            rw [List.filter_eq_self]
            intro a ha
            have : a = st.nextSlotId := by simpa using ha
            rw [this]
            simpa using hnew_notR
          rw [hsing]
          have hmerge : (idsForView st viewId).filter (fun j => ¬ tR.contains j) =
              (idsForView st viewId).filter
                (fun j => ¬ (st.nextSlotId :: tR).contains j) := by
            apply List.filter_congr
            intro j hj
            have hjlt : j < st.nextSlotId :=
              lt_of_mem_ids hwf (mem_ids_of_mem_idsForView hj)
            have hjne : ¬ j = st.nextSlotId := by omega
            by_cases h2 : tR.contains j <;> simp [h2, hjne, List.contains_cons]
          rw [hmerge, List.append_assoc]
          exact List.Perm.refl _
        · intro j hjlt hjne
          have hjn : ¬ j = st.nextSlotId := by omega
          have hjtR : ¬ j ∈ tR := fun hh => hjne (List.mem_cons_of_mem _ hh)
          rw [hpure]
          have hfr := hframeR j (by omega) hjtR
          constructor
          · rw [hfr.1]
            rw [show findSlot st1 j = findSlot stc j from findSlot_setOptionsPure _ _ _ _]
            rw [hstc]
            exact findSlot_createSlotPure_ne _ _ _ _ _ _ st j hjn
          · rw [hfr.2]
            rw [show optionMap st1 j = optionMap stc j from
              setOptionsPure_omap_other _ _ _ _ hjn]
            rfl
        · intro x hx
          rcases List.mem_cons.mp hx with hx | hx
          · right
            omega
          · rcases hmemR x hx with hx2 | hx2
            · left
              rw [hids_eq]
              exact hx2
            · right
              rw [hst1_next] at hx2
              omega
        · intro i hi
          rw [hids_eq] at hi
          exact List.mem_cons_of_mem _ (hsubR i hi)
        · rw [hpure]
          exact hwfR
        · rw [hpure]
          rw [hst1_next] at hmonoR
          omega
        · rw [hpure, hviewsR]
          rw [show st1.views = stc.views from setOptionsPure_views _ _ _]
          rfl
        · rw [hpure, hdispR]
          rw [show st1.displays = stc.displays from setOptionsPure_displays _ _ _]
          rfl
      · -- descriptor with identity cid: update the persisted slot in place
        have hids_eq : (d :: rest).filterMap (fun d => d.id?) =
            cid :: rest.filterMap (fun d => d.id?) := by
          simp [List.filterMap_cons, hd]
        rw [hids_eq] at hids hnd
        obtain ⟨hcid_nr, hnd_r⟩ := List.nodup_cons.mp hnd
        have hcid_ids : cid ∈ st.slots.map (fun c => c.id) :=
          hids cid (List.mem_cons_self _ _)
        have hlt : cid < st.nextSlotId := lt_of_mem_ids hwf hcid_ids
        have hfindsome : (findSlot st cid).isSome := findSlot_isSome_of_mem_ids hcid_ids
        set de := d.options.getD [] with hde
        set stu := updateSlotPure cid d.componentType viewId d.columnStart d.rowStart
          d.columnEnd d.rowEnd st with hstu
        set st1 := setOptionsPure cid de stu with hst1
        have hwfu : Storage.WF stu := WF_updateSlotPure _ _ _ _ _ _ _ st hwf
        have hstu_next : stu.nextSlotId = st.nextSlotId := rfl
        have hwf1 : Storage.WF st1 :=
          WF_setOptionsPure _ _ _ hwfu hkeys_head (by rw [hstu_next]; omega)
        have hst1_slots : st1.slots = stu.slots := setOptionsPure_slots _ _ _
        have hst1_ids : st1.slots.map (fun c => c.id) = st.slots.map (fun c => c.id) := by
          rw [hst1_slots, hstu]
          exact ids_updateSlotPure _ _ _ _ _ _ _ st
        have hst1_next : st1.nextSlotId = st.nextSlotId := by
          rw [show st1.nextSlotId = stu.nextSlotId from setOptionsPure_nextSlotId _ _ _]
          exact hstu_next
        have hpure : slotLoopPure viewId (d :: rest) st = slotLoopPure viewId rest st1 := by
          show slotLoopPure viewId rest (applyDescriptorPure viewId st d) = _
          rw [show applyDescriptorPure viewId st d = st1 by
            unfold applyDescriptorPure
            rw [hd]]
        have hids_r : ∀ i ∈ rest.filterMap (fun d => d.id?),
            i ∈ st1.slots.map (fun c => c.id) := by
          intro i hi
          rw [hst1_ids]
          exact hids i (List.mem_cons_of_mem _ hi)
        obtain ⟨tR, hlenR, hndR, hmatchR, hpermR, hframeR, hmemR, hsubR, hwfR, hmonoR,
          hviewsR, hdispR⟩ := ih st1 hwf1 hids_r hnd_r hkeys_r
        have hcid_notR : ¬ cid ∈ tR := by
          intro hin
          rcases hmemR _ hin with hin | hin
          · exact hcid_nr hin
          · rw [hst1_next] at hin
            omega
        have hm1 : MatchesSlot st1 viewId cid d := by
          constructor
          · rw [show findSlot st1 cid = findSlot stu cid from
              findSlot_setOptionsPure _ _ _ _]
            rw [hstu]
            exact findSlot_updateSlotPure_self _ _ _ _ _ _ _ st hfindsome
          · obtain ⟨_, _, h3u, _⟩ := hwfu
            exact (setOptionsPure_spec cid de stu h3u hkeys_head).2
        refine ⟨cid :: tR, by simp [hlenR], List.nodup_cons.mpr ⟨hcid_notR, hndR⟩,
          ?_, ?_, ?_, ?_, ?_, ?_, ?_, ?_, ?_⟩
        · intro q hq
          rw [hpure]
          rcases List.mem_cons.mp (by simpa [List.zip_cons_cons] using hq) with hq | hq
          · rw [hq]
            have hfr := hframeR cid (by omega) hcid_notR
            exact ⟨hfr.1.trans hm1.1, fun k => (hfr.2 ▸ hm1.2 k : _)⟩
          · exact hmatchR _ hq
        · rw [hpure]
          have hperm_u : (idsForView st1 viewId).Perm
              ((idsForView st viewId).filter (fun j => ¬ j = cid) ++ [cid]) := by
            rw [show idsForView st1 viewId = idsForView stu viewId from
              idsForView_setOptionsPure _ _ _ _]
            rw [hstu]
            obtain ⟨h1w, _⟩ := hwf
            exact idsForView_updateSlotPure_perm cid viewId _ _ _ _ _ st h1w hcid_ids
          refine hpermR.trans ?_
          refine (List.Perm.append_right tR (hperm_u.filter _)).trans ?_
          rw [List.filter_append]
          have hsing : ([cid].filter (fun j => ¬ tR.contains j)) = [cid] := by
            rw [List.filter_eq_self]
            intro a ha
            have : a = cid := by simpa using ha
            rw [this]
            simpa using hcid_notR
          rw [hsing, filter_merge_cons, List.append_assoc]
          exact List.Perm.refl _
        · intro j hjlt hjne
          have hjn : ¬ j = cid := fun hh => hjne (hh ▸ List.mem_cons_self _ _)
          have hjtR : ¬ j ∈ tR := fun hh => hjne (List.mem_cons_of_mem _ hh)
          rw [hpure]
          have hfr := hframeR j (by omega) hjtR
          constructor
          · rw [hfr.1]
            rw [show findSlot st1 j = findSlot stu j from findSlot_setOptionsPure _ _ _ _]
            rw [hstu]
            exact findSlot_updateSlotPure_other _ _ _ _ _ _ _ st j hjn
          · rw [hfr.2]
            rw [show optionMap st1 j = optionMap stu j from
              setOptionsPure_omap_other _ _ _ _ hjn]
            rfl
        · intro x hx
          rcases List.mem_cons.mp hx with hx | hx
          · left
            rw [hids_eq, hx]
            exact List.mem_cons_self _ _
          · rcases hmemR x hx with hx2 | hx2
            · left
              rw [hids_eq]
              exact List.mem_cons_of_mem _ hx2
            · right
              rw [hst1_next] at hx2
              omega
        · intro i hi
          rw [hids_eq] at hi
          rcases List.mem_cons.mp hi with hi | hi
          · rw [hi]
            exact List.mem_cons_self _ _
          · exact List.mem_cons_of_mem _ (hsubR i hi)
        · rw [hpure]
          exact hwfR
        · rw [hpure]
          rw [hst1_next] at hmonoR
          omega
        · rw [hpure, hviewsR]
          rw [show st1.views = stu.views from setOptionsPure_views _ _ _]
          rfl
        · rw [hpure, hdispR]
          rw [show st1.displays = stu.displays from setOptionsPure_displays _ _ _]
          rfl

theorem WF_removePure (ids : List Nat) (st : Storage) (hwf : Storage.WF st) :
    Storage.WF (removePure ids st) := by
  obtain ⟨h1, h2, h3, h4, h5, h6, h7, h8⟩ := hwf
  refine ⟨?_, ?_, ?_, ?_, ?_, ?_, ?_, ?_⟩
  · rw [removePure_slots]
    exact h1.sublist ((List.filter_sublist _).map _)
  · intro c hc
    rw [removePure_slots] at hc
    rw [removePure_nextSlotId]
    exact h2 c (List.mem_of_mem_filter hc)
  · rw [removePure_options]
    exact h3.sublist ((List.filter_sublist _).map _)
  · intro o ho
    rw [removePure_options] at ho
    rw [removePure_nextSlotId]
    exact h4 o (List.mem_of_mem_filter ho)
  · rw [removePure_views]
    exact h5
  · intro v hv
    rw [removePure_views] at hv
    rw [removePure_nextViewId]
    exact h6 v hv
  · rw [removePure_displays]
    exact h7
  · intro dd hd
    rw [removePure_displays] at hd
    rw [removePure_nextDisplayId]
    exact h8 dd hd

theorem ids_removePure (ids : List Nat) (st : Storage) :
    (removePure ids st).slots.map (fun c => c.id) =
      (st.slots.map (fun c => c.id)).filter (fun j => ¬ ids.contains j) := by
  rw [removePure_slots, List.filter_map]
  rfl

theorem idsForView_removePure (ids : List Nat) (st : Storage) (viewId : Nat) :
    idsForView (removePure ids st) viewId =
      (idsForView st viewId).filter (fun j => ¬ ids.contains j) := by
  unfold idsForView slotsForView
  rw [removePure_slots, List.filter_map, List.filter_filter, List.filter_filter]
  apply congrArg
  apply List.filter_congr
  intro c _
  by_cases hv : c.viewId = viewId <;> by_cases hi : ids.contains c.id <;>
    simp [hv, hi, Function.comp]

theorem omap_cons (o : SlotOption) (l : List SlotOption) (j : Nat) :
    omap (o :: l) j = if o.slotId = j then (o.key, o.value) :: omap l j else omap l j := by
  by_cases h : o.slotId = j <;> simp [omap, List.filter_cons, h]

theorem omap_filter_contains_mem (ids : List Nat) (j : Nat) (hj : ids.contains j = true) :
    ∀ (l : List SlotOption), omap (l.filter (fun o => ¬ ids.contains o.slotId)) j = [] := by
  have hjm : j ∈ ids := by simpa using hj
  intro l
  induction l with
  | nil => rfl
  | cons o rest ih =>
      by_cases h2 : o.slotId ∈ ids
      · have hstep : (o :: rest).filter (fun o => ¬ ids.contains o.slotId) =
            rest.filter (fun o => ¬ ids.contains o.slotId) := by
          rw [List.filter_cons]
          simp [h2]
        rw [hstep]
        exact ih
      · have hstep : (o :: rest).filter (fun o => ¬ ids.contains o.slotId) =
            o :: rest.filter (fun o => ¬ ids.contains o.slotId) := by
          rw [List.filter_cons]
          simp [h2]
        have h1 : ¬ o.slotId = j := fun hh => h2 (hh ▸ hjm)
        rw [hstep, omap_cons, if_neg h1]
        exact ih

theorem omap_filter_contains_notmem (ids : List Nat) (j : Nat) (hj : ids.contains j = false) :
    ∀ (l : List SlotOption), omap (l.filter (fun o => ¬ ids.contains o.slotId)) j = omap l j := by
  have hjm : ¬ j ∈ ids := by simpa using hj
  intro l
  induction l with
  | nil => rfl
  | cons o rest ih =>
      by_cases h2 : o.slotId ∈ ids
      · have hstep : (o :: rest).filter (fun o => ¬ ids.contains o.slotId) =
            rest.filter (fun o => ¬ ids.contains o.slotId) := by
          rw [List.filter_cons]
          simp [h2]
        have h1 : ¬ o.slotId = j := fun hh => hjm (hh ▸ h2)
        rw [hstep, omap_cons, if_neg h1]
        exact ih
      · have hstep : (o :: rest).filter (fun o => ¬ ids.contains o.slotId) =
            o :: rest.filter (fun o => ¬ ids.contains o.slotId) := by
          rw [List.filter_cons]
          simp [h2]
        rw [hstep, omap_cons, omap_cons]
        by_cases h1 : o.slotId = j
        · rw [if_pos h1, if_pos h1, ih]
        · rw [if_neg h1, if_neg h1]
          exact ih

theorem optionMap_removePure_mem (ids : List Nat) (st : Storage) (j : Nat)
    (hj : ids.contains j = true) : optionMap (removePure ids st) j = [] := by
  rw [optionMap_eq_omap, removePure_options]
  exact omap_filter_contains_mem ids j hj st.options

theorem optionMap_removePure_notmem (ids : List Nat) (st : Storage) (j : Nat)
    (hj : ids.contains j = false) : optionMap (removePure ids st) j = optionMap st j := by
  rw [optionMap_eq_omap, removePure_options]
  exact omap_filter_contains_notmem ids j hj st.options

theorem removedIds_eq (st : Storage) (viewId : Nat) (ds : List SlotDescriptor) :
    removedIds st viewId ds =
      (idsForView st viewId).filter (fun i => ¬ (submittedIds ds).contains i) := rfl

theorem reconcilePure_spec (viewId : Nat) (ds : List SlotDescriptor) (st : Storage)
    (hwf : Storage.WF st) (hval : ValidDesired st ds) :
    ∃ targets : List Nat,
      targets.length = ds.length ∧
      targets.Nodup ∧
      (∀ p ∈ targets.zip ds, MatchesSlot (reconcilePure viewId ds st) viewId p.1 p.2) ∧
      (idsForView (reconcilePure viewId ds st) viewId).Perm targets ∧
      (∀ r ∈ removedIds st viewId ds, optionMap (reconcilePure viewId ds st) r = []) ∧
      Storage.WF (reconcilePure viewId ds st) ∧
      (reconcilePure viewId ds st).views = st.views ∧
      (reconcilePure viewId ds st).displays = st.displays := by
  obtain ⟨hnd_ids, hids0, hkeys⟩ := hval
  have hrm_not : ∀ i ∈ ds.filterMap (fun d => d.id?),
      (removedIds st viewId ds).contains i = false := by
    intro i hi
    rw [Bool.eq_false_iff]
    intro hcc
    have hmem : i ∈ removedIds st viewId ds := by simpa using hcc
    rw [removedIds_eq] at hmem
    have hp := List.of_mem_filter hmem
    have hsubm : i ∈ submittedIds ds := by
      rw [submittedIds_eq]
      exact hi
    simp [hsubm] at hp
  have hids_t0 : ∀ i ∈ ds.filterMap (fun d => d.id?),
      i ∈ (removePure (removedIds st viewId ds) st).slots.map (fun c => c.id) := by
    intro i hi
    rw [ids_removePure]
    refine List.mem_filter.mpr ⟨hids0 i hi, ?_⟩
    simpa using hrm_not i hi
  have hwf0 : Storage.WF (removePure (removedIds st viewId ds) st) :=
    WF_removePure _ st hwf
  obtain ⟨targets, hlen, hndT, hmatch, hperm, hframe, hmemT, hsubT, hwfT, hmonoT,
    hviewsT, hdispT⟩ := slotLoopPure_spec viewId ds
      (removePure (removedIds st viewId ds) st) hwf0 hids_t0 hnd_ids hkeys
  have hnil : (idsForView (removePure (removedIds st viewId ds) st) viewId).filter
      (fun j => ¬ targets.contains j) = [] := by
    rw [List.filter_eq_nil_iff]
    intro j hj
    rw [idsForView_removePure] at hj
    have hjv : j ∈ idsForView st viewId := List.mem_of_mem_filter hj
    have hjp := List.of_mem_filter hj
    have hjrm : ¬ j ∈ removedIds st viewId ds := by simpa using hjp
    have hjsub : (submittedIds ds).contains j = true := by
      by_contra hcc
      apply hjrm
      rw [removedIds_eq]
      refine List.mem_filter.mpr ⟨hjv, ?_⟩
      simp only [Bool.not_eq_true] at hcc
      simpa using hcc
    have hjds : j ∈ ds.filterMap (fun d => d.id?) := by
      rw [← submittedIds_eq]
      simpa using hjsub
    have := hsubT j hjds
    simp [this]
  refine ⟨targets, hlen, hndT, hmatch, ?_, ?_, hwfT, ?_, ?_⟩
  · show (idsForView (slotLoopPure viewId ds _) viewId).Perm targets
    refine hperm.trans ?_
    rw [hnil]
    exact List.Perm.refl _
  · intro r hr
    have hrv : r ∈ idsForView st viewId := by
      rw [removedIds_eq] at hr
      exact List.mem_of_mem_filter hr
    have hrlt : r < st.nextSlotId := lt_of_mem_ids hwf (mem_ids_of_mem_idsForView hrv)
    have hrT : ¬ r ∈ targets := by
      intro hin
      rcases hmemT r hin with hin2 | hin2
      · have : (removedIds st viewId ds).contains r = false := hrm_not r hin2
        rw [Bool.eq_false_iff] at this
        apply this
        simpa using hr
      · rw [removePure_nextSlotId] at hin2
        omega
    have hfr := hframe r (by rw [removePure_nextSlotId]; omega) hrT
    show optionMap (slotLoopPure viewId ds _) r = []
    rw [hfr.2]
    exact optionMap_removePure_mem _ st r (by simpa using hr)
  · show (slotLoopPure viewId ds _).views = st.views
    rw [hviewsT, removePure_views]
  · show (slotLoopPure viewId ds _).displays = st.displays
    rw [hdispT, removePure_displays]

/-- Claim C1 (amended): when updateContentSlotsForView completes successfully
against non-failing storage — the qualification is forced because the option
reconciliation launched without await on lines 211 and 218 swallows its own
storage failures, see the counterexample — the persisted slot set for the view
corresponds one-to-one with the desired list: each descriptor owns one
persisted slot carrying exactly its component type, grid placement, owning
view, and option map, and no other slot remains on the view. -/
theorem c1_reconcile_matches_desired
    (s : St) (viewId : Nat) (desired : List SlotDescriptor) (s2 : St)
    (hwf : Storage.WF s.store) (hval : ValidDesired s.store desired)
    (hfault : s.faultOn = [])
    (hrun : (DisplayService.updateContentSlotsForView viewId desired).run s =
      (Except.ok (), s2)) :
    ∃ targets : List Nat,
      targets.length = desired.length ∧
      targets.Nodup ∧
      (idsForView s2.store viewId).Perm targets ∧
      (∀ p ∈ targets.zip desired, MatchesSlot s2.store viewId p.1 p.2) := by
  have hids : ∀ i ∈ desired.filterMap (fun d => d.id?), (findSlot s.store i).isSome :=
    fun i hi => findSlot_isSome_of_mem_ids (hval.2.1 i hi)
  rw [run_updateContentSlotsForView viewId desired s hfault hids] at hrun
  have h2 := congrArg Prod.snd hrun
  simp only at h2
  subst h2
  obtain ⟨targets, hlen, hnd, hmatch, hperm, _, _, _, _⟩ :=
    reconcilePure_spec viewId desired s.store hwf hval
  exact ⟨targets, hlen, hnd, hperm, hmatch⟩

/-- Witness for the amended C1 at the specification's Scenario A: view 7 holds
slots 1 (weather, option color=red) and 2 (news); the desired list updates
slot 1 to color=blue and adds a new clock slot; afterwards the view's slots
correspond exactly to the two descriptors. -/
theorem c1_reconcile_matches_desired_witness :
    ∃ targets : List Nat,
      targets.length = ([⟨some 1, "weather", none, 0, 0, 1, 1, some [("color", "blue")]⟩,
        ⟨none, "clock", none, 1, 0, 2, 1, none⟩] : List SlotDescriptor).length ∧
      targets.Nodup ∧
      (idsForView (Storage.mk [] [] [⟨1, "weather", 7, 0, 0, 1, 1⟩, ⟨3, "clock", 7, 1, 0, 2, 1⟩]
        [⟨1, "color", "blue"⟩] 1 1 4) 7).Perm targets ∧
      (∀ p ∈ targets.zip ([⟨some 1, "weather", none, 0, 0, 1, 1, some [("color", "blue")]⟩,
          ⟨none, "clock", none, 1, 0, 2, 1, none⟩] : List SlotDescriptor),
        MatchesSlot (Storage.mk [] [] [⟨1, "weather", 7, 0, 0, 1, 1⟩, ⟨3, "clock", 7, 1, 0, 2, 1⟩]
          [⟨1, "color", "blue"⟩] 1 1 4) 7 p.1 p.2) :=
  c1_reconcile_matches_desired
    ⟨⟨[], [], [⟨1, "weather", 7, 0, 0, 1, 1⟩, ⟨2, "news", 7, 1, 0, 2, 1⟩],
      [⟨1, "color", "red"⟩], 1, 1, 3⟩, [], [], []⟩
    7
    [⟨some 1, "weather", none, 0, 0, 1, 1, some [("color", "blue")]⟩,
     ⟨none, "clock", none, 1, 0, 2, 1, none⟩]
    ⟨⟨[], [], [⟨1, "weather", 7, 0, 0, 1, 1⟩, ⟨3, "clock", 7, 1, 0, 2, 1⟩],
      [⟨1, "color", "blue"⟩], 1, 1, 4⟩,
      [RepoCall.getContentSlotsByViewId 7, RepoCall.deleteOptionsForContentSlot 2,
       RepoCall.deleteContentSlot 2, RepoCall.getContentSlot 1,
       RepoCall.updateContentSlot 1 "weather" 7 0 0 1 1,
       RepoCall.getOptionsForContentSlot 1, RepoCall.updateOption 1 "color" "blue",
       RepoCall.getOptionsForContentSlot 1, RepoCall.createContentSlot "clock" 7 1 0 2 1,
       RepoCall.getOptionsForContentSlot 3, RepoCall.getOptionsForContentSlot 3], [], []⟩
    (by unfold Storage.WF; decide) (by unfold ValidDesired; decide) rfl rfl

/-- Counterexample to C1 as stated: with storage failing exactly the write of
option a=1 for slot 1, updateContentSlotsForView for view 7 with one desired
clock descriptor carrying options a=1 still completes successfully — the
option reconciliation is launched without await on line 211, so its rejection
is lost — yet the only persisted slot of the view has an empty option map
instead of the desired one. -/
theorem c1_counterexample :
    (DisplayService.updateContentSlotsForView 7
        [⟨none, "clock", none, 0, 0, 1, 1, some [("a", "1")]⟩]).run
      ⟨⟨[], [], [], [], 1, 1, 1⟩, [], [], [RepoCall.createOption 1 "a" "1"]⟩ =
      (Except.ok (), ⟨⟨[], [], [⟨1, "clock", 7, 0, 0, 1, 1⟩], [], 1, 1, 2⟩,
        [RepoCall.getContentSlotsByViewId 7, RepoCall.createContentSlot "clock" 7 0 0 1 1,
         RepoCall.getOptionsForContentSlot 1, RepoCall.createOption 1 "a" "1"], [],
        [RepoCall.createOption 1 "a" "1"]⟩) ∧
    idsForView (Storage.mk [] [] [⟨1, "clock", 7, 0, 0, 1, 1⟩] [] 1 1 2) 7 = [1] ∧
    optionMap (Storage.mk [] [] [⟨1, "clock", 7, 0, 0, 1, 1⟩] [] 1 1 2) 1 = [] ∧
    (([("a", "1")] : List (String × String)).lookup "a" = some "1") := by
  refine ⟨rfl, by decide, by decide, by decide⟩

/-! Run lemmas for the view and display operations. -/

theorem run_getViewsByDisplayIdAndScreenType (dId : Nat) (sc : String) (s : St)
    (h : s.faultOn = []) :
    (ViewRepository.getViewsByDisplayIdAndScreenType dId sc).run s =
      (Except.ok (s.store.views.filter (fun v => v.displayId = dId ∧ v.screenType = sc)),
        ⟨s.store, s.calls ++ [RepoCall.getViewsByDisplayIdAndScreenType dId sc],
          s.events, s.faultOn⟩) := by
  rcases s with ⟨store, calls, events, fa⟩
  subst h
  rfl

theorem run_createViewRepo (name : String) (columns rows dId order : Nat) (sc : String)
    (s : St) (h : s.faultOn = []) :
    (ViewRepository.createView name columns rows dId order sc).run s =
      (Except.ok ⟨s.store.nextViewId, name, columns, rows, dId, order, sc⟩,
        ⟨{ s.store with
            views := s.store.views ++ [⟨s.store.nextViewId, name, columns, rows, dId, order, sc⟩],
            nextViewId := s.store.nextViewId + 1 },
          s.calls ++ [RepoCall.createView name columns rows dId order sc],
          s.events, s.faultOn⟩) := by
  rcases s with ⟨store, calls, events, fa⟩
  subst h
  rfl

theorem run_getViewById (viewId : Nat) (s : St) (h : s.faultOn = []) :
    (ViewRepository.getViewById viewId).run s =
      (match findView s.store viewId with
        | some v => (Except.ok v,
            ⟨s.store, s.calls ++ [RepoCall.getViewById viewId], s.events, s.faultOn⟩)
        | none => (Except.error Err.notFound,
            ⟨s.store, s.calls ++ [RepoCall.getViewById viewId], s.events, s.faultOn⟩)) := by
  rcases s with ⟨store, calls, events, fa⟩
  subst h
  show (match findView store viewId with
    | some v => (Except.ok v, _)
    | none => (Except.error Err.notFound, _)) = _
  cases findView store viewId <;> rfl

theorem run_updateViewRepo (viewId : Nat) (name : String) (columns rows dId order : Nat)
    (sc : String) (s : St) (h : s.faultOn = []) :
    (ViewRepository.updateView viewId name columns rows dId order sc).run s =
      (match findView s.store viewId with
        | some _ => (Except.ok ⟨viewId, name, columns, rows, dId, order, sc⟩,
            ⟨{ s.store with views := s.store.views.map (fun w =>
                if w.id = viewId then ⟨viewId, name, columns, rows, dId, order, sc⟩ else w) },
              s.calls ++ [RepoCall.updateView viewId name columns rows dId order sc],
              s.events, s.faultOn⟩)
        | none => (Except.error Err.notFound,
            ⟨s.store, s.calls ++ [RepoCall.updateView viewId name columns rows dId order sc],
              s.events, s.faultOn⟩)) := by
  rcases s with ⟨store, calls, events, fa⟩
  subst h
  show (match findView store viewId with
    | some _ => _
    | none => _) = _
  cases findView store viewId <;> rfl

theorem run_deleteViewRepo (viewId : Nat) (s : St) (h : s.faultOn = []) :
    (ViewRepository.deleteView viewId).run s =
      (Except.ok (s.store.views.any (fun v => v.id = viewId)),
        ⟨{ s.store with views := s.store.views.filter (fun v => ¬ v.id = viewId) },
          s.calls ++ [RepoCall.deleteView viewId], s.events, s.faultOn⟩) := by
  rcases s with ⟨store, calls, events, fa⟩
  subst h
  rfl

theorem run_getDisplayById (dId : Nat) (s : St) (h : s.faultOn = []) :
    (DisplayRepository.getDisplayById dId).run s =
      (match findDisplay s.store dId with
        | some d => (Except.ok d,
            ⟨s.store, s.calls ++ [RepoCall.getDisplayById dId], s.events, s.faultOn⟩)
        | none => (Except.error Err.notFound,
            ⟨s.store, s.calls ++ [RepoCall.getDisplayById dId], s.events, s.faultOn⟩)) := by
  rcases s with ⟨store, calls, events, fa⟩
  subst h
  show (match findDisplay store dId with
    | some d => (Except.ok d, _)
    | none => (Except.error Err.notFound, _)) = _
  cases findDisplay store dId <;> rfl

theorem run_createDisplayRepo (name : String) (active : Bool) (clientId descr loc : String)
    (s : St) (h : s.faultOn = []) :
    (DisplayRepository.createDisplay name active clientId descr loc).run s =
      (Except.ok s.store.nextDisplayId,
        ⟨{ s.store with
            displays := s.store.displays ++ [⟨s.store.nextDisplayId, name, active, clientId, descr, loc⟩],
            nextDisplayId := s.store.nextDisplayId + 1 },
          s.calls ++ [RepoCall.createDisplay name active clientId descr loc],
          s.events, s.faultOn⟩) := by
  rcases s with ⟨store, calls, events, fa⟩
  subst h
  rfl

theorem run_updateDisplayRepo (dId : Nat) (name : String) (active : Bool)
    (clientId descr loc : String) (s : St) (h : s.faultOn = []) :
    (DisplayRepository.updateDisplay dId name active clientId descr loc).run s =
      (if s.store.displays.any (fun d => d.id = dId) then
        (Except.ok (some dId),
          ⟨{ s.store with displays := s.store.displays.map (fun d =>
              if d.id = dId then ⟨dId, name, active, clientId, descr, loc⟩ else d) },
            s.calls ++ [RepoCall.updateDisplay dId name active clientId descr loc],
            s.events, s.faultOn⟩)
      else
        (Except.ok none,
          ⟨s.store, s.calls ++ [RepoCall.updateDisplay dId name active clientId descr loc],
            s.events, s.faultOn⟩)) := by
  rcases s with ⟨store, calls, events, fa⟩
  subst h
  show (if store.displays.any (fun d => d.id = dId) then _ else _) = _
  by_cases hc : store.displays.any (fun d => d.id = dId) <;> simp [hc, addCall]

theorem run_deleteDisplayRepo (dId : Nat) (s : St) (h : s.faultOn = []) :
    (DisplayRepository.deleteDisplay dId).run s =
      (match findDisplay s.store dId with
        | some d => (Except.ok (some d),
            ⟨{ s.store with displays := s.store.displays.filter (fun x => ¬ x.id = dId) },
              s.calls ++ [RepoCall.deleteDisplay dId], s.events, s.faultOn⟩)
        | none => (Except.ok none,
            ⟨s.store, s.calls ++ [RepoCall.deleteDisplay dId], s.events, s.faultOn⟩)) := by
  rcases s with ⟨store, calls, events, fa⟩
  subst h
  show (match findDisplay store dId with
    | some d => _
    | none => _) = _
  cases findDisplay store dId <;> rfl

theorem run_emit (e : Event) (s : St) :
    (DisplayService.emit e).run s = (Except.ok (), { s with events := s.events ++ [e] }) := rfl

/-- Claim C9: createView reads the current count of persisted views for the
(displayId, screenType) pair and creates the new view appended at position
count + 1; no existing view record is changed. -/
theorem c9_create_view_appends
    (s : St) (name : String) (columns rows dId : Nat) (sc : String)
    (hfault : s.faultOn = []) :
    ∃ (v : View) (s2 : St),
      (DisplayService.createView name columns rows dId sc).run s = (Except.ok v, s2) ∧
      v.order = (s.store.views.filter
        (fun w => w.displayId = dId ∧ w.screenType = sc)).length + 1 ∧
      v.displayId = dId ∧
      v.screenType = sc ∧
      s2.store.views = s.store.views ++ [v] := by
  refine ⟨⟨s.store.nextViewId, name, columns, rows, dId,
    (s.store.views.filter (fun w => w.displayId = dId ∧ w.screenType = sc)).length + 1, sc⟩,
    ⟨{ s.store with
        views := s.store.views ++ [⟨s.store.nextViewId, name, columns, rows, dId,
          (s.store.views.filter (fun w => w.displayId = dId ∧ w.screenType = sc)).length + 1, sc⟩],
        nextViewId := s.store.nextViewId + 1 },
      s.calls ++ [RepoCall.getViewsByDisplayIdAndScreenType dId sc,
        RepoCall.createView name columns rows dId
          ((s.store.views.filter (fun w => w.displayId = dId ∧ w.screenType = sc)).length + 1) sc],
      s.events, s.faultOn⟩, ?_, rfl, rfl, rfl, rfl⟩
  simp only [DisplayService.createView]
  rw [M.run_bind_ok _ _ _ _ _ (run_getViewsByDisplayIdAndScreenType dId sc s hfault)]
  rw [run_createViewRepo name columns rows dId _ sc _ (by simpa using hfault)]
  simp

/-- Witness for C9: a display with one main view gains a second main view at
position 2 while the first view is untouched. -/
theorem c9_create_view_appends_witness :
    ∃ (v : View) (s2 : St),
      (DisplayService.createView "overview" 4 3 5 "main").run
        ⟨⟨[], [⟨1, "first", 2, 2, 5, 1, "main"⟩], [], [], 1, 2, 1⟩, [], [], []⟩ =
        (Except.ok v, s2) ∧
      v.order = (([⟨1, "first", 2, 2, 5, 1, "main"⟩] : List View).filter
        (fun w => w.displayId = 5 ∧ w.screenType = "main")).length + 1 ∧
      v.displayId = 5 ∧
      v.screenType = "main" ∧
      s2.store.views = [⟨1, "first", 2, 2, 5, 1, "main"⟩] ++ [v] :=
  c9_create_view_appends
    ⟨⟨[], [⟨1, "first", 2, 2, 5, 1, "main"⟩], [], [], 1, 2, 1⟩, [], [], []⟩
    "overview" 4 3 5 "main" rfl

theorem find?_map_update_general {α : Type} (q : α → Prop) [DecidablePred q] (row : α)
    (hrow : q row) : ∀ (l : List α), (l.find? (fun x => q x)).isSome →
    (l.map (fun x => if q x then row else x)).find? (fun x => q x) = some row := by
  intro l
  induction l with
  | nil => intro h; simp at h
  | cons x rest ih =>
      intro h
      by_cases hx : q x
      · rw [List.map_cons, if_pos hx]
        rw [List.find?_cons_of_pos _ (by simpa using hrow)]
      · rw [List.map_cons, if_neg hx]
        rw [List.find?_cons_of_neg _ (by simpa using hx)]
        rw [List.find?_cons_of_neg _ (by simpa using hx)] at h
        exact ih h

theorem findDisplay_fresh {st : Storage} (hwf : Storage.WF st) :
    st.displays.find? (fun d => d.id = st.nextDisplayId) = none := by
  obtain ⟨_, _, _, _, _, _, _, h8⟩ := hwf
  rw [List.find?_eq_none]
  intro d hd hcc
  have : d.id = st.nextDisplayId := by simpa using hcc
  have := h8 d hd
  omega

theorem any_id_false_of_findDisplay_none {st : Storage} {dId : Nat}
    (h : findDisplay st dId = none) :
    st.displays.any (fun d => d.id = dId) = false := by
  rw [List.any_eq_false]
  intro d hd
  have := List.find?_eq_none.mp h d hd
  exact this

theorem any_id_true_of_findDisplay_some {st : Storage} {dId : Nat} {d : Display}
    (h : findDisplay st dId = some d) :
    st.displays.any (fun d => d.id = dId) = true := by
  rw [List.any_eq_true]
  have hsome : (st.displays.find? (fun x => x.id = dId)) = some d := h
  refine ⟨d, List.mem_of_find?_eq_some hsome, ?_⟩
  have hp := List.find?_some hsome
  simpa using hp

theorem findDisplay_append_fresh {st : Storage} (hwf : Storage.WF st)
    (name : String) (active : Bool) (clientId descr loc : String) :
    findDisplay { st with
        displays := st.displays ++ [⟨st.nextDisplayId, name, active, clientId, descr, loc⟩],
        nextDisplayId := st.nextDisplayId + 1 } st.nextDisplayId =
      some ⟨st.nextDisplayId, name, active, clientId, descr, loc⟩ := by
  show (st.displays ++ [(⟨st.nextDisplayId, name, active, clientId, descr, loc⟩ : Display)]).find?
      (fun d => d.id = st.nextDisplayId) = _
  rw [List.find?_append, findDisplay_fresh hwf]
  simp

theorem findDisplay_map_update {st : Storage} {dId : Nat} {d0 : Display}
    (h0 : findDisplay st dId = some d0)
    (name : String) (active : Bool) (clientId descr loc : String) :
    findDisplay { st with displays := st.displays.map (fun d =>
        if d.id = dId then ⟨dId, name, active, clientId, descr, loc⟩ else d) } dId =
      some ⟨dId, name, active, clientId, descr, loc⟩ := by
  have hsome : (st.displays.find? (fun x => x.id = dId)).isSome := by
    have h1 : st.displays.find? (fun x => x.id = dId) = some d0 := h0
    rw [h1]; rfl
  have hgen := find?_map_update_general (fun x => x.id = dId)
    (⟨dId, name, active, clientId, descr, loc⟩ : Display) rfl st.displays hsome
  show (st.displays.map (fun d =>
      if d.id = dId then (⟨dId, name, active, clientId, descr, loc⟩ : Display) else d)).find?
      (fun d => d.id = dId) = some ⟨dId, name, active, clientId, descr, loc⟩
  exact hgen

theorem run_getDisplayById_some {s : St} {dId : Nat} {d : Display}
    (h : s.faultOn = []) (hfind : findDisplay s.store dId = some d) :
    (DisplayRepository.getDisplayById dId).run s =
      (Except.ok d, ⟨s.store, s.calls ++ [RepoCall.getDisplayById dId], s.events, s.faultOn⟩) := by
  rw [run_getDisplayById dId s h, hfind]

theorem run_getDisplayById_none {s : St} {dId : Nat}
    (h : s.faultOn = []) (hfind : findDisplay s.store dId = none) :
    (DisplayRepository.getDisplayById dId).run s =
      (Except.error Err.notFound,
        ⟨s.store, s.calls ++ [RepoCall.getDisplayById dId], s.events, s.faultOn⟩) := by
  rw [run_getDisplayById dId s h, hfind]

theorem run_createDisplay_service {s : St} (hfault : s.faultOn = []) (hwf : Storage.WF s.store)
    (name : String) (active : Bool) (clientId descr loc : String) :
    (DisplayService.createDisplay name active clientId descr loc).run s =
      (Except.ok (⟨s.store.nextDisplayId, name, active, clientId, descr, loc⟩ : Display),
        ⟨{ s.store with
            displays := s.store.displays ++ [⟨s.store.nextDisplayId, name, active, clientId, descr, loc⟩],
            nextDisplayId := s.store.nextDisplayId + 1 },
          s.calls ++ [RepoCall.createDisplay name active clientId descr loc,
            RepoCall.getDisplayById s.store.nextDisplayId],
          s.events ++ [Event.display_created ⟨s.store.nextDisplayId, name, active, clientId, descr, loc⟩],
          s.faultOn⟩) := by
  simp only [DisplayService.createDisplay]
  rw [M.run_bind_ok _ _ _ _ _ (run_createDisplayRepo name active clientId descr loc s hfault)]
  simp only [DisplayService.getDisplayById]
  rw [M.run_bind_ok _ _ _ _ _
    (run_getDisplayById_some
      (s := ⟨{ s.store with
          displays := s.store.displays ++ [⟨s.store.nextDisplayId, name, active, clientId, descr, loc⟩],
          nextDisplayId := s.store.nextDisplayId + 1 },
        s.calls ++ [RepoCall.createDisplay name active clientId descr loc],
        s.events, s.faultOn⟩)
      hfault (findDisplay_append_fresh hwf name active clientId descr loc))]
  rw [M.run_bind_ok _ _ _ _ _ (run_emit _ _)]
  simp [M.run_pure]

theorem run_updateDisplay_present {s : St} {dId : Nat} {d0 : Display}
    (hfault : s.faultOn = []) (h0 : findDisplay s.store dId = some d0)
    (name : String) (active : Bool) (clientId descr loc : String) :
    (DisplayService.updateDisplay dId name active clientId descr loc).run s =
      (Except.ok (⟨dId, name, active, clientId, descr, loc⟩ : Display),
        ⟨{ s.store with displays := s.store.displays.map (fun d =>
            if d.id = dId then ⟨dId, name, active, clientId, descr, loc⟩ else d) },
          s.calls ++ [RepoCall.updateDisplay dId name active clientId descr loc,
            RepoCall.getDisplayById dId],
          s.events ++ [Event.display_updated ⟨dId, name, active, clientId, descr, loc⟩],
          s.faultOn⟩) := by
  simp only [DisplayService.updateDisplay]
  have hany := any_id_true_of_findDisplay_some h0
  have hrepo : (DisplayRepository.updateDisplay dId name active clientId descr loc).run s =
      (Except.ok (some dId),
        ⟨{ s.store with displays := s.store.displays.map (fun d =>
            if d.id = dId then ⟨dId, name, active, clientId, descr, loc⟩ else d) },
          s.calls ++ [RepoCall.updateDisplay dId name active clientId descr loc],
          s.events, s.faultOn⟩) := by
    rw [run_updateDisplayRepo dId name active clientId descr loc s hfault, if_pos hany]
  rw [M.run_bind_ok _ _ _ _ _ hrepo]
  show ((DisplayService.getDisplayById dId >>= fun updatedDisplay =>
      DisplayService.emit (Event.display_updated updatedDisplay) >>= fun _ =>
      pure updatedDisplay).run _) = _
  simp only [DisplayService.getDisplayById]
  rw [M.run_bind_ok _ _ _ _ _
    (run_getDisplayById_some
      (s := ⟨{ s.store with displays := s.store.displays.map (fun d =>
          if d.id = dId then ⟨dId, name, active, clientId, descr, loc⟩ else d) },
        s.calls ++ [RepoCall.updateDisplay dId name active clientId descr loc],
        s.events, s.faultOn⟩)
      hfault (findDisplay_map_update h0 name active clientId descr loc))]
  rw [M.run_bind_ok _ _ _ _ _ (run_emit _ _)]
  simp [M.run_pure]

theorem run_updateDisplay_absent {s : St} {dId : Nat}
    (hfault : s.faultOn = []) (h0 : findDisplay s.store dId = none)
    (name : String) (active : Bool) (clientId descr loc : String) :
    (DisplayService.updateDisplay dId name active clientId descr loc).run s =
      (Except.error Err.notFound,
        ⟨s.store, s.calls ++ [RepoCall.updateDisplay dId name active clientId descr loc,
          RepoCall.getDisplayById dId], s.events, s.faultOn⟩) := by
  simp only [DisplayService.updateDisplay]
  have hany := any_id_false_of_findDisplay_none h0
  have hrepo : (DisplayRepository.updateDisplay dId name active clientId descr loc).run s =
      (Except.ok none,
        ⟨s.store, s.calls ++ [RepoCall.updateDisplay dId name active clientId descr loc],
          s.events, s.faultOn⟩) := by
    rw [run_updateDisplayRepo dId name active clientId descr loc s hfault,
      if_neg (by simp [hany])]
  rw [M.run_bind_ok _ _ _ _ _ hrepo]
  show ((DisplayService.getDisplayById dId).run _) = _
  simp only [DisplayService.getDisplayById]
  rw [run_getDisplayById_none
    (s := ⟨s.store, s.calls ++ [RepoCall.updateDisplay dId name active clientId descr loc],
      s.events, s.faultOn⟩) hfault h0]
  simp

theorem run_deleteDisplay_present {s : St} {dId : Nat} {d0 : Display}
    (hfault : s.faultOn = []) (h0 : findDisplay s.store dId = some d0) :
    (DisplayService.deleteDisplay dId).run s =
      (Except.ok (some d0),
        ⟨{ s.store with displays := s.store.displays.filter (fun x => ¬ x.id = dId) },
          s.calls ++ [RepoCall.deleteDisplay dId],
          s.events ++ [Event.display_deleted d0], s.faultOn⟩) := by
  simp only [DisplayService.deleteDisplay]
  have hrepo : (DisplayRepository.deleteDisplay dId).run s =
      (Except.ok (some d0),
        ⟨{ s.store with displays := s.store.displays.filter (fun x => ¬ x.id = dId) },
          s.calls ++ [RepoCall.deleteDisplay dId], s.events, s.faultOn⟩) := by
    rw [run_deleteDisplayRepo dId s hfault, h0]
  rw [M.run_bind_ok _ _ _ _ _ hrepo]
  rfl

theorem run_deleteDisplay_absent {s : St} {dId : Nat}
    (hfault : s.faultOn = []) (h0 : findDisplay s.store dId = none) :
    (DisplayService.deleteDisplay dId).run s =
      (Except.ok none,
        ⟨s.store, s.calls ++ [RepoCall.deleteDisplay dId], s.events, s.faultOn⟩) := by
  simp only [DisplayService.deleteDisplay]
  have hrepo : (DisplayRepository.deleteDisplay dId).run s =
      (Except.ok none,
        ⟨s.store, s.calls ++ [RepoCall.deleteDisplay dId], s.events, s.faultOn⟩) := by
    rw [run_deleteDisplayRepo dId s hfault, h0]
  rw [M.run_bind_ok _ _ _ _ _ hrepo]
  rfl

/-- Claim C8: every display_created, display_updated and display_deleted
notification carries the full current Display record as its payload, and each
triggering command emits its event at most once.  createDisplay appends
exactly one display_created event whose payload is the record persisted under
the fresh id; updateDisplay appends exactly one display_updated event whose
payload is the persisted record when the row exists, and no event when it
does not; deleteDisplay appends exactly one display_deleted event carrying
the record that was current at the trigger when the row exists, and no event
when it does not. -/
theorem c8_display_events
    (s : St) (hfault : s.faultOn = []) (hwf : Storage.WF s.store)
    (name : String) (active : Bool) (clientId descr loc : String) (dId : Nat) :
    (∃ d s2,
      (DisplayService.createDisplay name active clientId descr loc).run s = (Except.ok d, s2) ∧
      s2.events = s.events ++ [Event.display_created d] ∧
      findDisplay s2.store d.id = some d) ∧
    (∀ d0, findDisplay s.store dId = some d0 →
      ∃ d s2,
        (DisplayService.updateDisplay dId name active clientId descr loc).run s = (Except.ok d, s2) ∧
        s2.events = s.events ++ [Event.display_updated d] ∧
        findDisplay s2.store dId = some d) ∧
    (findDisplay s.store dId = none →
      ∃ r s2,
        (DisplayService.updateDisplay dId name active clientId descr loc).run s = (r, s2) ∧
        s2.events = s.events) ∧
    (∀ d0, findDisplay s.store dId = some d0 →
      ∃ s2,
        (DisplayService.deleteDisplay dId).run s = (Except.ok (some d0), s2) ∧
        s2.events = s.events ++ [Event.display_deleted d0]) ∧
    (findDisplay s.store dId = none →
      ∃ s2,
        (DisplayService.deleteDisplay dId).run s = (Except.ok none, s2) ∧
        s2.events = s.events) := by
  refine ⟨?_, ?_, ?_, ?_, ?_⟩
  · exact ⟨_, _, run_createDisplay_service hfault hwf name active clientId descr loc, rfl,
      findDisplay_append_fresh hwf name active clientId descr loc⟩
  · intro d0 h0
    exact ⟨_, _, run_updateDisplay_present hfault h0 name active clientId descr loc, rfl,
      findDisplay_map_update h0 name active clientId descr loc⟩
  · intro h0
    exact ⟨_, _, run_updateDisplay_absent hfault h0 name active clientId descr loc, rfl⟩
  · intro d0 h0
    exact ⟨_, run_deleteDisplay_present hfault h0, rfl⟩
  · intro h0
    exact ⟨_, run_deleteDisplay_absent hfault h0, rfl⟩

/-- Witness for C8 at a concrete store holding display 1: createDisplay emits
one display_created carrying the persisted fresh record, updateDisplay on the
present id 1 emits one display_updated carrying the persisted record, and
deleteDisplay on id 1 emits one display_deleted carrying the pre-delete
record. -/
theorem c8_display_events_witness :
    (∃ d s2,
      (DisplayService.createDisplay "lobby" true "c1" "" "").run
        ⟨⟨[⟨1, "old", false, "c0", "", ""⟩], [], [], [], 2, 1, 1⟩, [], [], []⟩ = (Except.ok d, s2) ∧
      s2.events = [] ++ [Event.display_created d] ∧
      findDisplay s2.store d.id = some d) ∧
    (∀ d0, findDisplay ⟨[⟨1, "old", false, "c0", "", ""⟩], [], [], [], 2, 1, 1⟩ 1 = some d0 →
      ∃ d s2,
        (DisplayService.updateDisplay 1 "lobby" true "c1" "" "").run
          ⟨⟨[⟨1, "old", false, "c0", "", ""⟩], [], [], [], 2, 1, 1⟩, [], [], []⟩ = (Except.ok d, s2) ∧
        s2.events = [] ++ [Event.display_updated d] ∧
        findDisplay s2.store 1 = some d) ∧
    (findDisplay ⟨[⟨1, "old", false, "c0", "", ""⟩], [], [], [], 2, 1, 1⟩ 1 = none →
      ∃ r s2,
        (DisplayService.updateDisplay 1 "lobby" true "c1" "" "").run
          ⟨⟨[⟨1, "old", false, "c0", "", ""⟩], [], [], [], 2, 1, 1⟩, [], [], []⟩ = (r, s2) ∧
        s2.events = []) ∧
    (∀ d0, findDisplay ⟨[⟨1, "old", false, "c0", "", ""⟩], [], [], [], 2, 1, 1⟩ 1 = some d0 →
      ∃ s2,
        (DisplayService.deleteDisplay 1).run
          ⟨⟨[⟨1, "old", false, "c0", "", ""⟩], [], [], [], 2, 1, 1⟩, [], [], []⟩ =
          (Except.ok (some d0), s2) ∧
        s2.events = [] ++ [Event.display_deleted d0]) ∧
    (findDisplay ⟨[⟨1, "old", false, "c0", "", ""⟩], [], [], [], 2, 1, 1⟩ 1 = none →
      ∃ s2,
        (DisplayService.deleteDisplay 1).run
          ⟨⟨[⟨1, "old", false, "c0", "", ""⟩], [], [], [], 2, 1, 1⟩, [], [], []⟩ =
          (Except.ok none, s2) ∧
        s2.events = []) :=
  c8_display_events ⟨⟨[⟨1, "old", false, "c0", "", ""⟩], [], [], [], 2, 1, 1⟩, [], [], []⟩
    rfl (by unfold Storage.WF; decide) "lobby" true "c1" "" "" 1

/-- Counterexample to claim C10 as stated: with no display persisted, the
repository update of display 5 returns no identifier and updateDisplay falls
through to getDisplayById(5) — which, under the spec-modelled repository,
rejects with NotFound for an absent row.  The operation therefore fails
(while indeed emitting no event), refuting the claim that the falsy branch
does not fail. -/
theorem c10_counterexample :
    ((DisplayService.updateDisplay 5 "n" true "c" "" "").run
        ⟨⟨[], [], [], [], 1, 1, 1⟩, [], [], []⟩).1 = Except.error Err.notFound ∧
    ((DisplayService.updateDisplay 5 "n" true "c" "" "").run
        ⟨⟨[], [], [], [], 1, 1, 1⟩, [], [], []⟩).2.events = [] := by
  constructor <;> rfl

/-- Claim C10 (amended): when the repository update returns no identifier
(the display is absent), updateDisplay emits no display_updated event and
yields exactly what getDisplayById(displayId) yields on the untouched store —
a NotFound rejection under the spec-modelled repository; the display_updated
event is emitted exactly when the repository update returned an identifier,
i.e. exactly when the display exists. -/
theorem c10_update_display_falsy
    (s : St) (hfault : s.faultOn = []) (dId : Nat)
    (name : String) (active : Bool) (clientId descr loc : String) :
    (findDisplay s.store dId = none →
      (DisplayService.updateDisplay dId name active clientId descr loc).run s =
        (Except.error Err.notFound,
          ⟨s.store, s.calls ++ [RepoCall.updateDisplay dId name active clientId descr loc,
            RepoCall.getDisplayById dId], s.events, s.faultOn⟩) ∧
      ((DisplayService.updateDisplay dId name active clientId descr loc).run s).1 =
        ((DisplayService.getDisplayById dId).run s).1) ∧
    (∀ d0, findDisplay s.store dId = some d0 →
      ((DisplayService.updateDisplay dId name active clientId descr loc).run s).2.events =
        s.events ++ [Event.display_updated ⟨dId, name, active, clientId, descr, loc⟩]) := by
  constructor
  · intro h0
    have habs := run_updateDisplay_absent hfault h0 name active clientId descr loc
    refine ⟨habs, ?_⟩
    rw [habs]
    show Except.error Err.notFound = ((DisplayService.getDisplayById dId).run s).1
    rw [show (DisplayService.getDisplayById dId).run s =
      (Except.error Err.notFound,
        ⟨s.store, s.calls ++ [RepoCall.getDisplayById dId], s.events, s.faultOn⟩) from
      run_getDisplayById_none hfault h0]
  · intro d0 h0
    rw [run_updateDisplay_present hfault h0 name active clientId descr loc]

/-- Witness for the amended C10 at a store holding only display 7: for the
absent id 5 the call fails with NotFound — exactly what getDisplayById yields
— and emits nothing; had the id been present, one display_updated with the
persisted record would have been appended. -/
theorem c10_update_display_falsy_witness :
    (findDisplay ⟨[⟨7, "d7", true, "k", "", ""⟩], [], [], [], 8, 1, 1⟩ 5 = none →
      (DisplayService.updateDisplay 5 "n" true "c" "" "").run
        ⟨⟨[⟨7, "d7", true, "k", "", ""⟩], [], [], [], 8, 1, 1⟩, [], [], []⟩ =
        (Except.error Err.notFound,
          ⟨⟨[⟨7, "d7", true, "k", "", ""⟩], [], [], [], 8, 1, 1⟩,
            [RepoCall.updateDisplay 5 "n" true "c" "" "", RepoCall.getDisplayById 5], [], []⟩) ∧
      ((DisplayService.updateDisplay 5 "n" true "c" "" "").run
        ⟨⟨[⟨7, "d7", true, "k", "", ""⟩], [], [], [], 8, 1, 1⟩, [], [], []⟩).1 =
        ((DisplayService.getDisplayById 5).run
          ⟨⟨[⟨7, "d7", true, "k", "", ""⟩], [], [], [], 8, 1, 1⟩, [], [], []⟩).1) ∧
    (∀ d0, findDisplay ⟨[⟨7, "d7", true, "k", "", ""⟩], [], [], [], 8, 1, 1⟩ 5 = some d0 →
      ((DisplayService.updateDisplay 5 "n" true "c" "" "").run
        ⟨⟨[⟨7, "d7", true, "k", "", ""⟩], [], [], [], 8, 1, 1⟩, [], [], []⟩).2.events =
        [] ++ [Event.display_updated ⟨5, "n", true, "c", "", ""⟩]) :=
  c10_update_display_falsy ⟨⟨[⟨7, "d7", true, "k", "", ""⟩], [], [], [], 8, 1, 1⟩, [], [], []⟩
    rfl 5 "n" true "c" "" ""

theorem M.run_bind_err (m : M α) (f : α → M β) (s s1 : St) (e : Err)
    (h : m.run s = (Except.error e, s1)) :
    (m >>= f).run s = (Except.error e, s1) := by
  show (match m s with
    | (Except.ok a, s1) => f a s1
    | (Except.error e, s1) => (Except.error e, s1)) = _
  rw [show m s = (Except.error e, s1) from h]

theorem run_ignoreFailure_ok {m : M α} {s s1 : St} {a : α}
    (h : m.run s = (Except.ok a, s1)) :
    (ignoreFailure m).run s = (Except.ok (), s1) := by
  show (match m s with
    | (Except.ok _, s1) => (Except.ok (), s1)
    | (Except.error _, s1) => (Except.ok (), s1)) = _
  rw [show m s = (Except.ok a, s1) from h]

theorem run_ignoreFailure_err {m : M α} {s s1 : St} {e : Err}
    (h : m.run s = (Except.error e, s1)) :
    (ignoreFailure m).run s = (Except.ok (), s1) := by
  show (match m s with
    | (Except.ok _, s1) => (Except.ok (), s1)
    | (Except.error _, s1) => (Except.ok (), s1)) = _
  rw [show m s = (Except.error e, s1) from h]

theorem findView_some_id {st : Storage} {vid : Nat} {v : View}
    (h : findView st vid = some v) : v.id = vid := by
  have hp := List.find?_some (show st.views.find? (fun w => w.id = vid) = some v from h)
  simpa using hp

theorem run_getViewById_some {s : St} {vid : Nat} {v : View}
    (h : s.faultOn = []) (hfind : findView s.store vid = some v) :
    (ViewRepository.getViewById vid).run s =
      (Except.ok v, ⟨s.store, s.calls ++ [RepoCall.getViewById vid], s.events, s.faultOn⟩) := by
  rw [run_getViewById vid s h, hfind]

theorem run_updateViewRepo_some {s : St} {vid : Nat} {v0 : View}
    (h : s.faultOn = []) (hfind : findView s.store vid = some v0)
    (name : String) (columns rows dId order : Nat) (sc : String) :
    (ViewRepository.updateView vid name columns rows dId order sc).run s =
      (Except.ok ⟨vid, name, columns, rows, dId, order, sc⟩,
        ⟨{ s.store with views := s.store.views.map (fun w =>
            if w.id = vid then ⟨vid, name, columns, rows, dId, order, sc⟩ else w) },
          s.calls ++ [RepoCall.updateView vid name columns rows dId order sc],
          s.events, s.faultOn⟩) := by
  rw [run_updateViewRepo vid name columns rows dId order sc s h, hfind]

theorem applyDescriptorPure_views (viewId : Nat) (st : Storage) (d : SlotDescriptor) :
    (applyDescriptorPure viewId st d).views = st.views := by
  rcases hd : d.id? with _ | cid <;>
    simp [applyDescriptorPure, hd, setOptionsPure_views, createSlotPure, updateSlotPure]

theorem applyDescriptorPure_displays (viewId : Nat) (st : Storage) (d : SlotDescriptor) :
    (applyDescriptorPure viewId st d).displays = st.displays := by
  rcases hd : d.id? with _ | cid <;>
    simp [applyDescriptorPure, hd, setOptionsPure_displays, createSlotPure, updateSlotPure]

theorem slotLoopPure_views_frame (viewId : Nat) : ∀ (ds : List SlotDescriptor) (st : Storage),
    (slotLoopPure viewId ds st).views = st.views := by
  intro ds
  induction ds with
  | nil => intro st; rfl
  | cons d rest ih =>
      intro st
      show (slotLoopPure viewId rest (applyDescriptorPure viewId st d)).views = st.views
      rw [ih, applyDescriptorPure_views]

theorem slotLoopPure_displays_frame (viewId : Nat) : ∀ (ds : List SlotDescriptor) (st : Storage),
    (slotLoopPure viewId ds st).displays = st.displays := by
  intro ds
  induction ds with
  | nil => intro st; rfl
  | cons d rest ih =>
      intro st
      show (slotLoopPure viewId rest (applyDescriptorPure viewId st d)).displays = st.displays
      rw [ih, applyDescriptorPure_displays]

theorem reconcilePure_views_frame (viewId : Nat) (ds : List SlotDescriptor) (st : Storage) :
    (reconcilePure viewId ds st).views = st.views := by
  show (slotLoopPure viewId ds (removePure _ st)).views = st.views
  rw [slotLoopPure_views_frame, removePure_views]

theorem reconcilePure_displays_frame (viewId : Nat) (ds : List SlotDescriptor) (st : Storage) :
    (reconcilePure viewId ds st).displays = st.displays := by
  show (slotLoopPure viewId ds (removePure _ st)).displays = st.displays
  rw [slotLoopPure_displays_frame, removePure_displays]

theorem run_enrichSlots (cs : List ContentSlot) : ∀ (s : St), s.faultOn = [] →
    (DisplayService.enrichSlots cs).run s =
      (Except.ok (cs.map (fun c => ⟨c, optionMap s.store c.id⟩)),
        ⟨s.store, s.calls ++ cs.map (fun c => RepoCall.getOptionsForContentSlot c.id),
          s.events, s.faultOn⟩) := by
  induction cs with
  | nil =>
      intro s h
      rcases s with ⟨store, calls, events, fa⟩
      subst h
      simp [DisplayService.enrichSlots, M.run_pure]
  | cons c rest ih =>
      intro s h
      simp only [DisplayService.enrichSlots]
      rw [M.run_bind_ok _ _ _ _ _ (run_getOptionsForContentSlot c.id s h)]
      rw [M.run_bind_ok _ _ _ _ _
        (ih ⟨s.store, s.calls ++ [RepoCall.getOptionsForContentSlot c.id], s.events, s.faultOn⟩ h)]
      simp [M.run_pure]

theorem run_getContentSlotsForView (viewId : Nat) (s : St) (h : s.faultOn = []) :
    (DisplayService.getContentSlotsForView viewId).run s =
      (Except.ok ((slotsForView s.store viewId).map (fun c => ⟨c, optionMap s.store c.id⟩)),
        ⟨s.store,
          s.calls ++ RepoCall.getContentSlotsByViewId viewId ::
            (slotsForView s.store viewId).map (fun c => RepoCall.getOptionsForContentSlot c.id),
          s.events, s.faultOn⟩) := by
  simp only [DisplayService.getContentSlotsForView]
  rw [M.run_bind_ok _ _ _ _ _ (run_getContentSlotsByViewId viewId s h)]
  rw [run_enrichSlots (slotsForView s.store viewId)
    ⟨s.store, s.calls ++ [RepoCall.getContentSlotsByViewId viewId], s.events, s.faultOn⟩ h]
  simp

theorem run_getView_some {s : St} {vid : Nat} {v : View}
    (h : s.faultOn = []) (hv : findView s.store vid = some v) :
    (DisplayService.getView vid).run s =
      (Except.ok ⟨v, (slotsForView s.store vid).map (fun c => ⟨c, optionMap s.store c.id⟩)⟩,
        ⟨s.store,
          s.calls ++ RepoCall.getViewById vid ::
            RepoCall.getContentSlotsByViewId vid ::
            (slotsForView s.store vid).map (fun c => RepoCall.getOptionsForContentSlot c.id),
          s.events, s.faultOn⟩) := by
  simp only [DisplayService.getView]
  rw [M.run_bind_ok _ _ _ _ _ (run_getViewById_some h hv)]
  rw [M.run_bind_ok _ _ _ _ _ (run_getContentSlotsForView vid
    ⟨s.store, s.calls ++ [RepoCall.getViewById vid], s.events, s.faultOn⟩ h)]
  simp [M.run_pure]

theorem run_deleteView_display_some {s : St} {vid : Nat} {v : View} {d : Display}
    (hfault : s.faultOn = []) (hv : findView s.store vid = some v)
    (hd : findDisplay s.store v.displayId = some d) :
    (DisplayService.deleteView vid).run s =
      (Except.ok (),
        ⟨{ s.store with views := s.store.views.filter (fun w => ¬ w.id = vid) },
          s.calls ++ RepoCall.getViewById vid :: RepoCall.getContentSlotsByViewId vid ::
            ((slotsForView s.store vid).map (fun c => RepoCall.getOptionsForContentSlot c.id) ++
              [RepoCall.getDisplayById v.displayId, RepoCall.deleteView vid]),
          s.events ++ [Event.views_updated d], s.faultOn⟩) := by
  simp only [DisplayService.deleteView]
  rw [M.run_bind_ok _ _ _ _ _ (run_getView_some hfault hv)]
  have hproj : (⟨v, (slotsForView s.store vid).map (fun c => ⟨c, optionMap s.store c.id⟩)⟩ :
      EnrichedView).view.displayId = v.displayId := rfl
  rw [hproj]
  simp only [DisplayService.getDisplayById]
  rw [M.run_bind_ok _ _ _ _ _
    (run_getDisplayById_some
      (s := ⟨s.store,
        s.calls ++ RepoCall.getViewById vid :: RepoCall.getContentSlotsByViewId vid ::
          (slotsForView s.store vid).map (fun c => RepoCall.getOptionsForContentSlot c.id),
        s.events, s.faultOn⟩)
      hfault hd)]
  have hinner : ((ViewRepository.deleteView vid >>= fun _ =>
      DisplayService.emit (Event.views_updated d)) : M Unit).run
      ⟨s.store,
        (s.calls ++ RepoCall.getViewById vid :: RepoCall.getContentSlotsByViewId vid ::
          (slotsForView s.store vid).map (fun c => RepoCall.getOptionsForContentSlot c.id)) ++
          [RepoCall.getDisplayById v.displayId],
        s.events, s.faultOn⟩ =
      (Except.ok (),
        ⟨{ s.store with views := s.store.views.filter (fun w => ¬ w.id = vid) },
          ((s.calls ++ RepoCall.getViewById vid :: RepoCall.getContentSlotsByViewId vid ::
            (slotsForView s.store vid).map (fun c => RepoCall.getOptionsForContentSlot c.id)) ++
            [RepoCall.getDisplayById v.displayId]) ++ [RepoCall.deleteView vid],
          s.events ++ [Event.views_updated d], s.faultOn⟩) := by
    rw [M.run_bind_ok _ _ _ _ _ (run_deleteViewRepo vid
      ⟨s.store,
        (s.calls ++ RepoCall.getViewById vid :: RepoCall.getContentSlotsByViewId vid ::
          (slotsForView s.store vid).map (fun c => RepoCall.getOptionsForContentSlot c.id)) ++
          [RepoCall.getDisplayById v.displayId],
        s.events, s.faultOn⟩ hfault)]
    rw [run_emit]
  refine Eq.trans (run_ignoreFailure_ok hinner) ?_
  simp

theorem run_deleteView_display_none {s : St} {vid : Nat} {v : View}
    (hfault : s.faultOn = []) (hv : findView s.store vid = some v)
    (hd : findDisplay s.store v.displayId = none) :
    (DisplayService.deleteView vid).run s =
      (Except.error Err.notFound,
        ⟨s.store,
          s.calls ++ RepoCall.getViewById vid :: RepoCall.getContentSlotsByViewId vid ::
            ((slotsForView s.store vid).map (fun c => RepoCall.getOptionsForContentSlot c.id) ++
              [RepoCall.getDisplayById v.displayId]),
          s.events, s.faultOn⟩) := by
  simp only [DisplayService.deleteView]
  rw [M.run_bind_ok _ _ _ _ _ (run_getView_some hfault hv)]
  have hproj : (⟨v, (slotsForView s.store vid).map (fun c => ⟨c, optionMap s.store c.id⟩)⟩ :
      EnrichedView).view.displayId = v.displayId := rfl
  rw [hproj]
  simp only [DisplayService.getDisplayById]
  refine Eq.trans (M.run_bind_err _ _ _ _ _
    (run_getDisplayById_none
      (s := ⟨s.store,
        s.calls ++ RepoCall.getViewById vid :: RepoCall.getContentSlotsByViewId vid ::
          (slotsForView s.store vid).map (fun c => RepoCall.getOptionsForContentSlot c.id),
        s.events, s.faultOn⟩)
      hfault hd)) ?_
  simp

theorem findView_map_update {st : Storage} {vid : Nat} {v0 : View}
    (h0 : findView st vid = some v0) (nv : View) (hnv : nv.id = vid) :
    (st.views.map (fun w => if w.id = vid then nv else w)).find? (fun w => w.id = vid) =
      some nv := by
  have hsome : (st.views.find? (fun x => x.id = vid)).isSome := by
    have h1 : st.views.find? (fun x => x.id = vid) = some v0 := h0
    rw [h1]; rfl
  exact find?_map_update_general (fun x => x.id = vid) nv hnv st.views hsome

theorem run_notifyTail (uv : EnrichedView) (s1 : St) (hfault : s1.faultOn = []) :
    ((ignoreFailure (DisplayService.getDisplayById uv.view.displayId >>= fun display =>
        DisplayService.emit (Event.views_updated display)) >>= fun _ =>
      (pure uv : M EnrichedView))).run s1 =
      (Except.ok uv,
        match findDisplay s1.store uv.view.displayId with
        | none => ⟨s1.store, s1.calls ++ [RepoCall.getDisplayById uv.view.displayId],
            s1.events, s1.faultOn⟩
        | some d => ⟨s1.store, s1.calls ++ [RepoCall.getDisplayById uv.view.displayId],
            s1.events ++ [Event.views_updated d], s1.faultOn⟩) := by
  rcases hd : findDisplay s1.store uv.view.displayId with _ | d
  · refine Eq.trans (M.run_bind_ok _ _ _ _ _ (run_ignoreFailure_err
      (M.run_bind_err _ _ _ _ _ (run_getDisplayById_none hfault hd)))) ?_
    simp [M.run_pure]
  · have hin : (DisplayService.getDisplayById uv.view.displayId >>= fun display =>
        DisplayService.emit (Event.views_updated display)).run s1 =
        (Except.ok (), ⟨s1.store, s1.calls ++ [RepoCall.getDisplayById uv.view.displayId],
          s1.events ++ [Event.views_updated d], s1.faultOn⟩) := by
      simp only [DisplayService.getDisplayById]
      rw [M.run_bind_ok _ _ _ _ _ (run_getDisplayById_some hfault hd)]
      rw [run_emit]
    refine Eq.trans (M.run_bind_ok _ _ _ _ _ (run_ignoreFailure_ok hin)) ?_
    simp [M.run_pure]

theorem run_updateView_ok {s : St} {vid : Nat} {v : View}
    (hfault : s.faultOn = []) (hv : findView s.store vid = some v)
    (name : String) (columns rows : Nat) (ds : List SlotDescriptor)
    (hids : ∀ i ∈ ds.filterMap (fun d => d.id?), (findSlot s.store i).isSome) :
    ∃ (sl : List EnrichedSlot) (s4 : St),
      (DisplayService.updateView vid name columns rows ds).run s =
        (Except.ok ⟨⟨vid, name, columns, rows, v.displayId, v.order, v.screenType⟩, sl⟩, s4) ∧
      s4.store.views = s.store.views.map (fun w =>
        if w.id = vid then ⟨vid, name, columns, rows, v.displayId, v.order, v.screenType⟩ else w) ∧
      s4.store.displays = s.store.displays ∧
      (findDisplay s.store v.displayId = none → s4.events = s.events) ∧
      (∀ d, findDisplay s.store v.displayId = some d →
        s4.events = s.events ++ [Event.views_updated d]) := by
  have hvid : v.id = vid := findView_some_id hv
  subst hvid
  have hfind3 : findView (reconcilePure v.id ds { s.store with
      views := s.store.views.map (fun w =>
        if w.id = v.id then ⟨v.id, name, columns, rows, v.displayId, v.order, v.screenType⟩
        else w) }) v.id =
      some ⟨v.id, name, columns, rows, v.displayId, v.order, v.screenType⟩ := by
    show (reconcilePure v.id ds _).views.find? (fun w => w.id = v.id) = _
    rw [reconcilePure_views_frame]
    exact findView_map_update hv
      ⟨v.id, name, columns, rows, v.displayId, v.order, v.screenType⟩ rfl
  have hmain : (DisplayService.updateView v.id name columns rows ds).run s =
      (Except.ok ⟨⟨v.id, name, columns, rows, v.displayId, v.order, v.screenType⟩,
        (slotsForView (reconcilePure v.id ds { s.store with
            views := s.store.views.map (fun w =>
              if w.id = v.id then ⟨v.id, name, columns, rows, v.displayId, v.order, v.screenType⟩
              else w) }) v.id).map (fun c =>
          ⟨c, optionMap (reconcilePure v.id ds { s.store with
            views := s.store.views.map (fun w =>
              if w.id = v.id then ⟨v.id, name, columns, rows, v.displayId, v.order, v.screenType⟩
              else w) }) c.id⟩)⟩,
        match findDisplay s.store v.displayId with
        | none =>
            ⟨reconcilePure v.id ds { s.store with
                views := s.store.views.map (fun w =>
                  if w.id = v.id then ⟨v.id, name, columns, rows, v.displayId, v.order, v.screenType⟩
                  else w) },
              s.calls ++ RepoCall.getViewById v.id ::
                RepoCall.updateView v.id name columns rows v.displayId v.order v.screenType ::
                (reconcileTrace v.id ds { s.store with
                  views := s.store.views.map (fun w =>
                    if w.id = v.id then ⟨v.id, name, columns, rows, v.displayId, v.order, v.screenType⟩
                    else w) } ++
                RepoCall.getViewById v.id :: RepoCall.getContentSlotsByViewId v.id ::
                ((slotsForView (reconcilePure v.id ds { s.store with
                    views := s.store.views.map (fun w =>
                      if w.id = v.id then ⟨v.id, name, columns, rows, v.displayId, v.order, v.screenType⟩
                      else w) }) v.id).map
                  (fun c => RepoCall.getOptionsForContentSlot c.id) ++
                  [RepoCall.getDisplayById v.displayId])),
              s.events, s.faultOn⟩
        | some d =>
            ⟨reconcilePure v.id ds { s.store with
                views := s.store.views.map (fun w =>
                  if w.id = v.id then ⟨v.id, name, columns, rows, v.displayId, v.order, v.screenType⟩
                  else w) },
              s.calls ++ RepoCall.getViewById v.id ::
                RepoCall.updateView v.id name columns rows v.displayId v.order v.screenType ::
                (reconcileTrace v.id ds { s.store with
                  views := s.store.views.map (fun w =>
                    if w.id = v.id then ⟨v.id, name, columns, rows, v.displayId, v.order, v.screenType⟩
                    else w) } ++
                RepoCall.getViewById v.id :: RepoCall.getContentSlotsByViewId v.id ::
                ((slotsForView (reconcilePure v.id ds { s.store with
                    views := s.store.views.map (fun w =>
                      if w.id = v.id then ⟨v.id, name, columns, rows, v.displayId, v.order, v.screenType⟩
                      else w) }) v.id).map
                  (fun c => RepoCall.getOptionsForContentSlot c.id) ++
                  [RepoCall.getDisplayById v.displayId])),
              s.events ++ [Event.views_updated d], s.faultOn⟩) := by
    simp only [DisplayService.updateView]
    rw [M.run_bind_ok _ _ _ _ _ (run_getViewById_some hfault hv)]
    rw [M.run_bind_ok _ _ _ _ _ (run_updateViewRepo_some
      (s := ⟨s.store, s.calls ++ [RepoCall.getViewById v.id], s.events, s.faultOn⟩)
      hfault hv name columns rows v.displayId v.order v.screenType)]
    rw [M.run_bind_ok _ _ _ _ _ (run_updateContentSlotsForView v.id ds
      ⟨{ s.store with views := s.store.views.map (fun w =>
          if w.id = v.id then ⟨v.id, name, columns, rows, v.displayId, v.order, v.screenType⟩
          else w) },
        (s.calls ++ [RepoCall.getViewById v.id]) ++
          [RepoCall.updateView v.id name columns rows v.displayId v.order v.screenType],
        s.events, s.faultOn⟩ hfault hids)]
    rw [M.run_bind_ok _ _ _ _ _ (run_getView_some
      (s := ⟨reconcilePure v.id ds { s.store with
          views := s.store.views.map (fun w =>
            if w.id = v.id then ⟨v.id, name, columns, rows, v.displayId, v.order, v.screenType⟩
            else w) },
        ((s.calls ++ [RepoCall.getViewById v.id]) ++
          [RepoCall.updateView v.id name columns rows v.displayId v.order v.screenType]) ++
          reconcileTrace v.id ds { s.store with
            views := s.store.views.map (fun w =>
              if w.id = v.id then ⟨v.id, name, columns, rows, v.displayId, v.order, v.screenType⟩
              else w) },
        s.events, s.faultOn⟩)
      hfault hfind3)]
    refine Eq.trans (run_notifyTail
      ⟨⟨v.id, name, columns, rows, v.displayId, v.order, v.screenType⟩,
        (slotsForView (reconcilePure v.id ds { s.store with
            views := s.store.views.map (fun w =>
              if w.id = v.id then ⟨v.id, name, columns, rows, v.displayId, v.order, v.screenType⟩
              else w) }) v.id).map (fun c =>
          ⟨c, optionMap (reconcilePure v.id ds { s.store with
            views := s.store.views.map (fun w =>
              if w.id = v.id then ⟨v.id, name, columns, rows, v.displayId, v.order, v.screenType⟩
              else w) }) c.id⟩)⟩
      ⟨reconcilePure v.id ds { s.store with
          views := s.store.views.map (fun w =>
            if w.id = v.id then ⟨v.id, name, columns, rows, v.displayId, v.order, v.screenType⟩
            else w) },
        (((s.calls ++ [RepoCall.getViewById v.id]) ++
          [RepoCall.updateView v.id name columns rows v.displayId v.order v.screenType]) ++
          reconcileTrace v.id ds { s.store with
            views := s.store.views.map (fun w =>
              if w.id = v.id then ⟨v.id, name, columns, rows, v.displayId, v.order, v.screenType⟩
              else w) }) ++
          RepoCall.getViewById v.id :: RepoCall.getContentSlotsByViewId v.id ::
          (slotsForView (reconcilePure v.id ds { s.store with
              views := s.store.views.map (fun w =>
                if w.id = v.id then ⟨v.id, name, columns, rows, v.displayId, v.order, v.screenType⟩
                else w) }) v.id).map (fun c => RepoCall.getOptionsForContentSlot c.id),
        s.events, s.faultOn⟩ hfault) ?_
    have hdisc : findDisplay (reconcilePure v.id ds { s.store with
        views := s.store.views.map (fun w =>
          if w.id = v.id then ⟨v.id, name, columns, rows, v.displayId, v.order, v.screenType⟩
          else w) }) v.displayId = findDisplay s.store v.displayId := by
      show (reconcilePure v.id ds _).displays.find? (fun x => x.id = v.displayId) = _
      rw [reconcilePure_displays_frame]
      rfl
    rw [hdisc]
    rcases findDisplay s.store v.displayId with _ | d <;> simp
  rcases hcase : findDisplay s.store v.displayId with _ | d
  · rw [hcase] at hmain
    refine ⟨_, _, hmain, ?_, ?_, fun _ => rfl, ?_⟩
    · show (reconcilePure v.id ds _).views = _
      rw [reconcilePure_views_frame]
    · show (reconcilePure v.id ds _).displays = _
      rw [reconcilePure_displays_frame]
    · intro d hd
      simp at hd
  · rw [hcase] at hmain
    refine ⟨_, _, hmain, ?_, ?_, ?_, ?_⟩
    · show (reconcilePure v.id ds _).views = _
      rw [reconcilePure_views_frame]
    · show (reconcilePure v.id ds _).displays = _
      rw [reconcilePure_displays_frame]
    · intro hd
      simp at hd
    · intro d2 hd2
      have : d = d2 := by simpa using hd2
      subst this
      rfl

/-- Counterexample to claim C7 as stated: deleteView resolves the owning
Display BEFORE the mutation (source line 155), and that resolution sits
outside the catch (lines 159-162).  On a view whose displayId dangles, the
call rejects with NotFound, the view is NOT deleted (the mutation never ran)
and nothing is emitted — refuting both "the mutation is completed first" and
"the caller's operation is still reported as successful" for deleteView. -/
theorem c7_counterexample :
    ((DisplayService.deleteView 1).run
        ⟨⟨[], [⟨1, "v", 1, 1, 9, 1, "main"⟩], [], [], 1, 2, 1⟩, [], [], []⟩).1 =
      Except.error Err.notFound ∧
    ((DisplayService.deleteView 1).run
        ⟨⟨[], [⟨1, "v", 1, 1, 9, 1, "main"⟩], [], [], 1, 2, 1⟩, [], [], []⟩).2.store.views =
      [⟨1, "v", 1, 1, 9, 1, "main"⟩] ∧
    ((DisplayService.deleteView 1).run
        ⟨⟨[], [⟨1, "v", 1, 1, 9, 1, "main"⟩], [], [], 1, 2, 1⟩, [], [], []⟩).2.events = [] := by
  refine ⟨rfl, rfl, rfl⟩

/-- Claim C7 (amended): updateView completes the mutation first — the view
row is rewritten and the slots reconciled — and only then resolves the owning
Display and emits one views_updated notification best-effort: when the
Display lookup fails the error is swallowed, nothing is emitted, and the
caller still receives the updated view record with the mutation persisted
(Scenario D).  deleteView, by contrast, resolves the owning Display BEFORE
the mutation: when the Display exists the view is deleted and one
views_updated is emitted afterwards, but when the Display lookup fails the
call rejects with NotFound and the view is not deleted. -/
theorem c7_notification_decoupling
    (s : St) (vid : Nat) (v : View) (name : String) (columns rows : Nat)
    (ds : List SlotDescriptor)
    (hfault : s.faultOn = []) (hv : findView s.store vid = some v)
    (hids : ∀ i ∈ ds.filterMap (fun d => d.id?), (findSlot s.store i).isSome) :
    (findDisplay s.store v.displayId = none →
      ∃ sl s4,
        (DisplayService.updateView vid name columns rows ds).run s =
          (Except.ok ⟨⟨vid, name, columns, rows, v.displayId, v.order, v.screenType⟩, sl⟩, s4) ∧
        s4.store.views = s.store.views.map (fun w =>
          if w.id = vid then ⟨vid, name, columns, rows, v.displayId, v.order, v.screenType⟩
          else w) ∧
        s4.events = s.events) ∧
    (∀ d, findDisplay s.store v.displayId = some d →
      ∃ sl s4,
        (DisplayService.updateView vid name columns rows ds).run s =
          (Except.ok ⟨⟨vid, name, columns, rows, v.displayId, v.order, v.screenType⟩, sl⟩, s4) ∧
        s4.events = s.events ++ [Event.views_updated d]) ∧
    (∀ d, findDisplay s.store v.displayId = some d →
      ∃ s4,
        (DisplayService.deleteView vid).run s = (Except.ok (), s4) ∧
        s4.store.views = s.store.views.filter (fun w => ¬ w.id = vid) ∧
        s4.events = s.events ++ [Event.views_updated d]) ∧
    (findDisplay s.store v.displayId = none →
      ∃ s4,
        (DisplayService.deleteView vid).run s = (Except.error Err.notFound, s4) ∧
        s4.store = s.store ∧ s4.events = s.events) := by
  obtain ⟨sl, s4, hrun, hviews, hdisp, hnone, hsome⟩ :=
    run_updateView_ok hfault hv name columns rows ds hids
  refine ⟨?_, ?_, ?_, ?_⟩
  · intro hd
    exact ⟨sl, s4, hrun, hviews, hnone hd⟩
  · intro d hd
    exact ⟨sl, s4, hrun, hsome d hd⟩
  · intro d hd
    exact ⟨_, run_deleteView_display_some hfault hv hd, rfl, rfl⟩
  · intro hd
    exact ⟨_, run_deleteView_display_none hfault hv hd, rfl, rfl⟩

/-- Witness for the amended C7 at a store holding display 7 and its view 1:
since the Display is present, updateView emits exactly one views_updated
after the mutation and deleteView deletes the view then emits exactly one
views_updated; the absent-Display implications are instantiated vacuously
(the concrete dangling case is exercised by the deleteView rejection above). -/
theorem c7_notification_decoupling_witness :
    (findDisplay ⟨[⟨7, "d", true, "c", "", ""⟩], [⟨1, "v", 2, 2, 7, 1, "main"⟩],
        [], [], 8, 2, 1⟩ 7 = none →
      ∃ sl s4,
        (DisplayService.updateView 1 "nn" 3 4 []).run
          ⟨⟨[⟨7, "d", true, "c", "", ""⟩], [⟨1, "v", 2, 2, 7, 1, "main"⟩],
            [], [], 8, 2, 1⟩, [], [], []⟩ =
          (Except.ok ⟨⟨1, "nn", 3, 4, 7, 1, "main"⟩, sl⟩, s4) ∧
        s4.store.views = ([⟨1, "v", 2, 2, 7, 1, "main"⟩] : List View).map (fun w =>
          if w.id = 1 then ⟨1, "nn", 3, 4, 7, 1, "main"⟩ else w) ∧
        s4.events = []) ∧
    (∀ d, findDisplay ⟨[⟨7, "d", true, "c", "", ""⟩], [⟨1, "v", 2, 2, 7, 1, "main"⟩],
        [], [], 8, 2, 1⟩ 7 = some d →
      ∃ sl s4,
        (DisplayService.updateView 1 "nn" 3 4 []).run
          ⟨⟨[⟨7, "d", true, "c", "", ""⟩], [⟨1, "v", 2, 2, 7, 1, "main"⟩],
            [], [], 8, 2, 1⟩, [], [], []⟩ =
          (Except.ok ⟨⟨1, "nn", 3, 4, 7, 1, "main"⟩, sl⟩, s4) ∧
        s4.events = [] ++ [Event.views_updated d]) ∧
    (∀ d, findDisplay ⟨[⟨7, "d", true, "c", "", ""⟩], [⟨1, "v", 2, 2, 7, 1, "main"⟩],
        [], [], 8, 2, 1⟩ 7 = some d →
      ∃ s4,
        (DisplayService.deleteView 1).run
          ⟨⟨[⟨7, "d", true, "c", "", ""⟩], [⟨1, "v", 2, 2, 7, 1, "main"⟩],
            [], [], 8, 2, 1⟩, [], [], []⟩ = (Except.ok (), s4) ∧
        s4.store.views = ([⟨1, "v", 2, 2, 7, 1, "main"⟩] : List View).filter
          (fun w => ¬ w.id = 1) ∧
        s4.events = [] ++ [Event.views_updated d]) ∧
    (findDisplay ⟨[⟨7, "d", true, "c", "", ""⟩], [⟨1, "v", 2, 2, 7, 1, "main"⟩],
        [], [], 8, 2, 1⟩ 7 = none →
      ∃ s4,
        (DisplayService.deleteView 1).run
          ⟨⟨[⟨7, "d", true, "c", "", ""⟩], [⟨1, "v", 2, 2, 7, 1, "main"⟩],
            [], [], 8, 2, 1⟩, [], [], []⟩ = (Except.error Err.notFound, s4) ∧
        s4.store = ⟨[⟨7, "d", true, "c", "", ""⟩], [⟨1, "v", 2, 2, 7, 1, "main"⟩],
          [], [], 8, 2, 1⟩ ∧
        s4.events = []) :=
  c7_notification_decoupling
    ⟨⟨[⟨7, "d", true, "c", "", ""⟩], [⟨1, "v", 2, 2, 7, 1, "main"⟩], [], [], 8, 2, 1⟩,
      [], [], []⟩
    1 ⟨1, "v", 2, 2, 7, 1, "main"⟩ "nn" 3 4 [] rfl rfl (by simp)

/-- SuppliesViewId vid c: if c writes a content-slot row (create or update),
the viewId it stores is vid. -/
def SuppliesViewId (vid : Nat) : RepoCall → Prop
  | RepoCall.createContentSlot _ w _ _ _ _ => w = vid
  | RepoCall.updateContentSlot _ _ w _ _ _ _ => w = vid
  | _ => True

theorem supplies_of_mem_delAbsentTrace {vid i : Nat} {de : List (String × String)}
    {keys : List String} {c : RepoCall} (hc : c ∈ delAbsentTrace i de keys) :
    SuppliesViewId vid c := by
  simp only [delAbsentTrace, List.mem_map] at hc
  obtain ⟨k, hk, h⟩ := hc
  subst h
  simp [SuppliesViewId]

theorem supplies_of_mem_upsertTrace {vid i : Nat} {exKeys : List String}
    {de : List (String × String)} {c : RepoCall} (hc : c ∈ upsertTrace i exKeys de) :
    SuppliesViewId vid c := by
  simp only [upsertTrace, List.mem_map] at hc
  obtain ⟨kv, hkv, h⟩ := hc
  by_cases hb : exKeys.contains kv.1 = true
  · rw [if_pos hb] at h
    subst h
    simp [SuppliesViewId]
  · rw [if_neg hb] at h
    subst h
    simp [SuppliesViewId]

theorem supplies_of_mem_setOptionsTrace {vid : Nat} {i : Nat}
    {de : List (String × String)} {st : Storage} {c : RepoCall}
    (hc : c ∈ setOptionsTrace i de st) : SuppliesViewId vid c := by
  simp only [setOptionsTrace] at hc
  rcases List.mem_cons.mp hc with h | hrest
  · subst h; simp [SuppliesViewId]
  · rcases List.mem_append.mp hrest with h2 | h2
    · rcases List.mem_append.mp h2 with h3 | h3
      · exact supplies_of_mem_delAbsentTrace h3
      · exact supplies_of_mem_upsertTrace h3
    · have h3 := List.mem_singleton.mp h2
      subst h3
      simp [SuppliesViewId]

theorem supplies_of_mem_removeTrace {vid : Nat} {ids : List Nat} {c : RepoCall}
    (hc : c ∈ removeTrace ids) : SuppliesViewId vid c := by
  simp only [removeTrace, List.mem_flatMap, List.mem_cons, List.mem_singleton] at hc
  obtain ⟨i, hi, h⟩ := hc
  rcases h with h | h | h
  · subst h; simp [SuppliesViewId]
  · subst h; simp [SuppliesViewId]
  · simp at h

theorem supplies_of_mem_slotLoopTrace (vid : Nat) : ∀ (ds : List SlotDescriptor) (st : Storage)
    {c : RepoCall}, c ∈ slotLoopTrace vid ds st → SuppliesViewId vid c := by
  intro ds
  induction ds with
  | nil => intro st c hc; simp [slotLoopTrace] at hc
  | cons d rest ih =>
      intro st c hc
      rcases hd : d.id? with _ | cid
      · rw [show slotLoopTrace vid (d :: rest) st =
            RepoCall.createContentSlot d.componentType vid d.columnStart d.rowStart
                d.columnEnd d.rowEnd ::
              (setOptionsTrace st.nextSlotId (d.options.getD [])
                (createSlotPure d.componentType vid d.columnStart d.rowStart
                  d.columnEnd d.rowEnd st) ++
                slotLoopTrace vid rest (applyDescriptorPure vid st d)) by
            simp [slotLoopTrace, hd]] at hc
        rcases List.mem_cons.mp hc with h | h
        · subst h; simp [SuppliesViewId]
        · rcases List.mem_append.mp h with h2 | h2
          · exact supplies_of_mem_setOptionsTrace h2
          · exact ih _ h2
      · rw [show slotLoopTrace vid (d :: rest) st =
            RepoCall.getContentSlot cid ::
              RepoCall.updateContentSlot cid d.componentType vid d.columnStart d.rowStart
                d.columnEnd d.rowEnd ::
              (setOptionsTrace cid (d.options.getD [])
                (updateSlotPure cid d.componentType vid d.columnStart d.rowStart
                  d.columnEnd d.rowEnd st) ++
                slotLoopTrace vid rest (applyDescriptorPure vid st d)) by
            simp [slotLoopTrace, hd]] at hc
        rcases List.mem_cons.mp hc with h | h
        · subst h; simp [SuppliesViewId]
        · rcases List.mem_cons.mp h with h2 | h2
          · subst h2; simp [SuppliesViewId]
          · rcases List.mem_append.mp h2 with h3 | h3
            · exact supplies_of_mem_setOptionsTrace h3
            · exact ih _ h3

theorem supplies_of_mem_reconcileTrace {vid : Nat} {ds : List SlotDescriptor}
    {st : Storage} {c : RepoCall} (hc : c ∈ reconcileTrace vid ds st) :
    SuppliesViewId vid c := by
  simp only [reconcileTrace, List.mem_cons, List.mem_append] at hc
  rcases hc with h | h | h
  · subst h; simp [SuppliesViewId]
  · exact supplies_of_mem_removeTrace h
  · exact supplies_of_mem_slotLoopTrace vid ds _ h

theorem submittedIds_viewIdIrrel (f : SlotDescriptor → Option Nat) (ds : List SlotDescriptor) :
    submittedIds (ds.map (fun d => { d with viewId? := f d })) = submittedIds ds := by
  rw [submittedIds_eq, submittedIds_eq, List.filterMap_map]
  rfl

theorem slotLoop_viewIdIrrel (vid : Nat) (f : SlotDescriptor → Option Nat) :
    ∀ ds : List SlotDescriptor,
    DisplayService.slotLoop vid (ds.map (fun d => { d with viewId? := f d })) =
      DisplayService.slotLoop vid ds := by
  intro ds
  induction ds with
  | nil => rfl
  | cons d rest ih =>
      show DisplayService.slotLoop vid ({ d with viewId? := f d } :: rest.map _) = _
      rcases hd : d.id? with _ | cid <;>
        simp only [DisplayService.slotLoop,
          show ({ d with viewId? := f d }).id? = d.id? from rfl, hd] <;>
        rw [ih]

theorem updateContentSlotsForView_viewIdIrrel (vid : Nat) (f : SlotDescriptor → Option Nat)
    (ds : List SlotDescriptor) :
    DisplayService.updateContentSlotsForView vid (ds.map (fun d => { d with viewId? := f d })) =
      DisplayService.updateContentSlotsForView vid ds := by
  simp only [DisplayService.updateContentSlotsForView]
  rw [submittedIds_viewIdIrrel, slotLoop_viewIdIrrel]

/-- Claim C6: updateView never changes the view's displayId, position (order)
or screenType — these are re-read from the view's own persisted record v and
the caller controls only name/columns/rows, as the row written and returned is
⟨vid, name, columns, rows, v.displayId, v.order, v.screenType⟩; and the slot
reconciler never re-parents a slot: the submitted descriptors' own view field
is never read (replacing it arbitrarily leaves the function unchanged), and
every create/update of a slot row in the issued repository calls stores the
reconciler's own view argument. -/
theorem c6_update_view_frame
    (s : St) (vid : Nat) (v : View) (name : String) (columns rows : Nat)
    (ds : List SlotDescriptor) (f : SlotDescriptor → Option Nat)
    (hfault : s.faultOn = []) (hv : findView s.store vid = some v)
    (hids : ∀ i ∈ ds.filterMap (fun d => d.id?), (findSlot s.store i).isSome) :
    (∃ sl s4,
      (DisplayService.updateView vid name columns rows ds).run s =
        (Except.ok ⟨⟨vid, name, columns, rows, v.displayId, v.order, v.screenType⟩, sl⟩, s4) ∧
      s4.store.views = s.store.views.map (fun w =>
        if w.id = vid then ⟨vid, name, columns, rows, v.displayId, v.order, v.screenType⟩
        else w)) ∧
    (DisplayService.updateContentSlotsForView vid (ds.map (fun d => { d with viewId? := f d })) =
      DisplayService.updateContentSlotsForView vid ds) ∧
    (∃ s3,
      (DisplayService.updateContentSlotsForView vid ds).run s = (Except.ok (), s3) ∧
      s3.calls = s.calls ++ reconcileTrace vid ds s.store ∧
      ∀ c ∈ reconcileTrace vid ds s.store, SuppliesViewId vid c) := by
  obtain ⟨sl, s4, hrun, hviews, hdisp, hnone, hsome⟩ :=
    run_updateView_ok hfault hv name columns rows ds hids
  refine ⟨⟨sl, s4, hrun, hviews⟩, updateContentSlotsForView_viewIdIrrel vid f ds, ?_⟩
  exact ⟨_, run_updateContentSlotsForView vid ds s hfault hids, rfl,
    fun c hc => supplies_of_mem_reconcileTrace hc⟩

/-- Witness for C6: a store holding display 7, its view 1 and a persisted
slot 1; the desired list resubmits slot 1 with a foreign viewId value, which
is ignored: the update call issued stores viewId 1, and replacing the
descriptor's view field changes nothing. -/
theorem c6_update_view_frame_witness :
    (∃ sl s4,
      (DisplayService.updateView 1 "nn" 3 4
          [⟨some 1, "clock", some 99, 0, 0, 1, 1, some [("a", "1")]⟩]).run
        ⟨⟨[⟨7, "d", true, "c", "", ""⟩], [⟨1, "v", 2, 2, 7, 1, "main"⟩],
          [⟨1, "clock", 1, 0, 0, 1, 1⟩], [], 8, 2, 2⟩, [], [], []⟩ =
        (Except.ok ⟨⟨1, "nn", 3, 4, 7, 1, "main"⟩, sl⟩, s4) ∧
      s4.store.views = ([⟨1, "v", 2, 2, 7, 1, "main"⟩] : List View).map (fun w =>
        if w.id = 1 then ⟨1, "nn", 3, 4, 7, 1, "main"⟩ else w)) ∧
    (DisplayService.updateContentSlotsForView 1
        (([⟨some 1, "clock", some 99, 0, 0, 1, 1, some [("a", "1")]⟩] :
          List SlotDescriptor).map (fun d => { d with viewId? := (fun _ => some 42) d })) =
      DisplayService.updateContentSlotsForView 1
        [⟨some 1, "clock", some 99, 0, 0, 1, 1, some [("a", "1")]⟩]) ∧
    (∃ s3,
      (DisplayService.updateContentSlotsForView 1
          [⟨some 1, "clock", some 99, 0, 0, 1, 1, some [("a", "1")]⟩]).run
        ⟨⟨[⟨7, "d", true, "c", "", ""⟩], [⟨1, "v", 2, 2, 7, 1, "main"⟩],
          [⟨1, "clock", 1, 0, 0, 1, 1⟩], [], 8, 2, 2⟩, [], [], []⟩ = (Except.ok (), s3) ∧
      s3.calls = [] ++ reconcileTrace 1
        [⟨some 1, "clock", some 99, 0, 0, 1, 1, some [("a", "1")]⟩]
        ⟨[⟨7, "d", true, "c", "", ""⟩], [⟨1, "v", 2, 2, 7, 1, "main"⟩],
          [⟨1, "clock", 1, 0, 0, 1, 1⟩], [], 8, 2, 2⟩ ∧
      ∀ c ∈ reconcileTrace 1
        [⟨some 1, "clock", some 99, 0, 0, 1, 1, some [("a", "1")]⟩]
        ⟨[⟨7, "d", true, "c", "", ""⟩], [⟨1, "v", 2, 2, 7, 1, "main"⟩],
          [⟨1, "clock", 1, 0, 0, 1, 1⟩], [], 8, 2, 2⟩, SuppliesViewId 1 c) :=
  c6_update_view_frame
    ⟨⟨[⟨7, "d", true, "c", "", ""⟩], [⟨1, "v", 2, 2, 7, 1, "main"⟩],
      [⟨1, "clock", 1, 0, 0, 1, 1⟩], [], 8, 2, 2⟩, [], [], []⟩
    1 ⟨1, "v", 2, 2, 7, 1, "main"⟩ "nn" 3 4
    [⟨some 1, "clock", some 99, 0, 0, 1, 1, some [("a", "1")]⟩]
    (fun _ => some 42) rfl rfl (by decide)

/-- OptionsBeforeSlot l r: every occurrence of deleteContentSlot r in the call
list l is strictly preceded by a deleteOptionsForContentSlot r. -/
def OptionsBeforeSlot (l : List RepoCall) (r : Nat) : Prop :=
  ∀ j, l.get? j = some (RepoCall.deleteContentSlot r) →
    ∃ i, i < j ∧ l.get? i = some (RepoCall.deleteOptionsForContentSlot r)

theorem noDelSlot_of_mem_delAbsentTrace {i : Nat} {de : List (String × String)}
    {keys : List String} {c : RepoCall} (hc : c ∈ delAbsentTrace i de keys) (r : Nat) :
    c ≠ RepoCall.deleteContentSlot r := by
  simp only [delAbsentTrace, List.mem_map] at hc
  obtain ⟨k, hk, h⟩ := hc
  subst h
  simp

theorem noDelSlot_of_mem_upsertTrace {i : Nat} {exKeys : List String}
    {de : List (String × String)} {c : RepoCall} (hc : c ∈ upsertTrace i exKeys de) (r : Nat) :
    c ≠ RepoCall.deleteContentSlot r := by
  simp only [upsertTrace, List.mem_map] at hc
  obtain ⟨kv, hkv, h⟩ := hc
  by_cases hb : exKeys.contains kv.1 = true
  · rw [if_pos hb] at h; subst h; simp
  · rw [if_neg hb] at h; subst h; simp

theorem noDelSlot_of_mem_setOptionsTrace {i : Nat} {de : List (String × String)}
    {st : Storage} {c : RepoCall} (hc : c ∈ setOptionsTrace i de st) (r : Nat) :
    c ≠ RepoCall.deleteContentSlot r := by
  simp only [setOptionsTrace] at hc
  rcases List.mem_cons.mp hc with h | hrest
  · subst h; simp
  · rcases List.mem_append.mp hrest with h2 | h2
    · rcases List.mem_append.mp h2 with h3 | h3
      · exact noDelSlot_of_mem_delAbsentTrace h3 r
      · exact noDelSlot_of_mem_upsertTrace h3 r
    · have h3 := List.mem_singleton.mp h2
      subst h3; simp

theorem noDelSlot_of_mem_slotLoopTrace (vid : Nat) : ∀ (ds : List SlotDescriptor) (st : Storage)
    {c : RepoCall}, c ∈ slotLoopTrace vid ds st → ∀ r : Nat,
    c ≠ RepoCall.deleteContentSlot r := by
  intro ds
  induction ds with
  | nil => intro st c hc r; simp [slotLoopTrace] at hc
  | cons d rest ih =>
      intro st c hc r
      rcases hd : d.id? with _ | cid
      · rw [show slotLoopTrace vid (d :: rest) st =
            RepoCall.createContentSlot d.componentType vid d.columnStart d.rowStart
                d.columnEnd d.rowEnd ::
              (setOptionsTrace st.nextSlotId (d.options.getD [])
                (createSlotPure d.componentType vid d.columnStart d.rowStart
                  d.columnEnd d.rowEnd st) ++
                slotLoopTrace vid rest (applyDescriptorPure vid st d)) by
            simp [slotLoopTrace, hd]] at hc
        rcases List.mem_cons.mp hc with h | h
        · subst h; simp
        · rcases List.mem_append.mp h with h2 | h2
          · exact noDelSlot_of_mem_setOptionsTrace h2 r
          · exact ih _ h2 r
      · rw [show slotLoopTrace vid (d :: rest) st =
            RepoCall.getContentSlot cid ::
              RepoCall.updateContentSlot cid d.componentType vid d.columnStart d.rowStart
                d.columnEnd d.rowEnd ::
              (setOptionsTrace cid (d.options.getD [])
                (updateSlotPure cid d.componentType vid d.columnStart d.rowStart
                  d.columnEnd d.rowEnd st) ++
                slotLoopTrace vid rest (applyDescriptorPure vid st d)) by
            simp [slotLoopTrace, hd]] at hc
        rcases List.mem_cons.mp hc with h | h
        · subst h; simp
        · rcases List.mem_cons.mp h with h2 | h2
          · subst h2; simp
          · rcases List.mem_append.mp h2 with h3 | h3
            · exact noDelSlot_of_mem_setOptionsTrace h3 r
            · exact ih _ h3 r

theorem optionsBeforeSlot_removeTrace (r : Nat) : ∀ ids : List Nat,
    OptionsBeforeSlot (removeTrace ids) r := by
  intro ids
  induction ids with
  | nil => intro j hj; simp [removeTrace] at hj
  | cons i rest ih =>
      have hshape : removeTrace (i :: rest) =
          RepoCall.deleteOptionsForContentSlot i :: RepoCall.deleteContentSlot i ::
            removeTrace rest := by simp [removeTrace]
      intro j hj
      rw [hshape] at hj
      rcases j with _ | _ | jj
      · simp at hj
      · have hir : i = r := by simpa using hj
        subst hir
        exact ⟨0, by omega, by rw [hshape]; rfl⟩
      · have hj2 : (removeTrace rest).get? jj = some (RepoCall.deleteContentSlot r) := hj
        obtain ⟨i0, hi0lt, hi0⟩ := ih jj hj2
        refine ⟨i0 + 2, by omega, ?_⟩
        rw [hshape]
        exact hi0

theorem optionsBeforeSlot_cons {l : List RepoCall} {r : Nat} {x : RepoCall}
    (hx : x ≠ RepoCall.deleteContentSlot r) (h : OptionsBeforeSlot l r) :
    OptionsBeforeSlot (x :: l) r := by
  intro j hj
  rcases j with _ | jj
  · exact absurd (by simpa using hj) hx
  · obtain ⟨i0, hlt, hi0⟩ := h jj hj
    exact ⟨i0 + 1, by omega, hi0⟩

theorem optionsBeforeSlot_append {A B : List RepoCall} {r : Nat}
    (hA : OptionsBeforeSlot A r)
    (hB : ∀ c ∈ B, c ≠ RepoCall.deleteContentSlot r) :
    OptionsBeforeSlot (A ++ B) r := by
  intro j hj
  by_cases hlt : j < A.length
  · rw [List.get?_append hlt] at hj
    obtain ⟨i0, hi0lt, hi0⟩ := hA j hj
    refine ⟨i0, hi0lt, ?_⟩
    rw [List.get?_append (by omega)]
    exact hi0
  · exfalso
    have hj2 : B.get? (j - A.length) = some (RepoCall.deleteContentSlot r) := by
      rw [List.get?_append_right (by omega)] at hj
      exact hj
    have hmem : RepoCall.deleteContentSlot r ∈ B := List.get?_mem hj2
    exact hB _ hmem rfl

theorem optionsBeforeSlot_reconcileTrace (vid : Nat) (ds : List SlotDescriptor)
    (st : Storage) (r : Nat) :
    OptionsBeforeSlot (reconcileTrace vid ds st) r := by
  show OptionsBeforeSlot (RepoCall.getContentSlotsByViewId vid ::
    (removeTrace (removedIds st vid ds) ++
      slotLoopTrace vid ds (removePure (removedIds st vid ds) st))) r
  refine optionsBeforeSlot_cons (by simp) ?_
  refine optionsBeforeSlot_append (optionsBeforeSlot_removeTrace r _) ?_
  intro c hc
  exact noDelSlot_of_mem_slotLoopTrace vid ds _ hc r

/-- Claim C5: for every slot the reconciler computes as removed, the deletion
of the slot's persisted options occurs strictly before the deletion of the
slot itself in the issued call sequence — never the reverse — and after the
reconciliation completes, zero persisted options remain attached to that
slot's former identity. -/
theorem c5_options_before_slot
    (s : St) (viewId : Nat) (ds : List SlotDescriptor) (r : Nat)
    (hwf : Storage.WF s.store) (hval : ValidDesired s.store ds)
    (hfault : s.faultOn = []) (hr : r ∈ removedIds s.store viewId ds) :
    ∃ s3,
      (DisplayService.updateContentSlotsForView viewId ds).run s = (Except.ok (), s3) ∧
      s3.calls = s.calls ++ reconcileTrace viewId ds s.store ∧
      RepoCall.deleteContentSlot r ∈ reconcileTrace viewId ds s.store ∧
      OptionsBeforeSlot (reconcileTrace viewId ds s.store) r ∧
      optionMap s3.store r = [] := by
  have hids : ∀ i ∈ ds.filterMap (fun d => d.id?), (findSlot s.store i).isSome :=
    fun i hi => findSlot_isSome_of_mem_ids (hval.2.1 i hi)
  refine ⟨_, run_updateContentSlotsForView viewId ds s hfault hids, rfl, ?_, ?_, ?_⟩
  · simp only [reconcileTrace, List.mem_cons, List.mem_append]
    right; left
    simp only [removeTrace, List.mem_flatMap]
    exact ⟨r, hr, by simp⟩
  · exact optionsBeforeSlot_reconcileTrace viewId ds s.store r
  · obtain ⟨targets, hlen, hnd, hmatch, hperm, hopt, hwf2, hviews2, hdisp2⟩ :=
      reconcilePure_spec viewId ds s.store hwf hval
    exact hopt r hr

/-- Witness for C5: view 7 owns slot 1 (with one persisted option color=red)
and the desired list is empty, so slot 1 is removed: the issued calls delete
its options strictly before the slot, and no option row of slot 1 survives. -/
theorem c5_options_before_slot_witness :
    ∃ s3,
      (DisplayService.updateContentSlotsForView 7 []).run
        ⟨⟨[], [], [⟨1, "weather", 7, 0, 0, 1, 1⟩], [⟨1, "color", "red"⟩], 1, 1, 2⟩,
          [], [], []⟩ = (Except.ok (), s3) ∧
      s3.calls = [] ++ reconcileTrace 7 []
        ⟨[], [], [⟨1, "weather", 7, 0, 0, 1, 1⟩], [⟨1, "color", "red"⟩], 1, 1, 2⟩ ∧
      RepoCall.deleteContentSlot 1 ∈ reconcileTrace 7 []
        ⟨[], [], [⟨1, "weather", 7, 0, 0, 1, 1⟩], [⟨1, "color", "red"⟩], 1, 1, 2⟩ ∧
      OptionsBeforeSlot (reconcileTrace 7 []
        ⟨[], [], [⟨1, "weather", 7, 0, 0, 1, 1⟩], [⟨1, "color", "red"⟩], 1, 1, 2⟩) 1 ∧
      optionMap s3.store 1 = [] :=
  c5_options_before_slot
    ⟨⟨[], [], [⟨1, "weather", 7, 0, 0, 1, 1⟩], [⟨1, "color", "red"⟩], 1, 1, 2⟩, [], [], []⟩
    7 [] 1 (by unfold Storage.WF; decide) (by unfold ValidDesired; decide) rfl (by decide)

theorem run_getContentSlot_none {s : St} {i : Nat}
    (h : s.faultOn = []) (hfind : findSlot s.store i = none) :
    (ContentSlotRepository.getContentSlot i).run s =
      (Except.error Err.notFound,
        ⟨s.store, s.calls ++ [RepoCall.getContentSlot i], s.events, s.faultOn⟩) := by
  rw [run_getContentSlot i s h, hfind]

theorem findSlot_createSlotPure_none {st : Storage} {i : Nat}
    (hmiss : findSlot st i = none) (hlt : i < st.nextSlotId)
    (ct : String) (vid cs rs ce re : Nat) :
    findSlot (createSlotPure ct vid cs rs ce re st) i = none := by
  have hm2 : st.slots.find? (fun c => c.id = i) = none := hmiss
  show (st.slots ++ [(⟨st.nextSlotId, ct, vid, cs, rs, ce, re⟩ : ContentSlot)]).find?
    (fun c => c.id = i) = none
  rw [List.find?_append, hm2]
  simp only [Option.none_or]
  rw [List.find?_eq_none]
  intro c hcmem hp
  have h1 : c = ⟨st.nextSlotId, ct, vid, cs, rs, ce, re⟩ := by simpa using hcmem
  subst h1
  have h2 : st.nextSlotId = i := by simpa using hp
  omega

theorem findSlot_updateSlotPure_none {st : Storage} {i cid : Nat}
    (hmiss : findSlot st i = none) (hne : ¬ i = cid)
    (ct : String) (vid cs rs ce re : Nat) :
    findSlot (updateSlotPure cid ct vid cs rs ce re st) i = none := by
  have hm2 := List.find?_eq_none.mp
    (show st.slots.find? (fun c => c.id = i) = none from hmiss)
  show (st.slots.map (fun c =>
      if c.id = cid then (⟨cid, ct, vid, cs, rs, ce, re⟩ : ContentSlot) else c)).find?
    (fun c => c.id = i) = none
  rw [List.find?_eq_none]
  intro x hx hp
  rw [List.mem_map] at hx
  obtain ⟨c, hcmem, hceq⟩ := hx
  have hxi : x.id = i := by simpa using hp
  by_cases hcc : c.id = cid
  · rw [if_pos hcc] at hceq
    subst hceq
    exact hne (by simpa using hxi.symm)
  · rw [if_neg hcc] at hceq
    subst hceq
    exact hm2 c hcmem (by simpa using hxi)

theorem findSlot_removePure_none {ids : List Nat} {st : Storage} {i : Nat}
    (hmiss : findSlot st i = none) : findSlot (removePure ids st) i = none := by
  have hm2 := List.find?_eq_none.mp
    (show st.slots.find? (fun c => c.id = i) = none from hmiss)
  show (removePure ids st).slots.find? (fun c => c.id = i) = none
  rw [removePure_slots, List.find?_eq_none]
  intro c hc hp
  exact hm2 c (List.mem_of_mem_filter hc) (by simpa using hp)

theorem run_slotLoop_fail (viewId : Nat) (dbad : SlotDescriptor) (ds2 : List SlotDescriptor)
    (i : Nat) (hbad : dbad.id? = some i) :
    ∀ (ds1 : List SlotDescriptor) (s : St), s.faultOn = [] →
    (∀ j ∈ ds1.filterMap (fun d => d.id?), (findSlot s.store j).isSome) →
    findSlot s.store i = none → i < s.store.nextSlotId →
    (DisplayService.slotLoop viewId (ds1 ++ dbad :: ds2)).run s =
      (Except.error Err.notFound,
        ⟨slotLoopPure viewId ds1 s.store,
          s.calls ++ (slotLoopTrace viewId ds1 s.store ++ [RepoCall.getContentSlot i]),
          s.events, s.faultOn⟩) := by
  intro ds1
  induction ds1 with
  | nil =>
      intro s h _ hmiss _
      simp only [List.nil_append, DisplayService.slotLoop, hbad]
      refine Eq.trans (M.run_bind_err _ _ _ _ _ (run_getContentSlot_none h hmiss)) ?_
      simp [slotLoopPure, slotLoopTrace]
  | cons d rest ih =>
      intro s h hids hmiss hlt
      rcases hd : d.id? with _ | cid
      · simp only [List.cons_append, DisplayService.slotLoop, hd]
        rw [M.run_bind_ok _ _ _ _ _ (run_createContentSlot d.componentType viewId
          d.columnStart d.rowStart d.columnEnd d.rowEnd s h)]
        rw [M.run_bind_ok _ _ _ _ _ (run_unawaited_ok _ _ _ _
          (run_setOptionsForContentSlot s.store.nextSlotId (d.options.getD []) _
            (by simpa using h)))]
        simp only [List.append_eq]
        rw [ih _ (by simpa using h) ?hid ?hmiss2 ?hlt2]
        case hid =>
          intro j hj
          have hmem : j ∈ (d :: rest).filterMap (fun d => d.id?) := by
            simp [List.filterMap_cons, hd, hj]
          have h0 := hids j hmem
          show (findSlot (setOptionsPure _ _ _) j).isSome
          rw [findSlot_setOptionsPure]
          rw [findSlot_createSlotPure_of_isSome _ _ _ _ _ _ _ _ h0]
          exact h0
        case hmiss2 =>
          show findSlot (setOptionsPure _ _ _) i = none
          rw [findSlot_setOptionsPure]
          exact findSlot_createSlotPure_none hmiss hlt _ _ _ _ _ _
        case hlt2 =>
          show i < (setOptionsPure _ _ _).nextSlotId
          rw [setOptionsPure_nextSlotId]
          show i < s.store.nextSlotId + 1
          omega
        have hpure : slotLoopPure viewId (d :: rest) s.store =
            slotLoopPure viewId rest (setOptionsPure s.store.nextSlotId (d.options.getD [])
              (createSlotPure d.componentType viewId d.columnStart d.rowStart
                d.columnEnd d.rowEnd s.store)) := by
          simp [slotLoopPure, applyDescriptorPure, hd]
        have htr : slotLoopTrace viewId (d :: rest) s.store =
            RepoCall.createContentSlot d.componentType viewId d.columnStart d.rowStart
                d.columnEnd d.rowEnd ::
              (setOptionsTrace s.store.nextSlotId (d.options.getD [])
                  (createSlotPure d.componentType viewId d.columnStart d.rowStart
                    d.columnEnd d.rowEnd s.store) ++
                slotLoopTrace viewId rest (setOptionsPure s.store.nextSlotId (d.options.getD [])
                  (createSlotPure d.componentType viewId d.columnStart d.rowStart
                    d.columnEnd d.rowEnd s.store))) := by
          simp [slotLoopTrace, applyDescriptorPure, hd]
        rw [hpure, htr]
        simp
      · have hcid : cid ∈ (d :: rest).filterMap (fun d => d.id?) := by
          simp [List.filterMap_cons, hd]
        obtain ⟨c, hc⟩ := Option.isSome_iff_exists.mp (hids cid hcid)
        have hcidEq : c.id = cid := findSlot_id hc
        have hne : ¬ i = cid := by
          intro hic
          subst hic
          rw [hmiss] at hc
          cases hc
        simp only [List.cons_append, DisplayService.slotLoop, hd]
        rw [M.run_bind_ok _ _ _ _ _ (show (ContentSlotRepository.getContentSlot cid).run s =
          (Except.ok c, ⟨s.store, s.calls ++ [RepoCall.getContentSlot cid], s.events, s.faultOn⟩) by
            rw [run_getContentSlot cid s h, hc])]
        rw [hcidEq]
        rw [M.run_bind_ok _ _ _ _ _ (run_updateContentSlot cid d.componentType viewId
          d.columnStart d.rowStart d.columnEnd d.rowEnd _ (by simpa using h))]
        rw [M.run_bind_ok _ _ _ _ _ (run_unawaited_ok _ _ _ _
          (run_setOptionsForContentSlot cid (d.options.getD []) _ (by simpa using h)))]
        simp only [List.append_eq]
        rw [ih _ (by simpa using h) ?hid2 ?hmiss3 ?hlt3]
        case hid2 =>
          intro j hj
          have hmem : j ∈ (d :: rest).filterMap (fun d => d.id?) := by
            simp [List.filterMap_cons, hd, hj]
          have h0 := hids j hmem
          show (findSlot (setOptionsPure _ _ (updateSlotPure _ _ _ _ _ _ _ _)) j).isSome
          rw [findSlot_setOptionsPure]
          exact findSlot_updateSlotPure_isSome _ _ _ _ _ _ _ _ _ h0
        case hmiss3 =>
          show findSlot (setOptionsPure _ _ (updateSlotPure _ _ _ _ _ _ _ _)) i = none
          rw [findSlot_setOptionsPure]
          exact findSlot_updateSlotPure_none hmiss hne _ _ _ _ _ _
        case hlt3 =>
          show i < (setOptionsPure _ _ _).nextSlotId
          rw [setOptionsPure_nextSlotId]
          exact hlt
        have hpure : slotLoopPure viewId (d :: rest) s.store =
            slotLoopPure viewId rest (setOptionsPure cid (d.options.getD [])
              (updateSlotPure cid d.componentType viewId d.columnStart d.rowStart
                d.columnEnd d.rowEnd s.store)) := by
          simp [slotLoopPure, applyDescriptorPure, hd]
        have htr : slotLoopTrace viewId (d :: rest) s.store =
            RepoCall.getContentSlot cid ::
              RepoCall.updateContentSlot cid d.componentType viewId d.columnStart d.rowStart
                  d.columnEnd d.rowEnd ::
                (setOptionsTrace cid (d.options.getD [])
                    (updateSlotPure cid d.componentType viewId d.columnStart d.rowStart
                      d.columnEnd d.rowEnd s.store) ++
                  slotLoopTrace viewId rest (setOptionsPure cid (d.options.getD [])
                    (updateSlotPure cid d.componentType viewId d.columnStart d.rowStart
                      d.columnEnd d.rowEnd s.store))) := by
          simp [slotLoopTrace, applyDescriptorPure, hd]
        rw [hpure, htr]
        simp

/-- Counterexample to claim C4 as stated: storage fails exactly the write of
option a=1, which is part of reconciling the first desired descriptor, yet the
call still processes the second descriptor afterwards (createContentSlot
"news" appears in the trace after the failed createOption) and completes
successfully — the option reconciliation is launched without await on line
211, so a failure inside it neither aborts the remaining steps nor propagates
to the caller, refuting "a failure at any step aborts all remaining steps"
and the error propagation for option-write steps. -/
theorem c4_counterexample :
    (DisplayService.updateContentSlotsForView 7
        [⟨none, "clock", none, 0, 0, 1, 1, some [("a", "1")]⟩,
         ⟨none, "news", none, 1, 0, 2, 1, none⟩]).run
      ⟨⟨[], [], [], [], 1, 1, 1⟩, [], [], [RepoCall.createOption 1 "a" "1"]⟩ =
      (Except.ok (),
        ⟨⟨[], [], [⟨1, "clock", 7, 0, 0, 1, 1⟩, ⟨2, "news", 7, 1, 0, 2, 1⟩], [], 1, 1, 3⟩,
          [RepoCall.getContentSlotsByViewId 7,
           RepoCall.createContentSlot "clock" 7 0 0 1 1,
           RepoCall.getOptionsForContentSlot 1,
           RepoCall.createOption 1 "a" "1",
           RepoCall.createContentSlot "news" 7 1 0 2 1,
           RepoCall.getOptionsForContentSlot 2,
           RepoCall.getOptionsForContentSlot 2], [],
          [RepoCall.createOption 1 "a" "1"]⟩) := rfl

/-- Claim C4 (amended): the steps execute strictly sequentially, and a failure
of an awaited step aborts the remaining steps with the error propagated to the
caller while every effect already applied stays persisted (no rollback): a
desired descriptor carrying an identity absent from storage makes the call
reject with NotFound after the removal phase and the earlier descriptors are
fully processed, the later ones not at all.  The abort guarantee does not
extend to the option-reconciliation sub-steps launched without await on lines
211 and 218, whose failures are swallowed — see the counterexample. -/
theorem c4_abort_no_rollback
    (s : St) (viewId : Nat) (ds1 : List SlotDescriptor) (dbad : SlotDescriptor)
    (ds2 : List SlotDescriptor) (i : Nat)
    (hbad : dbad.id? = some i) (hfault : s.faultOn = [])
    (hids1 : ∀ j ∈ ds1.filterMap (fun d => d.id?), (findSlot s.store j).isSome)
    (hmiss : findSlot s.store i = none) (hlt : i < s.store.nextSlotId) :
    (DisplayService.updateContentSlotsForView viewId (ds1 ++ dbad :: ds2)).run s =
      (Except.error Err.notFound,
        ⟨slotLoopPure viewId ds1
            (removePure (removedIds s.store viewId (ds1 ++ dbad :: ds2)) s.store),
          s.calls ++ (RepoCall.getContentSlotsByViewId viewId ::
            (removeTrace (removedIds s.store viewId (ds1 ++ dbad :: ds2)) ++
              (slotLoopTrace viewId ds1
                  (removePure (removedIds s.store viewId (ds1 ++ dbad :: ds2)) s.store) ++
                [RepoCall.getContentSlot i]))),
          s.events, s.faultOn⟩) := by
  simp only [DisplayService.updateContentSlotsForView]
  rw [M.run_bind_ok _ _ _ _ _ (run_getContentSlotsByViewId viewId s hfault)]
  rw [M.run_bind_ok _ _ _ _ _ (run_removeLoop _ _ (by simpa using hfault))]
  rw [run_slotLoop_fail viewId dbad ds2 i hbad ds1 _ (by simpa using hfault) ?hid ?hm ?hl]
  case hid =>
    intro j hj
    show (findSlot (removePure _ s.store) j).isSome
    apply findSlot_removePure_isSome _ _ _ ?hc (hids1 j hj)
    case hc =>
      have hsub : j ∈ submittedIds (ds1 ++ dbad :: ds2) := by
        rw [submittedIds_eq, List.filterMap_append]
        exact List.mem_append.mpr (Or.inl hj)
      by_contra hcon
      rw [Bool.not_eq_false, List.contains_iff_exists_mem_beq] at hcon
      obtain ⟨x, hxmem, hxeq⟩ := hcon
      have hxj : j = x := by simpa using hxeq
      subst hxj
      have hp := List.of_mem_filter hxmem
      simp at hp
      exact hp hsub
  case hm =>
    show findSlot (removePure _ s.store) i = none
    exact findSlot_removePure_none hmiss
  case hl =>
    show i < (removePure _ s.store).nextSlotId
    rw [removePure_nextSlotId]
    exact hlt
  have hrm : ((slotsForView s.store viewId).map (fun c => c.id)).filter
      (fun k => ¬ (submittedIds (ds1 ++ dbad :: ds2)).contains k) =
      removedIds s.store viewId (ds1 ++ dbad :: ds2) := rfl
  rw [hrm]
  simp

/-- Witness for the amended C4: view 7 holds slot 1; the desired list updates
slot 1, then references the absent identity 5, then would create a news slot.
The call rejects with NotFound after fully processing the slot-1 update; the
trace ends at getContentSlot 5 and the news descriptor is never processed. -/
theorem c4_abort_no_rollback_witness :
    (DisplayService.updateContentSlotsForView 7
        ([⟨some 1, "weather", none, 0, 0, 1, 1, some [("color", "blue")]⟩] ++
          ⟨some 5, "ghost", none, 0, 0, 1, 1, none⟩ ::
          [⟨none, "news", none, 1, 0, 2, 1, none⟩])).run
      ⟨⟨[], [], [⟨1, "weather", 7, 0, 0, 1, 1⟩], [], 1, 1, 6⟩, [], [], []⟩ =
      (Except.error Err.notFound,
        ⟨slotLoopPure 7 [⟨some 1, "weather", none, 0, 0, 1, 1, some [("color", "blue")]⟩]
            (removePure (removedIds ⟨[], [], [⟨1, "weather", 7, 0, 0, 1, 1⟩], [], 1, 1, 6⟩ 7
                ([⟨some 1, "weather", none, 0, 0, 1, 1, some [("color", "blue")]⟩] ++
                  ⟨some 5, "ghost", none, 0, 0, 1, 1, none⟩ ::
                  [⟨none, "news", none, 1, 0, 2, 1, none⟩]))
              ⟨[], [], [⟨1, "weather", 7, 0, 0, 1, 1⟩], [], 1, 1, 6⟩),
          [] ++ (RepoCall.getContentSlotsByViewId 7 ::
            (removeTrace (removedIds ⟨[], [], [⟨1, "weather", 7, 0, 0, 1, 1⟩], [], 1, 1, 6⟩ 7
                ([⟨some 1, "weather", none, 0, 0, 1, 1, some [("color", "blue")]⟩] ++
                  ⟨some 5, "ghost", none, 0, 0, 1, 1, none⟩ ::
                  [⟨none, "news", none, 1, 0, 2, 1, none⟩])) ++
              (slotLoopTrace 7 [⟨some 1, "weather", none, 0, 0, 1, 1, some [("color", "blue")]⟩]
                  (removePure (removedIds ⟨[], [], [⟨1, "weather", 7, 0, 0, 1, 1⟩], [], 1, 1, 6⟩ 7
                      ([⟨some 1, "weather", none, 0, 0, 1, 1, some [("color", "blue")]⟩] ++
                        ⟨some 5, "ghost", none, 0, 0, 1, 1, none⟩ ::
                        [⟨none, "news", none, 1, 0, 2, 1, none⟩]))
                    ⟨[], [], [⟨1, "weather", 7, 0, 0, 1, 1⟩], [], 1, 1, 6⟩) ++
                [RepoCall.getContentSlot 5]))),
          [], []⟩) :=
  c4_abort_no_rollback
    ⟨⟨[], [], [⟨1, "weather", 7, 0, 0, 1, 1⟩], [], 1, 1, 6⟩, [], [], []⟩
    7 [⟨some 1, "weather", none, 0, 0, 1, 1, some [("color", "blue")]⟩]
    ⟨some 5, "ghost", none, 0, 0, 1, 1, none⟩
    [⟨none, "news", none, 1, 0, 2, 1, none⟩] 5
    rfl rfl (by decide) (by decide) (by decide)

theorem lookup_isSome_of_mem_fst {l : List (String × String)} {k : String}
    (h : k ∈ l.map Prod.fst) : (l.lookup k).isSome := by
  rw [List.lookup_isSome_iff]
  obtain ⟨p, hp, hfst⟩ := List.mem_map.mp h
  exact ⟨p, hp, by simp [hfst]⟩

theorem mem_fst_of_lookup_isSome {l : List (String × String)} {k : String}
    (h : (l.lookup k).isSome) : k ∈ l.map Prod.fst := by
  rw [List.lookup_isSome_iff] at h
  obtain ⟨p, hp, heq⟩ := h
  have hk : k = p.1 := by simpa using heq
  exact List.mem_map.mpr ⟨p, hp, hk.symm⟩

theorem lookup_eq_of_mem_nodup : ∀ {de : List (String × String)} {k v : String},
    (de.map Prod.fst).Nodup → (k, v) ∈ de → de.lookup k = some v := by
  intro de
  induction de with
  | nil => intro k v _ h; cases h
  | cons p rest ih =>
      intro k v hnd hmem
      obtain ⟨k1, v1⟩ := p
      rw [List.map_cons, List.nodup_cons] at hnd
      rcases List.mem_cons.mp hmem with heq | hmem2
      · injection heq with h1 h2
        subst h1
        subst h2
        exact List.lookup_cons_self
      · by_cases hk : k = k1
        · exfalso
          apply hnd.1
          rw [← hk]
          exact List.mem_map.mpr ⟨(k, v), hmem2, rfl⟩
        · have hbeq : (k == k1) = false := by
            rw [beq_eq_false_iff_ne]
            exact hk
          rw [List.lookup_cons, hbeq]
          exact ih hnd.2 hmem2

theorem value_eq_of_omap_lookup {cid : Nat} {k v : String} :
    ∀ {l : List SlotOption},
    (l.map (fun o => (o.slotId, o.key))).Nodup →
    (omap l cid).lookup k = some v →
    ∀ o ∈ l, o.slotId = cid → o.key = k → o.value = v := by
  intro l
  induction l with
  | nil => intro _ _ o ho; cases ho
  | cons o0 rest ih =>
      intro hnd hlk o ho hsl hk
      rw [List.map_cons, List.nodup_cons] at hnd
      rw [omap_cons] at hlk
      rcases List.mem_cons.mp ho with rfl | ho2
      · rw [if_pos hsl, ← hk, List.lookup_cons_self] at hlk
        simpa using hlk
      · by_cases hc : o0.slotId = cid ∧ o0.key = k
        · exfalso
          apply hnd.1
          have hpair : (o.slotId, o.key) = (o0.slotId, o0.key) := by
            rw [hsl, hk, hc.1, hc.2]
          exact hpair ▸ List.mem_map.mpr ⟨o, ho2, rfl⟩
        · by_cases hs0 : o0.slotId = cid
          · have hk0 : ¬ o0.key = k := fun hh => hc ⟨hs0, hh⟩
            have hbeq : (k == o0.key) = false := by
              rw [beq_eq_false_iff_ne]
              exact fun hh => hk0 hh.symm
            rw [if_pos hs0, List.lookup_cons, hbeq] at hlk
            exact ih hnd.2 hlk o ho2 hsl hk
          · rw [if_neg hs0] at hlk
            exact ih hnd.2 hlk o ho2 hsl hk

theorem updateOptionPure_id {st : Storage} {cid : Nat} {k v : String}
    (h : ∀ o ∈ st.options, o.slotId = cid → o.key = k → o.value = v) :
    updateOptionPure cid k v st = st := by
  show { st with options := st.options.map (fun o =>
    if o.slotId = cid ∧ o.key = k then ⟨cid, k, v⟩ else o) } = st
  have hmap : st.options.map (fun o =>
      if o.slotId = cid ∧ o.key = k then ⟨cid, k, v⟩ else o) = st.options := by
    have hcg : st.options.map (fun o =>
        if o.slotId = cid ∧ o.key = k then ⟨cid, k, v⟩ else o) =
        st.options.map (fun o => o) := by
      apply List.map_congr_left
      intro o ho
      by_cases hc : o.slotId = cid ∧ o.key = k
      · rw [if_pos hc]
        obtain ⟨h1, h2⟩ := hc
        have h3 := h o ho h1 h2
        rcases o with ⟨os, ok, ov⟩
        simp only at h1 h2 h3
        subst h1
        subst h2
        subst h3
        rfl
      · rw [if_neg hc]
    rw [hcg, List.map_id']
  rw [hmap]

theorem delAbsentPure_id (cid : Nat) (de : List (String × String)) :
    ∀ (keys : List String) (st : Storage),
    (∀ k ∈ keys, (de.lookup k).isSome) →
    delAbsentPure cid de keys st = st := by
  intro keys
  induction keys with
  | nil => intro st _; rfl
  | cons k rest ih =>
      intro st hall
      show delAbsentPure cid de rest
        (if (de.lookup k).isSome then st else deleteOptionPure cid k st) = st
      rw [if_pos (hall k (List.mem_cons_self _ _))]
      exact ih st (fun k2 h2 => hall k2 (List.mem_cons_of_mem _ h2))

theorem delAbsentTrace_nil (cid : Nat) (de : List (String × String)) (keys : List String)
    (h : ∀ k ∈ keys, (de.lookup k).isSome) :
    delAbsentTrace cid de keys = [] := by
  have hf : keys.filter (fun key => ¬ (de.lookup key).isSome) = [] := by
    rw [List.filter_eq_nil_iff]
    intro k hk
    simp [h k hk]
  show (keys.filter (fun key => ¬ (de.lookup key).isSome)).map
    (fun key => RepoCall.deleteOption cid key) = []
  rw [hf]
  rfl

theorem upsertPure_id (cid : Nat) (exKeys : List String) :
    ∀ (de : List (String × String)) (st : Storage),
    (st.options.map (fun o => (o.slotId, o.key))).Nodup →
    (∀ kv ∈ de, ∀ o ∈ st.options, o.slotId = cid → o.key = kv.1 → o.value = kv.2) →
    (∀ kv ∈ de, exKeys.contains kv.1 = true) →
    upsertPure cid exKeys de st = st := by
  intro de
  induction de with
  | nil => intro st _ _ _; rfl
  | cons kv rest ih =>
      intro st hnd hval hcont
      show upsertPure cid exKeys rest
        (if exKeys.contains kv.1 then updateOptionPure cid kv.1 kv.2 st
         else createOptionPure cid kv.1 kv.2 st) = st
      rw [if_pos (hcont kv (List.mem_cons_self _ _))]
      rw [updateOptionPure_id (hval kv (List.mem_cons_self _ _))]
      exact ih st hnd (fun kv2 h2 => hval kv2 (List.mem_cons_of_mem _ h2))
        (fun kv2 h2 => hcont kv2 (List.mem_cons_of_mem _ h2))

theorem upsertTrace_updates (cid : Nat) (exKeys : List String) (de : List (String × String))
    (hall : ∀ kv ∈ de, exKeys.contains kv.1 = true) :
    upsertTrace cid exKeys de = de.map (fun kv => RepoCall.updateOption cid kv.1 kv.2) := by
  apply List.map_congr_left
  intro kv hkv
  rw [if_pos (hall kv hkv)]

theorem setOptionsPure_id {st : Storage} {cid : Nat} {de : List (String × String)}
    (hnd : (st.options.map (fun o => (o.slotId, o.key))).Nodup)
    (hkeys : (de.map Prod.fst).Nodup)
    (hagree : ∀ k, (optionMap st cid).lookup k = de.lookup k) :
    setOptionsPure cid de st = st := by
  have hdelkeys : ∀ k ∈ (optionMap st cid).map (fun kv => kv.1), (de.lookup k).isSome := by
    intro k hk
    rw [← hagree k]
    exact lookup_isSome_of_mem_fst hk
  show upsertPure cid ((optionMap st cid).map (fun kv => kv.1)) de
    (delAbsentPure cid de ((optionMap st cid).map (fun kv => kv.1)) st) = st
  rw [delAbsentPure_id cid de _ st hdelkeys]
  apply upsertPure_id cid _ de st hnd
  · intro kv hkv o ho hsl hk
    have hlk : (optionMap st cid).lookup kv.1 = some kv.2 := by
      rw [hagree kv.1]
      exact lookup_eq_of_mem_nodup hkeys hkv
    exact value_eq_of_omap_lookup hnd hlk o ho hsl hk
  · intro kv hkv
    have hlk : ((optionMap st cid).lookup kv.1).isSome := by
      rw [hagree kv.1]
      exact lookup_isSome_of_mem_fst (List.mem_map.mpr ⟨kv, hkv, rfl⟩)
    have hmem := mem_fst_of_lookup_isSome hlk
    simpa using hmem

theorem slotLoopPure_frame_allid (viewId : Nat) :
    ∀ (ds : List SlotDescriptor) (st : Storage) (j : Nat),
    (∀ d ∈ ds, d.id?.isSome) →
    (¬ j ∈ ds.filterMap (fun d => d.id?)) →
    findSlot (slotLoopPure viewId ds st) j = findSlot st j ∧
    optionMap (slotLoopPure viewId ds st) j = optionMap st j := by
  intro ds
  induction ds with
  | nil => intro st j _ _; exact ⟨rfl, rfl⟩
  | cons d rest ih =>
      intro st j hall hnotin
      rcases hd : d.id? with _ | cid
      · exact absurd (hall d (List.mem_cons_self _ _)) (by simp [hd])
      · have hfm : (d :: rest).filterMap (fun d => d.id?) =
            cid :: rest.filterMap (fun d => d.id?) := by
          simp [List.filterMap_cons, hd]
        rw [hfm] at hnotin
        have hne : ¬ j = cid := fun hh => hnotin (hh ▸ List.mem_cons_self _ _)
        have hnotin2 : ¬ j ∈ rest.filterMap (fun d => d.id?) :=
          fun hh => hnotin (List.mem_cons_of_mem _ hh)
        have happ : slotLoopPure viewId (d :: rest) st =
            slotLoopPure viewId rest (setOptionsPure cid (d.options.getD [])
              (updateSlotPure cid d.componentType viewId d.columnStart d.rowStart
                d.columnEnd d.rowEnd st)) := by
          simp [slotLoopPure, applyDescriptorPure, hd]
        rw [happ]
        obtain ⟨hfr1, hfr2⟩ := ih (setOptionsPure cid (d.options.getD [])
          (updateSlotPure cid d.componentType viewId d.columnStart d.rowStart
            d.columnEnd d.rowEnd st)) j
          (fun d2 h2 => hall d2 (List.mem_cons_of_mem _ h2)) hnotin2
        constructor
        · rw [hfr1, findSlot_setOptionsPure,
            findSlot_updateSlotPure_other cid d.componentType viewId d.columnStart
              d.rowStart d.columnEnd d.rowEnd st j hne]
        · rw [hfr2, setOptionsPure_omap_other cid (d.options.getD []) _ j hne]
          rfl

theorem slotLoopPure_allid (viewId : Nat) :
    ∀ (ds : List SlotDescriptor) (st : Storage),
    Storage.WF st →
    (∀ i ∈ ds.filterMap (fun d => d.id?), i ∈ st.slots.map (fun c => c.id)) →
    (ds.filterMap (fun d => d.id?)).Nodup →
    (∀ d ∈ ds, ((d.options.getD []).map Prod.fst).Nodup) →
    (∀ d ∈ ds, d.id?.isSome) →
    (∀ d ∈ ds, ∀ cid, d.id? = some cid →
      MatchesSlot (slotLoopPure viewId ds st) viewId cid d) ∧
    (∀ j ∈ idsForView (slotLoopPure viewId ds st) viewId,
      j ∈ idsForView st viewId ∨ j ∈ ds.filterMap (fun d => d.id?)) ∧
    Storage.WF (slotLoopPure viewId ds st) := by
  intro ds
  induction ds with
  | nil =>
      intro st hwf _ _ _ _
      exact ⟨fun d hd => absurd hd (List.not_mem_nil d), fun j hj => Or.inl hj, hwf⟩
  | cons d rest ih =>
      intro st hwf hids hnd hkeys hall
      rcases hd : d.id? with _ | cid
      · exact absurd (hall d (List.mem_cons_self _ _)) (by simp [hd])
      · have hfm : (d :: rest).filterMap (fun d => d.id?) =
            cid :: rest.filterMap (fun d => d.id?) := by
          simp [List.filterMap_cons, hd]
        rw [hfm] at hids hnd
        rw [List.nodup_cons] at hnd
        have hcid_mem : cid ∈ st.slots.map (fun c => c.id) :=
          hids cid (List.mem_cons_self _ _)
        have hfindSome : (findSlot st cid).isSome := findSlot_isSome_of_mem_ids hcid_mem
        have hlt : cid < st.nextSlotId := lt_of_mem_ids hwf hcid_mem
        have happ : slotLoopPure viewId (d :: rest) st =
            slotLoopPure viewId rest (setOptionsPure cid (d.options.getD [])
              (updateSlotPure cid d.componentType viewId d.columnStart d.rowStart
                d.columnEnd d.rowEnd st)) := by
          simp [slotLoopPure, applyDescriptorPure, hd]
        have hwfu : Storage.WF (updateSlotPure cid d.componentType viewId d.columnStart
            d.rowStart d.columnEnd d.rowEnd st) :=
          WF_updateSlotPure cid d.componentType viewId d.columnStart d.rowStart
            d.columnEnd d.rowEnd st hwf
        have hwf1 : Storage.WF (setOptionsPure cid (d.options.getD [])
            (updateSlotPure cid d.componentType viewId d.columnStart d.rowStart
              d.columnEnd d.rowEnd st)) :=
          WF_setOptionsPure cid (d.options.getD []) _ hwfu
            (hkeys d (List.mem_cons_self _ _)) hlt
        have hids1 : (setOptionsPure cid (d.options.getD [])
            (updateSlotPure cid d.componentType viewId d.columnStart d.rowStart
              d.columnEnd d.rowEnd st)).slots.map (fun c => c.id) =
            st.slots.map (fun c => c.id) := by
          rw [show (setOptionsPure cid (d.options.getD [])
              (updateSlotPure cid d.componentType viewId d.columnStart d.rowStart
                d.columnEnd d.rowEnd st)).slots =
              (updateSlotPure cid d.componentType viewId d.columnStart d.rowStart
                d.columnEnd d.rowEnd st).slots from setOptionsPure_slots _ _ _]
          exact ids_updateSlotPure cid d.componentType viewId d.columnStart d.rowStart
            d.columnEnd d.rowEnd st
        have hmatch1 : MatchesSlot (setOptionsPure cid (d.options.getD [])
            (updateSlotPure cid d.componentType viewId d.columnStart d.rowStart
              d.columnEnd d.rowEnd st)) viewId cid d := by
          constructor
          · rw [findSlot_setOptionsPure]
            exact findSlot_updateSlotPure_self cid d.componentType viewId d.columnStart
              d.rowStart d.columnEnd d.rowEnd st hfindSome
          · obtain ⟨h1, h2, h3, h4, h5, h6, h7, h8⟩ := hwf
            exact (setOptionsPure_spec cid (d.options.getD [])
              (updateSlotPure cid d.componentType viewId d.columnStart d.rowStart
                d.columnEnd d.rowEnd st) h3 (hkeys d (List.mem_cons_self _ _))).2
        obtain ⟨hmatchR, hsubR, hwfR⟩ := ih (setOptionsPure cid (d.options.getD [])
            (updateSlotPure cid d.componentType viewId d.columnStart d.rowStart
              d.columnEnd d.rowEnd st)) hwf1
          (fun i hi => by rw [hids1]; exact hids i (List.mem_cons_of_mem _ hi))
          hnd.2 (fun d2 h2 => hkeys d2 (List.mem_cons_of_mem _ h2))
          (fun d2 h2 => hall d2 (List.mem_cons_of_mem _ h2))
        obtain ⟨hfr1, hfr2⟩ := slotLoopPure_frame_allid viewId rest
          (setOptionsPure cid (d.options.getD [])
            (updateSlotPure cid d.componentType viewId d.columnStart d.rowStart
              d.columnEnd d.rowEnd st)) cid
          (fun d2 h2 => hall d2 (List.mem_cons_of_mem _ h2)) hnd.1
        refine ⟨?_, ?_, by rw [happ]; exact hwfR⟩
        · intro d2 hd2 cid2 hcid2
          rcases List.mem_cons.mp hd2 with rfl | hd2r
          · have hc2 : cid2 = cid := by
              rw [hd] at hcid2
              injection hcid2 with hh
              exact hh.symm
            subst hc2
            rw [happ]
            exact ⟨by rw [hfr1]; exact hmatch1.1, fun k => by rw [hfr2]; exact hmatch1.2 k⟩
          · rw [happ]
            exact hmatchR d2 hd2r cid2 hcid2
        · intro j hj
          rw [hfm]
          rw [happ] at hj
          rcases hsubR j hj with hj1 | hj2
          · rw [idsForView_setOptionsPure] at hj1
            have hperm := idsForView_updateSlotPure_perm cid viewId d.componentType
              d.columnStart d.rowStart d.columnEnd d.rowEnd st hwf.1 hcid_mem
            have hj3 := hperm.mem_iff.mp hj1
            rcases List.mem_append.mp hj3 with hj4 | hj4
            · exact Or.inl (List.mem_of_mem_filter hj4)
            · have : j = cid := List.mem_singleton.mp hj4
              subst this
              exact Or.inr (List.mem_cons_self _ _)
          · exact Or.inr (List.mem_cons_of_mem _ hj2)

theorem find?_id_eq_of_mem : ∀ {l : List ContentSlot},
    (l.map (fun c => c.id)).Nodup → ∀ {c : ContentSlot}, c ∈ l →
    l.find? (fun x => x.id = c.id) = some c := by
  intro l
  induction l with
  | nil => intro _ c hc; cases hc
  | cons x rest ih =>
      intro hnd c hc
      rw [List.map_cons, List.nodup_cons] at hnd
      rcases List.mem_cons.mp hc with rfl | hc2
      · rw [List.find?_cons_of_pos _ (by simp)]
      · by_cases hx : x.id = c.id
        · exfalso
          apply hnd.1
          rw [hx]
          exact List.mem_map.mpr ⟨c, hc2, rfl⟩
        · rw [List.find?_cons_of_neg _ (by simpa using hx)]
          exact ih hnd.2 hc2

theorem updateSlotPure_id {st : Storage} {cid viewId : Nat} {d : SlotDescriptor}
    (hnd : (st.slots.map (fun c => c.id)).Nodup)
    (hfind : findSlot st cid = some (slotOf viewId cid d)) :
    updateSlotPure cid d.componentType viewId d.columnStart d.rowStart d.columnEnd
      d.rowEnd st = st := by
  show { st with slots := st.slots.map (fun c =>
    if c.id = cid then ⟨cid, d.componentType, viewId, d.columnStart, d.rowStart,
      d.columnEnd, d.rowEnd⟩ else c) } = st
  have hmap : st.slots.map (fun c =>
      if c.id = cid then (⟨cid, d.componentType, viewId, d.columnStart, d.rowStart,
        d.columnEnd, d.rowEnd⟩ : ContentSlot) else c) = st.slots := by
    have hcg : st.slots.map (fun c =>
        if c.id = cid then (⟨cid, d.componentType, viewId, d.columnStart, d.rowStart,
          d.columnEnd, d.rowEnd⟩ : ContentSlot) else c) =
        st.slots.map (fun c => c) := by
      apply List.map_congr_left
      intro c hc
      by_cases hcc : c.id = cid
      · rw [if_pos hcc]
        have h1 : st.slots.find? (fun x => x.id = c.id) = some c := find?_id_eq_of_mem hnd hc
        rw [hcc] at h1
        have h0 : st.slots.find? (fun x => x.id = cid) = some (slotOf viewId cid d) := hfind
        have h3 : some (slotOf viewId cid d) = some c := h0.symm.trans h1
        exact Option.some.inj h3
      · rw [if_neg hcc]
    rw [hcg, List.map_id']
  rw [hmap]

/-- NoCreateDelete c: the call c creates or deletes no slot row and no option
row (reads and in-place updates only). -/
def NoCreateDelete : RepoCall → Prop
  | RepoCall.createContentSlot _ _ _ _ _ _ => False
  | RepoCall.deleteContentSlot _ => False
  | RepoCall.deleteOptionsForContentSlot _ => False
  | RepoCall.createOption _ _ _ => False
  | RepoCall.deleteOption _ _ => False
  | _ => True

theorem noCreateDelete_setOptionsTrace_agree {cid : Nat} {de : List (String × String)}
    {st : Storage} (hagree : ∀ k, (optionMap st cid).lookup k = de.lookup k) :
    ∀ c ∈ setOptionsTrace cid de st, NoCreateDelete c := by
  intro c hc
  have hdel : delAbsentTrace cid de ((optionMap st cid).map (fun kv => kv.1)) = [] :=
    delAbsentTrace_nil cid de _ (fun k hk => by
      rw [← hagree k]
      exact lookup_isSome_of_mem_fst hk)
  have hups : upsertTrace cid ((optionMap st cid).map (fun kv => kv.1)) de =
      de.map (fun kv => RepoCall.updateOption cid kv.1 kv.2) :=
    upsertTrace_updates cid _ de (fun kv hkv => by
      have hsome : ((optionMap st cid).lookup kv.1).isSome := by
        rw [hagree kv.1]
        exact lookup_isSome_of_mem_fst (List.mem_map.mpr ⟨kv, hkv, rfl⟩)
      simpa using mem_fst_of_lookup_isSome hsome)
  rw [show setOptionsTrace cid de st = RepoCall.getOptionsForContentSlot cid ::
      (delAbsentTrace cid de ((optionMap st cid).map (fun kv => kv.1)) ++
        upsertTrace cid ((optionMap st cid).map (fun kv => kv.1)) de ++
        [RepoCall.getOptionsForContentSlot cid]) from rfl] at hc
  rw [hdel, hups] at hc
  rcases List.mem_cons.mp hc with rfl | hc2
  · simp [NoCreateDelete]
  · rcases List.mem_append.mp hc2 with hc3 | hc3
    · rcases List.mem_append.mp hc3 with hc4 | hc4
      · cases hc4
      · obtain ⟨kv, _, h⟩ := List.mem_map.mp hc4
        subst h
        simp [NoCreateDelete]
    · have h5 := List.mem_singleton.mp hc3
      subst h5
      simp [NoCreateDelete]

theorem slotLoop_id_spec (viewId : Nat) :
    ∀ (ds : List SlotDescriptor) (st : Storage),
    Storage.WF st →
    (∀ d ∈ ds, d.id?.isSome) →
    (∀ d ∈ ds, ((d.options.getD []).map Prod.fst).Nodup) →
    (∀ d ∈ ds, ∀ cid, d.id? = some cid → MatchesSlot st viewId cid d) →
    slotLoopPure viewId ds st = st ∧
    (∀ c ∈ slotLoopTrace viewId ds st, NoCreateDelete c) := by
  intro ds
  induction ds with
  | nil =>
      intro st _ _ _ _
      exact ⟨rfl, fun c hc => absurd hc (List.not_mem_nil c)⟩
  | cons d rest ih =>
      intro st hwf hall hkeys hmatch
      rcases hd : d.id? with _ | cid
      · exact absurd (hall d (List.mem_cons_self _ _)) (by simp [hd])
      · have hm := hmatch d (List.mem_cons_self _ _) cid hd
        have hupd : updateSlotPure cid d.componentType viewId d.columnStart d.rowStart
            d.columnEnd d.rowEnd st = st := updateSlotPure_id hwf.1 hm.1
        have hset : setOptionsPure cid (d.options.getD []) st = st :=
          setOptionsPure_id hwf.2.2.1 (hkeys d (List.mem_cons_self _ _)) hm.2
        have happly : applyDescriptorPure viewId st d = st := by
          rw [show applyDescriptorPure viewId st d = setOptionsPure cid (d.options.getD [])
            (updateSlotPure cid d.componentType viewId d.columnStart d.rowStart
              d.columnEnd d.rowEnd st) from by simp [applyDescriptorPure, hd]]
          rw [hupd, hset]
        obtain ⟨ihPure, ihTr⟩ := ih st hwf
          (fun d2 h2 => hall d2 (List.mem_cons_of_mem _ h2))
          (fun d2 h2 => hkeys d2 (List.mem_cons_of_mem _ h2))
          (fun d2 h2 cid2 hc2 => hmatch d2 (List.mem_cons_of_mem _ h2) cid2 hc2)
        constructor
        · show slotLoopPure viewId rest (applyDescriptorPure viewId st d) = st
          rw [happly, ihPure]
        · intro c hc
          rw [show slotLoopTrace viewId (d :: rest) st =
            RepoCall.getContentSlot cid ::
              RepoCall.updateContentSlot cid d.componentType viewId d.columnStart
                d.rowStart d.columnEnd d.rowEnd ::
              (setOptionsTrace cid (d.options.getD [])
                (updateSlotPure cid d.componentType viewId d.columnStart d.rowStart
                  d.columnEnd d.rowEnd st) ++
                slotLoopTrace viewId rest (applyDescriptorPure viewId st d)) from by
              simp [slotLoopTrace, hd]] at hc
          rw [hupd, happly] at hc
          rcases List.mem_cons.mp hc with rfl | hc2
          · simp [NoCreateDelete]
          · rcases List.mem_cons.mp hc2 with rfl | hc3
            · simp [NoCreateDelete]
            · rcases List.mem_append.mp hc3 with hc4 | hc4
              · exact noCreateDelete_setOptionsTrace_agree hm.2 c hc4
              · exact ihTr c hc4

/-- Counterexample to claim C3 as stated: reconciling view 7 twice with the
same desired list, one id-less clock descriptor, is not idempotent: the first
call persists slot 1, the second call deletes slot 1 and creates slot 2 — the
persisted slot set changes (its identity moves from 1 to 2) and the second
call performs a delete and a create beyond what the first settled, because an
id-less descriptor never matches any existing slot in the diff (line 199). -/
theorem c3_counterexample :
    (DisplayService.updateContentSlotsForView 7
        [⟨none, "clock", none, 0, 0, 1, 1, none⟩]).run
      ⟨⟨[], [], [], [], 1, 1, 1⟩, [], [], []⟩ =
      (Except.ok (), ⟨⟨[], [], [⟨1, "clock", 7, 0, 0, 1, 1⟩], [], 1, 1, 2⟩,
        [RepoCall.getContentSlotsByViewId 7, RepoCall.createContentSlot "clock" 7 0 0 1 1,
         RepoCall.getOptionsForContentSlot 1, RepoCall.getOptionsForContentSlot 1],
        [], []⟩) ∧
    (DisplayService.updateContentSlotsForView 7
        [⟨none, "clock", none, 0, 0, 1, 1, none⟩]).run
      ⟨⟨[], [], [⟨1, "clock", 7, 0, 0, 1, 1⟩], [], 1, 1, 2⟩,
        [RepoCall.getContentSlotsByViewId 7, RepoCall.createContentSlot "clock" 7 0 0 1 1,
         RepoCall.getOptionsForContentSlot 1, RepoCall.getOptionsForContentSlot 1],
        [], []⟩ =
      (Except.ok (), ⟨⟨[], [], [⟨2, "clock", 7, 0, 0, 1, 1⟩], [], 1, 1, 3⟩,
        [RepoCall.getContentSlotsByViewId 7, RepoCall.createContentSlot "clock" 7 0 0 1 1,
         RepoCall.getOptionsForContentSlot 1, RepoCall.getOptionsForContentSlot 1,
         RepoCall.getContentSlotsByViewId 7, RepoCall.deleteOptionsForContentSlot 1,
         RepoCall.deleteContentSlot 1, RepoCall.createContentSlot "clock" 7 0 0 1 1,
         RepoCall.getOptionsForContentSlot 2, RepoCall.getOptionsForContentSlot 2],
        [], []⟩) ∧
    idsForView ⟨[], [], [⟨1, "clock", 7, 0, 0, 1, 1⟩], [], 1, 1, 2⟩ 7 = [1] ∧
    idsForView ⟨[], [], [⟨2, "clock", 7, 0, 0, 1, 1⟩], [], 1, 1, 3⟩ 7 = [2] := by
  exact ⟨rfl, rfl, by decide, by decide⟩

/-- Claim C3 (amended): for desired lists in which every descriptor carries an
identity, reconciliation is idempotent: after one successful run, running
updateContentSlotsForView again with the same desired list succeeds, leaves
the persisted store (slot set and option maps) literally unchanged, and its
issued calls create and delete nothing — no slot or option row is created or
deleted, only reads and value-preserving in-place updates are issued; the
option-set reconciler is likewise idempotent on a fixed desired mapping.  The
all-identities qualification is forced: an id-less descriptor never matches
any existing slot in the diff of line 199, so re-submitting it deletes and
recreates its slot under a fresh identity — see the counterexample. -/
theorem c3_idempotent
    (s : St) (viewId : Nat) (ds : List SlotDescriptor) (s2 : St)
    (hwf : Storage.WF s.store) (hval : ValidDesired s.store ds)
    (hfault : s.faultOn = [])
    (hall : ∀ d ∈ ds, d.id?.isSome)
    (hrun1 : (DisplayService.updateContentSlotsForView viewId ds).run s =
      (Except.ok (), s2)) :
    ∃ s3,
      (DisplayService.updateContentSlotsForView viewId ds).run s2 = (Except.ok (), s3) ∧
      s3.store = s2.store ∧
      s3.calls = s2.calls ++ reconcileTrace viewId ds s2.store ∧
      (∀ c ∈ reconcileTrace viewId ds s2.store, NoCreateDelete c) ∧
      (∀ (cid : Nat) (de : List (String × String)) (st : Storage),
        (st.options.map (fun o => (o.slotId, o.key))).Nodup →
        (de.map Prod.fst).Nodup →
        setOptionsPure cid de (setOptionsPure cid de st) = setOptionsPure cid de st) := by
  obtain ⟨hnd_ids, hids0, hkeys⟩ := hval
  have hids : ∀ i ∈ ds.filterMap (fun d => d.id?), (findSlot s.store i).isSome :=
    fun i hi => findSlot_isSome_of_mem_ids (hids0 i hi)
  rw [run_updateContentSlotsForView viewId ds s hfault hids] at hrun1
  have h2 := congrArg Prod.snd hrun1
  simp only at h2
  subst h2
  have hrm_not : ∀ i ∈ ds.filterMap (fun d => d.id?),
      (removedIds s.store viewId ds).contains i = false := by
    intro i hi
    rw [Bool.eq_false_iff]
    intro hcc
    have hmem : i ∈ removedIds s.store viewId ds := by simpa using hcc
    rw [removedIds_eq] at hmem
    have hp := List.of_mem_filter hmem
    have hsubm : i ∈ submittedIds ds := by
      rw [submittedIds_eq]
      exact hi
    simp [hsubm] at hp
  have hids_t0 : ∀ i ∈ ds.filterMap (fun d => d.id?),
      i ∈ (removePure (removedIds s.store viewId ds) s.store).slots.map (fun c => c.id) := by
    intro i hi
    rw [ids_removePure]
    refine List.mem_filter.mpr ⟨hids0 i hi, ?_⟩
    simpa using hrm_not i hi
  have hwf0 : Storage.WF (removePure (removedIds s.store viewId ds) s.store) :=
    WF_removePure _ s.store hwf
  obtain ⟨hmatchAll, hsub, hwf1⟩ := slotLoopPure_allid viewId ds
    (removePure (removedIds s.store viewId ds) s.store) hwf0 hids_t0 hnd_ids hkeys hall
  have hrm2 : removedIds (reconcilePure viewId ds s.store) viewId ds = [] := by
    rw [removedIds_eq, List.filter_eq_nil_iff]
    intro j hj
    have hjsub : j ∈ submittedIds ds := by
      rcases hsub j hj with hj1 | hj1
      · rw [idsForView_removePure] at hj1
        have hjmem := List.mem_of_mem_filter hj1
        have hjp := List.of_mem_filter hj1
        have hnotrm : ¬ j ∈ removedIds s.store viewId ds := by simpa using hjp
        by_contra hcc
        apply hnotrm
        rw [removedIds_eq]
        refine List.mem_filter.mpr ⟨hjmem, ?_⟩
        have hcc2 : ¬ (submittedIds ds).contains j = true :=
          fun hc3 => hcc (by simpa using hc3)
        simpa using hcc2
      · rw [submittedIds_eq]
        exact hj1
    simpa using hjsub
  obtain ⟨hidPure, hidTrace⟩ := slotLoop_id_spec viewId ds
    (reconcilePure viewId ds s.store) hwf1 hall hkeys hmatchAll
  have hids2 : ∀ i ∈ ds.filterMap (fun d => d.id?),
      (findSlot (reconcilePure viewId ds s.store) i).isSome := by
    intro i hi
    obtain ⟨d, hd, hdi⟩ := List.mem_filterMap.mp hi
    have hfd : findSlot (reconcilePure viewId ds s.store) i = some (slotOf viewId i d) :=
      (hmatchAll d hd i hdi).1
    rw [hfd]
    rfl
  have hfix : reconcilePure viewId ds (reconcilePure viewId ds s.store) =
      reconcilePure viewId ds s.store := by
    show slotLoopPure viewId ds
      (removePure (removedIds (reconcilePure viewId ds s.store) viewId ds)
        (reconcilePure viewId ds s.store)) = _
    rw [hrm2]
    exact hidPure
  have htr2 : ∀ c ∈ reconcileTrace viewId ds (reconcilePure viewId ds s.store),
      NoCreateDelete c := by
    intro c hc
    rw [show reconcileTrace viewId ds (reconcilePure viewId ds s.store) =
      RepoCall.getContentSlotsByViewId viewId ::
        (removeTrace (removedIds (reconcilePure viewId ds s.store) viewId ds) ++
          slotLoopTrace viewId ds
            (removePure (removedIds (reconcilePure viewId ds s.store) viewId ds)
              (reconcilePure viewId ds s.store))) from rfl, hrm2] at hc
    rcases List.mem_cons.mp hc with rfl | hc2
    · simp [NoCreateDelete]
    · rcases List.mem_append.mp hc2 with hc3 | hc3
      · cases hc3
      · exact hidTrace c hc3
  refine ⟨_, run_updateContentSlotsForView viewId ds
    ⟨reconcilePure viewId ds s.store, s.calls ++ reconcileTrace viewId ds s.store,
      s.events, s.faultOn⟩ hfault hids2, hfix, rfl, htr2, ?_⟩
  intro cid de st hnd hkeys2
  obtain ⟨hnd2, hagree2⟩ := setOptionsPure_spec cid de st hnd hkeys2
  exact setOptionsPure_id hnd2 hkeys2 hagree2

/-- Witness for the amended C3: view 7 holds slot 1 (weather, color=red); the
desired list resubmits slot 1 by identity with the same content.  After the
first run the store is unchanged up to the value-preserving update, and the
second run succeeds, changes nothing in the store, and issues no create or
delete call. -/
theorem c3_idempotent_witness :
    ∃ s3,
      (DisplayService.updateContentSlotsForView 7
          [⟨some 1, "weather", none, 0, 0, 1, 1, some [("color", "red")]⟩]).run
        ⟨⟨[], [], [⟨1, "weather", 7, 0, 0, 1, 1⟩], [⟨1, "color", "red"⟩], 1, 1, 2⟩,
          [RepoCall.getContentSlotsByViewId 7, RepoCall.getContentSlot 1,
           RepoCall.updateContentSlot 1 "weather" 7 0 0 1 1,
           RepoCall.getOptionsForContentSlot 1, RepoCall.updateOption 1 "color" "red",
           RepoCall.getOptionsForContentSlot 1], [], []⟩ = (Except.ok (), s3) ∧
      s3.store = (⟨⟨[], [], [⟨1, "weather", 7, 0, 0, 1, 1⟩], [⟨1, "color", "red"⟩], 1, 1, 2⟩,
          [RepoCall.getContentSlotsByViewId 7, RepoCall.getContentSlot 1,
           RepoCall.updateContentSlot 1 "weather" 7 0 0 1 1,
           RepoCall.getOptionsForContentSlot 1, RepoCall.updateOption 1 "color" "red",
           RepoCall.getOptionsForContentSlot 1], [], []⟩ : St).store ∧
      s3.calls = (⟨⟨[], [], [⟨1, "weather", 7, 0, 0, 1, 1⟩], [⟨1, "color", "red"⟩], 1, 1, 2⟩,
          [RepoCall.getContentSlotsByViewId 7, RepoCall.getContentSlot 1,
           RepoCall.updateContentSlot 1 "weather" 7 0 0 1 1,
           RepoCall.getOptionsForContentSlot 1, RepoCall.updateOption 1 "color" "red",
           RepoCall.getOptionsForContentSlot 1], [], []⟩ : St).calls ++
        reconcileTrace 7 [⟨some 1, "weather", none, 0, 0, 1, 1, some [("color", "red")]⟩]
          ⟨[], [], [⟨1, "weather", 7, 0, 0, 1, 1⟩], [⟨1, "color", "red"⟩], 1, 1, 2⟩ ∧
      (∀ c ∈ reconcileTrace 7 [⟨some 1, "weather", none, 0, 0, 1, 1, some [("color", "red")]⟩]
          ⟨[], [], [⟨1, "weather", 7, 0, 0, 1, 1⟩], [⟨1, "color", "red"⟩], 1, 1, 2⟩,
        NoCreateDelete c) ∧
      (∀ (cid : Nat) (de : List (String × String)) (st : Storage),
        (st.options.map (fun o => (o.slotId, o.key))).Nodup →
        (de.map Prod.fst).Nodup →
        setOptionsPure cid de (setOptionsPure cid de st) = setOptionsPure cid de st) :=
  c3_idempotent
    ⟨⟨[], [], [⟨1, "weather", 7, 0, 0, 1, 1⟩], [⟨1, "color", "red"⟩], 1, 1, 2⟩, [], [], []⟩
    7 [⟨some 1, "weather", none, 0, 0, 1, 1, some [("color", "red")]⟩]
    ⟨⟨[], [], [⟨1, "weather", 7, 0, 0, 1, 1⟩], [⟨1, "color", "red"⟩], 1, 1, 2⟩,
      [RepoCall.getContentSlotsByViewId 7, RepoCall.getContentSlot 1,
       RepoCall.updateContentSlot 1 "weather" 7 0 0 1 1,
       RepoCall.getOptionsForContentSlot 1, RepoCall.updateOption 1 "color" "red",
       RepoCall.getOptionsForContentSlot 1], [], []⟩
    (by unfold Storage.WF; decide) (by unfold ValidDesired; decide) rfl (by decide) rfl
